import Mathlib

/-!
# UrBackup server, `urbackupserver/FileBackup.cpp`

A shallow embedding of the file-backup coordinator.

* `std::string` is `Str = List Char`; every `Char` stands for one `char` of the C++ string.
* `std::set<std::string>` is a list used through membership and insertion only.
* `std::map<std::string, std::string>` (`filepath_corrections`) is a function into `Option`.
* `fixFilenameForOS` is compiled twice by the preprocessor; the two variants live in the
  namespaces `Posix` (the `#else` branch) and `Win32` (the `#ifdef _WIN32` branch).
* Collaborators that are not part of `FileBackup.cpp` (`GenerateHexMD5`, the UTF-8 library) are
  parameters of the embedded functions; a concrete instance of each is given so that the
  functions can be run on concrete names.
-/

namespace FileBackup

/-! ## Strings -/

/-- A `std::string`: a sequence of `char`s. -/
abbrev Str := List Char

/-- The macro `NAME_MAX` of `<limits.h>` on the POSIX-like target (255 on Linux). -/
def NAME_MAX : Nat := 255

/-- The macro `MAX_PATH` of the Windows headers (260). -/
def MAX_PATH : Nat := 260

/-- Modelled from the spec: `ReplaceChar(str, from, to)` of `stringtools` is not part of
`FileBackup.cpp`; the legalizer "replaces" every disallowed character, so every occurrence of
`src` becomes `dst` and all other characters stay. -/
def ReplaceChar (s : Str) (src dst : Char) : Str :=
  s.map fun c => if c = src then dst else c

/-- Modelled from the spec: `strlower` of `stringtools` is not part of `FileBackup.cpp`; it is
the lower-casing used to detect names "differing only in case" (`tolower` on every `char`). -/
def strlower (s : Str) : Str :=
  s.map Char.toLower

/-- Modelled from the spec: `convert(size_t)` of `stringtools` is not part of `FileBackup.cpp`;
it yields the decimal digits `<n>` of the suffix `_<n>`. -/
def convert (n : Nat) : Str :=
  if n = 0 then [Char.ofNat 48] else (Nat.digits 10 n).reverse.map Nat.digitChar

/-- Modelled from the spec: `next(str, pos, needle)` of `stringtools` is not part of
`FileBackup.cpp`; with `pos = 0` it tests whether `str` starts with `needle` (reserved basenames
"with any suffix"). -/
def next (str : Str) (pos : Nat) (needle : Str) : Bool :=
  needle.isPrefixOf (str.drop pos)

/-! ## MD5 (the `GenerateHexMD5` collaborator) -/

/-- Per-round left-rotation amounts of MD5 (RFC 1321). -/
def md5S : List Nat :=
  [7, 12, 17, 22, 7, 12, 17, 22, 7, 12, 17, 22, 7, 12, 17, 22,
   5, 9, 14, 20, 5, 9, 14, 20, 5, 9, 14, 20, 5, 9, 14, 20,
   4, 11, 16, 23, 4, 11, 16, 23, 4, 11, 16, 23, 4, 11, 16, 23,
   6, 10, 15, 21, 6, 10, 15, 21, 6, 10, 15, 21, 6, 10, 15, 21]

/-- Per-round additive constants of MD5 (RFC 1321). -/
def md5K : List Nat :=
  [0xd76aa478, 0xe8c7b756, 0x242070db, 0xc1bdceee, 0xf57c0faf, 0x4787c62a, 0xa8304613, 0xfd469501,
   0x698098d8, 0x8b44f7af, 0xffff5bb1, 0x895cd7be, 0x6b901122, 0xfd987193, 0xa679438e, 0x49b40821,
   0xf61e2562, 0xc040b340, 0x265e5a51, 0xe9b6c7aa, 0xd62f105d, 0x02441453, 0xd8a1e681, 0xe7d3fbc8,
   0x21e1cde6, 0xc33707d6, 0xf4d50d87, 0x455a14ed, 0xa9e3e905, 0xfcefa3f8, 0x676f02d9, 0x8d2a4c8a,
   0xfffa3942, 0x8771f681, 0x6d9d6122, 0xfde5380c, 0xa4beea44, 0x4bdecfa9, 0xf6bb4b60, 0xbebfbc70,
   0x289b7ec6, 0xeaa127fa, 0xd4ef3085, 0x04881d05, 0xd9d4d039, 0xe6db99e5, 0x1fa27cf8, 0xc4ac5665,
   0xf4292244, 0x432aff97, 0xab9423a7, 0xfc93a039, 0x655b59c3, 0x8f0ccc92, 0xffeff47d, 0x85845dd1,
   0x6fa87e4f, 0xfe2ce6e0, 0xa3014314, 0x4e0811a1, 0xf7537e82, 0xbd3af235, 0x2ad7d2bb, 0xeb86d391]

/-- The modulus of 32-bit words. -/
def w32 : Nat := 2 ^ 32

/-- Rotate a 32-bit word left by `c` bits. -/
def rotl32 (x c : Nat) : Nat := ((x <<< c) % w32) ||| (x >>> (32 - c))

/-- The four bytes of a 32-bit word, least significant first. -/
def le32 (x : Nat) : List Nat := [x % 256, x / 256 % 256, x / 65536 % 256, x / 16777216 % 256]

/-- The `j`-th little-endian 32-bit word of a block of bytes. -/
def word32 (bs : List Nat) (j : Nat) : Nat :=
  bs.getD (4 * j) 0 + 256 * bs.getD (4 * j + 1) 0 + 65536 * bs.getD (4 * j + 2) 0
    + 16777216 * bs.getD (4 * j + 3) 0

/-- MD5 padding: a `0x80` byte, zeros up to 56 mod 64, then the bit length as 64 bits. -/
def md5Pad (msg : List Nat) : List Nat :=
  msg ++ [0x80] ++ List.replicate ((119 - msg.length % 64) % 64) 0
    ++ le32 (8 * msg.length % w32) ++ le32 (8 * msg.length / w32 % w32)

/-- The four chaining words of MD5. -/
structure Md5State where
  a : Nat
  b : Nat
  c : Nat
  d : Nat

/-- One of the 64 operations on a block. -/
def md5Step (blk : List Nat) (s : Md5State) (i : Nat) : Md5State :=
  let f :=
    if i < 16 then (s.b &&& s.c) ||| ((s.b ^^^ (w32 - 1)) &&& s.d)
    else if i < 32 then (s.d &&& s.b) ||| ((s.d ^^^ (w32 - 1)) &&& s.c)
    else if i < 48 then s.b ^^^ s.c ^^^ s.d
    else s.c ^^^ (s.b ||| (s.d ^^^ (w32 - 1)))
  let g :=
    if i < 16 then i
    else if i < 32 then (5 * i + 1) % 16
    else if i < 48 then (3 * i + 5) % 16
    else (7 * i) % 16
  let x := (f + s.a + md5K.getD i 0 + word32 blk g) % w32
  { a := s.d, b := (s.b + rotl32 x (md5S.getD i 0)) % w32, c := s.b, d := s.c }

/-- Compression of one 64-byte block. -/
def md5Block (s : Md5State) (blk : List Nat) : Md5State :=
  let t := (List.range 64).foldl (md5Step blk) s
  { a := (s.a + t.a) % w32, b := (s.b + t.b) % w32, c := (s.c + t.c) % w32,
    d := (s.d + t.d) % w32 }

/-- Compression of `n` consecutive blocks. -/
def md5Blocks : Nat → Md5State → List Nat → Md5State
  | 0, s, _ => s
  | n + 1, s, bs => md5Blocks n (md5Block s (bs.take 64)) (bs.drop 64)

/-- The 16 digest bytes of a message given as bytes. -/
def md5 (msg : List Nat) : List Nat :=
  let p := md5Pad msg
  let s := md5Blocks (p.length / 64) ⟨0x67452301, 0xefcdab89, 0x98badcfe, 0x10325476⟩ p
  le32 s.a ++ le32 s.b ++ le32 s.c ++ le32 s.d

/-- A lower-case hexadecimal digit. -/
def hexDigit (n : Nat) : Char := "0123456789abcdef".toList.getD n (Char.ofNat 48)

/-- The two hexadecimal digits of a byte. -/
def hexByte (b : Nat) : Str := [hexDigit (b / 16 % 16), hexDigit (b % 16)]

/-- Modelled from the spec: `Server->GenerateHexMD5` is not part of `FileBackup.cpp`; the spec
names its result the "hex chars of MD5(original name)", i.e. the RFC 1321 digest of the bytes
of the name written as 32 hexadecimal digits. -/
def GenerateHexMD5 (s : Str) : Str :=
  (md5 (s.map fun c => c.toNat % 256)).flatMap hexByte

/-- A hexadecimal digit, as `GenerateHexMD5` is assumed to return them. -/
def isHexChar (c : Char) : Bool :=
  c.isDigit || (decide ('a' ≤ c) && decide (c ≤ 'f')) || (decide ('A' ≤ c) && decide (c ≤ 'F'))

/-! ## The UTF-8 collaborator (`../utf8/utf8.h`) -/

/-- The two calls into the UTF-8 library made by the Windows variant of `fixFilenameForOS`.
`utf8to16 s` gives the 16-bit units appended to `tmp` and whether the call threw;
`utf16to8 tmp` gives the bytes appended to `ret` (an exception of this call is swallowed). -/
structure Utf8Codec where
  utf8to16 : Str → List Nat × Bool
  utf16to8 : List Nat → Str

/-- Decoding of one code point from the front of a byte sequence (`utf8::next`); `none` stands
for a thrown exception (invalid lead byte, incomplete or overlong sequence, invalid code
point). -/
def utf8Next : List Nat → Option (Nat × List Nat)
  | [] => none
  | b0 :: r =>
    if b0 < 0x80 then some (b0, r)
    else if b0 / 32 = 6 then
      match r with
      | b1 :: r1 =>
        let cp := (b0 % 32) * 64 + b1 % 64
        if b1 / 64 = 2 ∧ 0x80 ≤ cp then some (cp, r1) else none
      | [] => none
    else if b0 / 16 = 14 then
      match r with
      | b1 :: b2 :: r2 =>
        let cp := (b0 % 16) * 4096 + (b1 % 64) * 64 + b2 % 64
        if b1 / 64 = 2 ∧ b2 / 64 = 2 ∧ 0x800 ≤ cp ∧ ¬ (0xd800 ≤ cp ∧ cp ≤ 0xdfff) then
          some (cp, r2)
        else none
      | _ => none
    else if b0 / 8 = 30 then
      match r with
      | b1 :: b2 :: b3 :: r3 =>
        let cp := (b0 % 8) * 262144 + (b1 % 64) * 4096 + (b2 % 64) * 64 + b3 % 64
        if b1 / 64 = 2 ∧ b2 / 64 = 2 ∧ b3 / 64 = 2 ∧ 0x10000 ≤ cp ∧ cp ≤ 0x10ffff then
          some (cp, r3)
        else none
      | _ => none
    else none

/-- The loop of `utf8::utf8to16`: decode code points and append their UTF-16 units to `tmp`
until the input is used up (`false`) or a decoding step throws (`true`). Every step consumes
at least one byte, so `bs.length + 1` rounds are never used up. -/
def utf8to16Loop : Nat → List Nat → List Nat → List Nat × Bool
  | 0, _, tmp => (tmp, true)
  | fuel + 1, bs, tmp =>
    match bs with
    | [] => (tmp, false)
    | _ :: _ =>
      match utf8Next bs with
      | none => (tmp, true)
      | some (cp, rest) =>
        utf8to16Loop fuel rest
          (tmp ++ if 0xffff < cp then [cp / 1024 + 0xd7c0, cp % 1024 + 0xdc00] else [cp])

/-- UTF-8 encoding of one code point. -/
def utf8Encode (cp : Nat) : List Nat :=
  if cp < 0x80 then [cp]
  else if cp < 0x800 then [cp / 64 + 0xc0, cp % 64 + 0x80]
  else if cp < 0x10000 then [cp / 4096 + 0xe0, cp / 64 % 64 + 0x80, cp % 64 + 0x80]
  else [cp / 262144 + 0xf0, cp / 4096 % 64 + 0x80, cp / 64 % 64 + 0x80, cp % 64 + 0x80]

/-- The loop of `utf8::utf16to8`: the bytes written before the input ends or the call
throws (lone surrogate). -/
def utf16to8Bytes : List Nat → List Nat
  | [] => []
  | u :: r =>
    if 0xd800 ≤ u ∧ u ≤ 0xdbff then
      match r with
      | t :: r2 =>
        if 0xdc00 ≤ t ∧ t ≤ 0xdfff then
          utf8Encode (u * 1024 + t - 0x35fdc00) ++ utf16to8Bytes r2
        else []
      | [] => []
    else if 0xdc00 ≤ u ∧ u ≤ 0xdfff then []
    else utf8Encode u ++ utf16to8Bytes r

/-- Modelled from the spec: the UTF-8 library `../utf8/utf8.h` is not part of
`FileBackup.cpp`; the spec has the legalizer "validate UTF-8; on failure, re-encode via UTF-16
round-trip", so `utf8to16` validates as RFC 3629 demands and `utf16to8` encodes back. -/
def utf8cpp : Utf8Codec where
  utf8to16 s := utf8to16Loop (s.length + 1) (s.map fun c => c.toNat % 256) []
  utf16to8 tmp := (utf16to8Bytes tmp).map Char.ofNat

/-! ## The path legalizer `fixFilenameForOS` (lines 600-746) -/

/-- The member `filepath_corrections`, a `std::map<std::string, std::string>`. -/
abbrev PathCorrections := Str → Option Str

/-- The state a call of `fixFilenameForOS` leaves behind: the returned name, the local
`modified_filename` at the end of the call, the set passed by reference and the member
`filepath_corrections`. -/
structure FixResult where
  ret : Str
  modified_filename : Bool
  samedir_filenames : List Str
  filepath_corrections : PathCorrections

/-- The call `s.resize(n)`: cut to `n` chars, or fill up with `'\0'`. -/
def resize (s : Str) (n : Nat) : Str :=
  s.take n ++ List.replicate (n - s.length) (Char.ofNat 0)

/-- Lines 697-707, the body of the loop over `disallowed_chars`, on the pair
`(ret, modified_filename)`. -/
def replaceStep (fn : Str) (st : Str × Bool) (ch : Char) : Str × Bool :=
  if ch ∈ fn then
    (ReplaceChar (if st.2 then st.1 else fn) ch '_', true)
  else st

/-- Lines 695-708, the loop over `disallowed_chars`. -/
def replaceDisallowed (disallowed_chars fn : Str) (st : Str × Bool) : Str × Bool :=
  disallowed_chars.foldl (replaceStep fn) st

/-- Lines 710-718: append `-` and the first 10 chars of the hex MD5 of `fn` to a modified
name, take `fn` itself otherwise. -/
def appendHash (hexMD5 : Str → Str) (fn : Str) (st : Str × Bool) : Str :=
  if st.2 then st.1 ++ ['-'] ++ (hexMD5 fn).take 10 else fn

/-- Lines 733-743: the write to `filepath_corrections`. -/
def recordCorrection (fn curr_path ret : Str) (modified_filename : Bool)
    (filepath_corrections : PathCorrections) : PathCorrections :=
  if modified_filename then
    if curr_path.isEmpty then Function.update filepath_corrections fn (some ret)
    else Function.update filepath_corrections (curr_path ++ ['/'] ++ fn) (some ret)
  else filepath_corrections

namespace Posix

/-- Line 692. -/
def disallowed_chars : Str := ['/']

/-- Lines 679-689, the `do ... while` loop on `ret`: drop the last char, repeat while
`ret.size() >= NAME_MAX-11`. (`ret.size()-1` is a `size_t`; the loop is entered with a
non-empty `ret` only.) -/
def shortenLoop (ret : Str) : Str :=
  if NAME_MAX - 11 ≤ (resize ret (ret.length - 1)).length then
    shortenLoop (resize ret (ret.length - 1))
  else resize ret (ret.length - 1)
termination_by ret.length
decreasing_by
  rename_i h
  simp only [resize, List.length_append, List.length_take, List.length_replicate,
    NAME_MAX] at h ⊢
  omega

/-- The `#else` variant of `fixFilenameForOS` (lines 674-692 and the common part); `hexMD5`
is `Server->GenerateHexMD5`. -/
def fixFilenameForOS (hexMD5 : Str → Str) (filepath_corrections : PathCorrections)
    (fn : Str) (samedir_filenames : List Str) (curr_path : Str) : FixResult :=
  let st0 : Str × Bool := if NAME_MAX - 11 ≤ fn.length then (shortenLoop fn, true) else ([], false)
  let st1 := replaceDisallowed disallowed_chars fn st0
  let ret := appendHash hexMD5 fn st1
  { ret := ret
    modified_filename := st1.2
    samedir_filenames := samedir_filenames
    filepath_corrections := recordCorrection fn curr_path ret st1.2 filepath_corrections }

/-- The POSIX legalizer in the words of the spec: a name shorter than `NAME_MAX-11` without
`/` is kept; any other name is cut to at most `NAME_MAX-12` bytes, has every `/` replaced by
`_`, and gets `-` and the first 10 hex chars of the MD5 of the original name appended. -/
def legalizeRef (hexMD5 : Str → Str) (fn : Str) : Str :=
  if fn.length < NAME_MAX - 11 ∧ '/' ∉ fn then fn
  else (fn.take (NAME_MAX - 12)).map (fun c => if c = '/' then '_' else c)
    ++ ['-'] ++ (hexMD5 fn).take 10

end Posix

namespace Win32

/-- Lines 605-609: the chars `\ : * ? " < > | /` and the control chars 1 to 31. -/
def disallowed_chars : Str :=
  [Char.ofNat 92, ':', '*', '?', Char.ofNat 34, '<', '>', '|', '/']
    ++ (List.range 31).map fun i => Char.ofNat (i + 1)

/-- The device names compared with `fn` in lines 611-613 (and, followed by a dot, in lines
620-622). -/
def reservedNames : List Str :=
  ["CON", "PRN", "AUX", "NUL", "COM1", "COM2", "COM3", "COM4", "COM5", "COM6", "COM7", "COM8",
   "COM9", "LPT1", "LPT2", "LPT3", "LPT4", "LPT5", "LPT6", "LPT7", "LPT8", "LPT9"].map
    String.toList

/-- Lines 721-728, the `while` loop on `(idx, ret, modified_filename)`. The first argument
bounds the number of tests of the loop condition; `none` means the bound was used up. (`idx`
is a `size_t`; it is increased once per entry of the set at most, so it does not wrap.) -/
def caseLoop (samedir_filenames : List Str) (base : Str) :
    Nat → Nat → Str → Bool → Option (Str × Bool)
  | 0, _, _, _ => none
  | fuel + 1, idx, ret, modified_filename =>
    if strlower ret ∈ samedir_filenames then
      caseLoop samedir_filenames base fuel (idx + 1) (base ++ ['_'] ++ convert idx) true
    else some (ret, modified_filename)

/-- Lines 605-718 of the `#ifdef _WIN32` variant: the name `ret` in front of the `while` loop
and `modified_filename` at that point; `hexMD5` is `Server->GenerateHexMD5`, `codec` the UTF-8
library. -/
def beforeCaseLoop (hexMD5 : Str → Str) (codec : Utf8Codec) (fn : Str) : Str × Bool :=
  let st0 : Str × Bool := if fn ∈ reservedNames then (['_'] ++ fn, true) else ([], false)
  let st1 : Str × Bool :=
    if reservedNames.any (fun r => next fn 0 (r ++ ['.'])) then (['_'] ++ fn, true) else st0
  let conv := codec.utf8to16 (if st1.2 then st1.1 else fn)
  let st2 : Str × Bool := if conv.2 then (codec.utf16to8 conv.1, true) else st1
  let st3 : Str × Bool :=
    if (st2.2 && decide (MAX_PATH - 15 ≤ st2.1.length))
        || (!st2.2 && decide (MAX_PATH - 15 ≤ st2.1.length)) then
      (resize (if st2.2 then st2.1 else fn) (MAX_PATH - 15), true)
    else st2
  let st4 := replaceDisallowed disallowed_chars fn st3
  (appendHash hexMD5 fn st4, st4.2)

/-- The `#ifdef _WIN32` variant of `fixFilenameForOS` (lines 605-672, the common part and
lines 720-745). The `while` loop is run for at most `samedir_filenames.size() + 1` tests of
its condition; the result is `none` if that does not end it. -/
def fixFilenameForOS (hexMD5 : Str → Str) (codec : Utf8Codec)
    (filepath_corrections : PathCorrections)
    (fn : Str) (samedir_filenames : List Str) (curr_path : Str) : Option FixResult :=
  let b := beforeCaseLoop hexMD5 codec fn
  match caseLoop samedir_filenames b.1 (samedir_filenames.length + 1) 0 b.1 b.2 with
  | none => none
  | some (ret, modified_filename) =>
    some
      { ret := ret
        modified_filename := modified_filename
        samedir_filenames := samedir_filenames.insert (strlower ret)
        filepath_corrections :=
          recordCorrection fn curr_path ret modified_filename filepath_corrections }

/-- The name the condition of the `while` loop is tested on at its `k`-th evaluation:
`base`, then `base_0`, `base_1`, and so on. -/
def candidate (base : Str) : Nat → Str
  | 0 => base
  | k + 1 => base ++ ['_'] ++ convert k

/-- A raw name that gives the Windows variant no reason for a change: it is no reserved
device name, does not start with one followed by a dot, is accepted by `utf8to16` and has no
disallowed char. -/
def needsNoFix (codec : Utf8Codec) (fn : Str) : Bool :=
  decide (fn ∉ reservedNames) && !reservedNames.any (fun r => next fn 0 (r ++ ['.']))
    && !(codec.utf8to16 fn).2 && disallowed_chars.all fun ch => decide (ch ∉ fn)

end Win32

/-! ## `doBackup` and `deleteBackup` (lines 509-593 and 1553-1573) -/

/-- What `deleteBackup` does to the backup tree. -/
inductive DeleteAction
  | removeFilesystem
  | remove_directory_link_dir
  | cleanupThread (backupid : Int)
deriving DecidableEq, Repr

/-- The calls of `doBackup` that are visible outside of it, after `doFileBackup` has
returned. -/
inductive Effect
  | sendMailToAdmins
  | sendBackupOkay (ok : Bool)
  | deleteBackup (did : List DeleteAction)
  | updateClientLastFileBackup
  | updateFileBackupSetComplete
deriving DecidableEq, Repr

/-- What the pure virtual `doFileBackup()` leaves behind: its return value and the members
`disk_error`, `has_early_error` and `backupid` as they are when it returns. -/
structure FileBackupOutcome where
  backup_result : Bool
  disk_error : Bool
  has_early_error : Bool
  backupid : Int
deriving DecidableEq, Repr

/-- Everything `doBackup` reads from its collaborators. -/
structure BackupEnv where
  /-- The result of `client_main->handle_not_enough_space("")`. -/
  handle_not_enough_space : Bool
  cdp_path : Bool
  /-- The result of `constructBackupPath(...)`, asked for when `cdp_path` is off. -/
  constructBackupPath : Bool
  /-- The result of `constructBackupPathCdp()`, asked for when `cdp_path` is on. -/
  constructBackupPathCdp : Bool
  doFileBackup : FileBackupOutcome
  use_snapshots : Bool
  /-- The result of `SnapshotHelper::removeFilesystem(clientname, backuppath_single)`. -/
  removeFilesystem : Bool
deriving DecidableEq, Repr

/-- Lines 1553-1573. -/
def deleteBackup (backupid : Int) (use_snapshots removeFilesystem : Bool) : List DeleteAction :=
  if backupid = -1 then
    if use_snapshots then
      if !removeFilesystem then
        [DeleteAction.removeFilesystem, DeleteAction.remove_directory_link_dir]
      else [DeleteAction.removeFilesystem]
    else [DeleteAction.remove_directory_link_dir]
  else [DeleteAction.cleanupThread backupid]

/-- Lines 509-593: the return value and the calls made after `doFileBackup`. -/
def doBackup (env : BackupEnv) : Bool × List Effect :=
  if !env.handle_not_enough_space then (false, [])
  else if !env.cdp_path && !env.constructBackupPath then (false, [])
  else if env.cdp_path && !env.constructBackupPathCdp then (false, [])
  else
    let o := env.doFileBackup
    let mail : List Effect := if o.disk_error then [Effect.sendMailToAdmins] else []
    let fin : List Effect :=
      if (!o.has_early_error && !o.backup_result) || o.disk_error then
        [Effect.sendBackupOkay false]
      else if o.has_early_error then
        [Effect.deleteBackup (deleteBackup o.backupid env.use_snapshots env.removeFilesystem)]
      else
        [Effect.sendBackupOkay true, Effect.updateClientLastFileBackup,
         Effect.updateFileBackupSetComplete]
    (o.backup_result, mail ++ fin)

/-- The commit branch (lines 584-589) was taken: the backup was marked complete. -/
def committed (r : Bool × List Effect) : Bool :=
  decide (Effect.updateFileBackupSetComplete ∈ r.2)
    && decide (Effect.updateClientLastFileBackup ∈ r.2)

/-- The call `deleteBackup()` was made. -/
def deleteBackupInvoked (r : Bool × List Effect) : Bool :=
  r.2.any fun e => match e with
    | Effect.deleteBackup _ => true
    | _ => false

/-- Whether `doBackup` gets as far as the call of `doFileBackup` (line 555). -/
def reachesDoFileBackup (env : BackupEnv) : Bool :=
  env.handle_not_enough_space
    && (if env.cdp_path then env.constructBackupPathCdp else env.constructBackupPath)

/-! ## `request_filelist_construct` (lines 95-242) -/

/-- Modelled from the spec: `convert(int)` of `stringtools` is not part of `FileBackup.cpp`; it
yields the decimal digits `<n>` of ` group=<n>`, with a leading `-` for a negative number. -/
def convertInt (n : Int) : Str :=
  if n < 0 then ['-'] ++ convert n.natAbs else convert n.natAbs

/-- Line 44. -/
def full_backup_construct_timeout : Int := 4 * 60 * 60 * 1000

/-- What `request_filelist_construct` reads from `client_main`, the settings and the globals
`server_identity` and `server_token`; `EscapeParamString` is the helper of `stringtools`. -/
structure FilelistConfig where
  end_to_end_file_backup_verification : Bool
  file_protocol_version : Int
  file_protocol_version_v2 : Int
  select_sha_version : Int
  session_identity : Str
  server_identity : Str
  server_token : Str
  EscapeParamString : Str → Str

/-- Lines 120-173: the command `start_backup_cmd`, built by successive `+=`. -/
def start_backup_cmd (cfg : FilelistConfig) (full resume : Bool) (group : Int)
    (with_token : Bool) (clientsubname : Str) : Str :=
  let pver0 : Str := []
  let pver1 : Str := if cfg.file_protocol_version ≥ 2 then "2".toList else pver0
  let pver : Str := if cfg.file_protocol_version_v2 ≥ 1 then "3".toList else pver1
  let identity : Str :=
    if !cfg.session_identity.isEmpty then cfg.session_identity else cfg.server_identity
  let c0 : Str := identity ++ pver
  let c1 : Str :=
    if full && !resume then c0 ++ "START FULL BACKUP".toList else c0 ++ "START BACKUP".toList
  let c2 : Str :=
    if cfg.file_protocol_version_v2 ≥ 1 then
      let g : Str := c1 ++ (" group=".toList ++ convertInt group)
      if !clientsubname.isEmpty then
        g ++ ("&clientsubname=".toList ++ cfg.EscapeParamString clientsubname)
      else g
    else c1
  let c3 : Str :=
    if resume && decide (cfg.file_protocol_version_v2 ≥ 1) then
      let r : Str := c2 ++ "&resume=".toList
      if full then r ++ "full".toList else r ++ "incr".toList
    else c2
  let c4 : Str := if cfg.select_sha_version > 0 then c3 ++ "&sha=512".toList else c3
  let c5 : Str :=
    c4 ++ ("&with_permissions=1&with_scripts=1&with_orig_path=1&with_sequence=1"
      ++ "&with_proper_symlinks=1").toList
  if with_token then c5 ++ ("#token=".toList ++ cfg.server_token) else c5

/-- The start command in the words of the spec: the concatenation of its parts. -/
def startBackupCmdRef (cfg : FilelistConfig) (full resume : Bool) (group : Int)
    (with_token : Bool) (clientsubname : Str) : Str :=
  let identity : Str :=
    if cfg.session_identity ≠ [] then cfg.session_identity else cfg.server_identity
  let pver : Str :=
    if cfg.file_protocol_version_v2 ≥ 1 then "3".toList
    else if cfg.file_protocol_version ≥ 2 then "2".toList else []
  let verb : Str :=
    if full = true ∧ resume = false then "START FULL BACKUP".toList else "START BACKUP".toList
  let group_part : Str :=
    if cfg.file_protocol_version_v2 ≥ 1 then
      " group=".toList ++ convertInt group
        ++ (if clientsubname ≠ [] then
              "&clientsubname=".toList ++ cfg.EscapeParamString clientsubname
            else [])
    else []
  let resume_part : Str :=
    if resume = true ∧ cfg.file_protocol_version_v2 ≥ 1 then
      (if full then "&resume=full".toList else "&resume=incr".toList)
    else []
  let sha_part : Str := if cfg.select_sha_version > 0 then "&sha=512".toList else []
  let token_part : Str := if with_token then "#token=".toList ++ cfg.server_token else []
  identity ++ pver ++ verb ++ group_part ++ resume_part ++ sha_part
    ++ ("&with_permissions=1&with_scripts=1&with_orig_path=1&with_sequence=1"
      ++ "&with_proper_symlinks=1").toList
    ++ token_part

/-- What `cc->Read(&ret, 60000)` and the calls after it give in one pass of the loop of lines
181-239. `nothing`: the read returned 0; `now` is `Server->getTimeMS()` of line 186 and
`isTimeout` is `pingthread->isTimeout()` of line 194. `data`: the read returned bytes; `pck`
and `packetsize` are what `tcpstack.getPacket` gives afterwards (`none` for `NULL`, else the C
string at `pck`), `now` is `Server->getTimeMS()` of line 217. -/
inductive ReadResult
  | nothing (now : Int) (isTimeout : Bool)
  | data (pck : Option Str) (packetsize : Nat) (now : Int)
deriving DecidableEq, Repr

/-- One pass of the `while` loop: `now` is `Server->getTimeMS()` in the loop condition (line
181), `read` is what the body observes. -/
structure LoopPass where
  now : Int
  read : ReadResult
deriving DecidableEq, Repr

/-- A control connection returned by `getClientCommandConnection`: `starttime` is
`Server->getTimeMS()` of line 180, `passes` are the passes of the loop that can be observed
on it, in order. -/
structure Connection where
  starttime : Int
  passes : List LoopPass
deriving DecidableEq, Repr

/-- How the loop of lines 181-239 is left: `done` is the `return true` of line 236;
`refused` is the `break` of line 223 (a packet with another text), `noBackupDirs` the `break`
of line 229, `readTimeout` the `break` of line 197, `windowExceeded` a false loop condition
(line 181); `retry` is the recursive call of line 190; `running` means that the observed
passes are used up while the loop is still going on. -/
inductive LoopExit
  | done
  | refused
  | noBackupDirs
  | readTimeout
  | windowExceeded
  | retry
  | running
deriving DecidableEq, Repr

/-- Lines 181-239 on the passes of one connection; the fourth argument is `starttime`. -/
def readLoop (file_protocol_version : Int) (with_token : Bool) (timeout_time : Int) :
    Int → List LoopPass → LoopExit
  | _, [] => LoopExit.running
  | starttime, p :: rest =>
    if p.now - starttime ≤ timeout_time then
      match p.read with
      | ReadResult.nothing now isTimeout =>
        if file_protocol_version < 2 ∧ now - starttime ≤ 20000 ∧ with_token = true then
          LoopExit.retry
        else if file_protocol_version ≥ 2 ∨ isTimeout = true then LoopExit.readTimeout
        else readLoop file_protocol_version with_token timeout_time starttime rest
      | ReadResult.data pck packetsize now =>
        match pck with
        | some ret =>
          if packetsize > 0 then
            if ret ≠ "DONE".toList then
              if ret = "BUSY".toList then
                readLoop file_protocol_version with_token timeout_time now rest
              else if ret ≠ "no backup dirs".toList then LoopExit.refused
              else LoopExit.noBackupDirs
            else LoopExit.done
          else readLoop file_protocol_version with_token timeout_time starttime rest
        | none => readLoop file_protocol_version with_token timeout_time starttime rest
    else LoopExit.windowExceeded

/-- What a call of `request_filelist_construct` leaves behind: the return value, the two
reference parameters, the commands sent with `tcpstack.Send`, the messages sent with
`client_main->sendClientMessage` (by the function itself and by `logVssLogdata`), and the
number of calls of `getClientCommandConnection`. -/
structure FilelistOutcome where
  ret : Bool
  no_backup_dirs : Bool
  connect_fail : Bool
  sent : List Str
  client_messages : List Str
  connects : Nat
deriving DecidableEq, Repr

/-- Lines 103-107. -/
def timeout_time (cfg : FilelistConfig) : Int :=
  if cfg.file_protocol_version ≥ 2 then 120000 else full_backup_construct_timeout

/-- Lines 98-101. -/
def enableVerificationMessage (cfg : FilelistConfig) : List Str :=
  if cfg.end_to_end_file_backup_verification then
    ["ENABLE END TO END FILE BACKUP VERIFICATION".toList]
  else []

/-- Lines 95-242. The last argument lists what the successive calls of
`getClientCommandConnection` return (`none` for `NULL`); the result is `none` when the
observations are used up before the function returns. -/
def request_filelist_construct (cfg : FilelistConfig) (full resume : Bool) (group : Int)
    (clientsubname : Str) :
    Bool → Bool → Bool → List (Option Connection) → Option FilelistOutcome
  | _, _, _, [] => none
  | _, no_backup_dirs, _, none :: _ =>
    some
      { ret := false, no_backup_dirs := no_backup_dirs, connect_fail := true, sent := [],
        client_messages := enableVerificationMessage cfg, connects := 1 }
  | with_token, no_backup_dirs, connect_fail, some cc :: later =>
    match readLoop cfg.file_protocol_version with_token (timeout_time cfg) cc.starttime
        cc.passes with
    | LoopExit.done =>
      some
        { ret := true, no_backup_dirs := no_backup_dirs, connect_fail := connect_fail,
          sent := [start_backup_cmd cfg full resume group with_token clientsubname],
          client_messages := enableVerificationMessage cfg ++ ["GET VSSLOG".toList],
          connects := 1 }
    | LoopExit.refused =>
      some
        { ret := false, no_backup_dirs := no_backup_dirs, connect_fail := connect_fail,
          sent := [start_backup_cmd cfg full resume group with_token clientsubname],
          client_messages := enableVerificationMessage cfg ++ ["GET VSSLOG".toList],
          connects := 1 }
    | LoopExit.noBackupDirs =>
      some
        { ret := false, no_backup_dirs := true, connect_fail := connect_fail,
          sent := [start_backup_cmd cfg full resume group with_token clientsubname],
          client_messages := enableVerificationMessage cfg, connects := 1 }
    | LoopExit.readTimeout =>
      some
        { ret := false, no_backup_dirs := no_backup_dirs, connect_fail := connect_fail,
          sent := [start_backup_cmd cfg full resume group with_token clientsubname],
          client_messages := enableVerificationMessage cfg, connects := 1 }
    | LoopExit.windowExceeded =>
      some
        { ret := false, no_backup_dirs := no_backup_dirs, connect_fail := connect_fail,
          sent := [start_backup_cmd cfg full resume group with_token clientsubname],
          client_messages := enableVerificationMessage cfg, connects := 1 }
    | LoopExit.retry =>
      (request_filelist_construct cfg full resume group clientsubname false no_backup_dirs
        connect_fail later).map fun o =>
          { o with
            sent := start_backup_cmd cfg full resume group with_token clientsubname :: o.sent
            client_messages := enableVerificationMessage cfg ++ o.client_messages
            connects := o.connects + 1 }
    | LoopExit.running => none

/-- The passes the loop goes through without leaving: packets that are absent, empty or
`BUSY`, each inside the window. The result is `starttime` after them, `none` if some pass is
of another kind. -/
def busyPrelude (timeout_time : Int) : Int → List LoopPass → Option Int
  | starttime, [] => some starttime
  | starttime, p :: rest =>
    if p.now - starttime ≤ timeout_time then
      match p.read with
      | ReadResult.nothing _ _ => none
      | ReadResult.data pck packetsize now =>
        if pck = none ∨ packetsize = 0 then busyPrelude timeout_time starttime rest
        else if pck = some "BUSY".toList then busyPrelude timeout_time now rest
        else none
    else none

/-- Whether the loop on what a call of `getClientCommandConnection` returned is left within
the observed passes (trivially so when no connection was obtained). -/
def loopEnds (cfg : FilelistConfig) (with_token : Bool) : Option Connection → Bool
  | none => true
  | some cc =>
    decide (readLoop cfg.file_protocol_version with_token (timeout_time cfg) cc.starttime
      cc.passes ≠ LoopExit.running)

/-! ## `constructBackupPath` (lines 1070-1109) -/

/-- The calls of `constructBackupPath` that touch the backup storage. -/
inductive PathAction
  | createDirectoryForClient
  | createEmptyFilesystem (clientname backuppath_single : Str)
  | os_create_dir (path : Str)
deriving DecidableEq, Repr

/-- What `constructBackupPath` reads: the settings, the clock (`strftime` is the text that
`strftime(buffer, 500, "%y%m%d-%H%M", t)` writes) and the results of the calls it makes.
`os_file_sep` and `os_file_prefix` are the helpers of `os_functions`. -/
structure PathEnv where
  backupfolder : Str
  clientname : Str
  os_file_sep : Str
  os_file_prefix : Str → Str
  strftime : Str
  createDirectoryForClient : Bool
  createEmptyFilesystem : Bool
  os_create_dir : Str → Bool

/-- The members `constructBackupPath` assigns. -/
structure BackupPaths where
  backuppath_single : Str
  backuppath : Str
  backuppath_hashes : Str
  dir_pool_path : Str
deriving DecidableEq, Repr

/-- Lines 1070-1109: the return value, the members afterwards and the calls made, in order.
`with_hashes` is not read by the function. -/
def constructBackupPath (env : PathEnv) (old : BackupPaths)
    (_with_hashes on_snapshot create_fs : Bool) : Bool × BackupPaths × List PathAction :=
  if !env.createDirectoryForClient then (false, old, [PathAction.createDirectoryForClient])
  else
    let backuppath_single := env.strftime
    let backuppath :=
      env.backupfolder ++ env.os_file_sep ++ env.clientname ++ env.os_file_sep
        ++ backuppath_single
    let backuppath_hashes :=
      env.backupfolder ++ env.os_file_sep ++ env.clientname ++ env.os_file_sep
        ++ backuppath_single ++ env.os_file_sep ++ ".hashes".toList
    let dir_pool_path :=
      env.backupfolder ++ env.os_file_sep ++ env.clientname ++ env.os_file_sep
        ++ ".directory_pool".toList
    let paths : BackupPaths :=
      { backuppath_single := backuppath_single, backuppath := backuppath,
        backuppath_hashes := backuppath_hashes, dir_pool_path := dir_pool_path }
    if on_snapshot then
      if create_fs then
        if env.createEmptyFilesystem then
          (env.os_create_dir (env.os_file_prefix backuppath_hashes), paths,
            [PathAction.createDirectoryForClient,
              PathAction.createEmptyFilesystem env.clientname backuppath_single,
              PathAction.os_create_dir (env.os_file_prefix backuppath_hashes)])
        else
          (false, paths,
            [PathAction.createDirectoryForClient,
              PathAction.createEmptyFilesystem env.clientname backuppath_single])
      else (true, paths, [PathAction.createDirectoryForClient])
    else
      if env.os_create_dir (env.os_file_prefix backuppath) then
        (env.os_create_dir (env.os_file_prefix backuppath_hashes), paths,
          [PathAction.createDirectoryForClient,
            PathAction.os_create_dir (env.os_file_prefix backuppath),
            PathAction.os_create_dir (env.os_file_prefix backuppath_hashes)])
      else
        (false, paths,
          [PathAction.createDirectoryForClient,
            PathAction.os_create_dir (env.os_file_prefix backuppath)])

/-- Whether a call recorded as a `PathAction` succeeded. -/
def PathAction.succeeded (env : PathEnv) : PathAction → Bool
  | PathAction.createDirectoryForClient => env.createDirectoryForClient
  | PathAction.createEmptyFilesystem _ _ => env.createEmptyFilesystem
  | PathAction.os_create_dir path => env.os_create_dir path

/-- Whether a recorded call creates a directory with `os_create_dir`. -/
def PathAction.isCreateDir : PathAction → Bool
  | PathAction.os_create_dir _ => true
  | _ => false

/-- Whether a recorded call asks the snapshot helper for an empty filesystem. -/
def PathAction.isCreateEmptyFilesystem : PathAction → Bool
  | PathAction.createEmptyFilesystem _ _ => true
  | _ => false

/-! ## `calculateEtaFileBackup` (lines 477-507), in exact arithmetic -/

/-- The reference parameters of `calculateEtaFileBackup`; the `double` is a rational. -/
structure EtaState where
  last_eta_update : Int
  eta_set_time : Int
  last_eta_received_bytes : Int
  eta_estimated_speed : ℚ

/-- The cast `static_cast<int64>(x)` of a `double`: rounding towards zero. -/
def truncToInt (x : ℚ) : Int :=
  if 0 ≤ x then ⌊x⌋ else ⌈x⌉

/-- Lines 477-507 in exact arithmetic (`0.9` and `0.1` are `9/10` and `1/10`, a division by a
`passed_time` of zero gives 0). `now1` and `now2` are the two values of `Server->getTimeMS()`
(lines 485 and 487), `fc_received` is `fc.getReceivedDataBytes()`, `chunked_received` the
same for `fc_chunked` when that is not `NULL`. The result is the state afterwards and the
value given to `ServerStatus::setProcessEta`, if that is called. -/
def calculateEtaFileBackup (s : EtaState) (ctime now1 now2 fc_received : Int)
    (chunked_received : Option Int) (linked_bytes files_size : Int) :
    EtaState × Option Int :=
  let received_data_bytes : Int :=
    fc_received + (match chunked_received with
      | some r => r
      | none => 0) + linked_bytes
  let new_bytes : Int := received_data_bytes - s.last_eta_received_bytes
  let passed_time : Int := now1 - s.eta_set_time
  let speed_bpms : ℚ := (new_bytes : ℚ) / (passed_time : ℚ)
  let eta_estimated_speed : ℚ :=
    if s.eta_estimated_speed = 0 then speed_bpms
    else s.eta_estimated_speed * (9 / 10) + s.eta_estimated_speed * (1 / 10)
  ({ last_eta_update := ctime, eta_set_time := now2,
     last_eta_received_bytes := received_data_bytes,
     eta_estimated_speed := eta_estimated_speed },
    if s.last_eta_received_bytes > 0 then
      some (truncToInt (((files_size - received_data_bytes : Int) : ℚ) / eta_estimated_speed
        + 1 / 2))
    else none)

/-- The speed measured by a tick: `new_bytes / passed_time`. -/
def tickSpeed (s : EtaState) (now1 fc_received : Int) (chunked_received : Option Int)
    (linked_bytes : Int) : ℚ :=
  ((fc_received + (match chunked_received with
      | some r => r
      | none => 0) + linked_bytes - s.last_eta_received_bytes : Int) : ℚ)
    / ((now1 - s.eta_set_time : Int) : ℚ)

/-! ## `logVssLogdata` (lines 249-302) -/

/-- The index of the first `c` in a string. -/
def indexOfChar (c : Char) : Str → Option Nat
  | [] => none
  | x :: r => if x = c then some 0 else (indexOfChar c r).map fun i => i + 1

/-- The call `s.find(c, pos)`: the first index at or behind `pos` with the char `c`, `none`
for `std::string::npos`. -/
def find (s : Str) (c : Char) (pos : Nat) : Option Nat :=
  (indexOfChar c (s.drop pos)).map fun i => pos + i

/-- The call `s.substr(pos, len)` for `pos <= s.size()`. -/
def substr (s : Str) (pos len : Nat) : Str :=
  (s.drop pos).take len

/-- The white space that `atoi` skips. -/
def isSpaceC (c : Char) : Bool :=
  c = ' ' || (9 ≤ c.toNat && c.toNat ≤ 13)

/-- The value of the leading decimal digits of a string, added to `10^k * acc`. -/
def digitsValue : Nat → Str → Nat
  | acc, [] => acc
  | acc, c :: r => if c.isDigit then digitsValue (10 * acc + (c.toNat - 48)) r else acc

/-- An optional sign and the decimal digits behind it. -/
def atoiSigned : Str → Int
  | '-' :: r => - (digitsValue 0 r : Int)
  | '+' :: r => (digitsValue 0 r : Int)
  | r => (digitsValue 0 r : Int)

/-- Modelled from the spec: `atoi` and `os_atoi64` are not part of `FileBackup.cpp`; they
read the `<loglevel>` and the `<unix_seconds>` of a line, i.e. the integer at the start of a
string: white space, an optional sign, decimal digits (no overflow is modelled). -/
def atoi (s : Str) : Int :=
  atoiSigned (s.dropWhile isSpaceC)

/-- What a line of the VSS log comes to at the call of `ServerLogger::Log` (line 299): the
log level, the local `times` at that point and the message. -/
structure VssLogLine where
  loglevel : Int
  times : Int
  msg : Str
deriving DecidableEq, Repr

/-- Lines 258-300, the loop over `lines`, on `(i, initial_time)`. -/
def logVssLoop (vss_duration_s : Int) : Nat → Int → List Str → List VssLogLine
  | _, _, [] => []
  | i, initial_time, line :: rest =>
    match find line '-' 0 with
    | none => logVssLoop vss_duration_s (i + 1) initial_time rest
    | some s1 =>
      let loglevel := atoi (substr line 0 s1)
      match find line '-' (s1 + 1) with
      | some s2 =>
        let times := atoi (substr line (s1 + 1) (s2 - s1))
        if i = 0 then logVssLoop vss_duration_s (i + 1) times rest
        else
          let times1 := initial_time - times
          let times2 := if times1 > vss_duration_s + 60 then 0 else times1
          { loglevel := loglevel, times := times2, msg := line.drop (s2 + 1) }
            :: logVssLoop vss_duration_s (i + 1) initial_time rest
      | none =>
        { loglevel := loglevel, times := 0, msg := line.drop (s1 + 1) }
          :: logVssLoop vss_duration_s (i + 1) initial_time rest

/-- Lines 249-302. `vsslogdata` is the answer of the client to `GET VSSLOG`, `TokenizeMail`
the helper of `stringtools` that cuts it into lines, `now` is `Server->getTimeSeconds()` of
line 257. -/
def logVssLogdata (TokenizeMail : Str → Str → List Str) (vsslogdata : Str) (now : Int)
    (vss_duration_s : Int) : List VssLogLine :=
  if !vsslogdata.isEmpty && vsslogdata != "ERR".toList then
    logVssLoop vss_duration_s 0 now (TokenizeMail vsslogdata [Char.ofNat 10])
  else []

/-- The text before the first `-` of a string and the text behind it; `none` if the string
has no `-`. -/
def splitDash (s : Str) : Option (Str × Str) :=
  if '-' ∈ s then some (s.takeWhile (fun c => c != '-'), (s.dropWhile (fun c => c != '-')).drop 1)
  else none

/-- A line of the VSS log in the words of the spec, `initial_time` being the reference: a
line without `-` is skipped; in `<loglevel>-<unix_seconds>-<msg>` the level is the integer
before the first `-`, the offset is `initial_time - t`, replaced by 0 when it is greater than
`vss_duration_s + 60`, and the message is the text behind the second `-`; with one `-` only
the message is the text behind it (no offset is computed, `times` stays 0). -/
def vssLineRef (vss_duration_s initial_time : Int) (line : Str) : Option VssLogLine :=
  match splitDash line with
  | none => none
  | some (level, rest) =>
    match splitDash rest with
    | none => some { loglevel := atoi level, times := 0, msg := rest }
    | some (t, msg) =>
      some
        { loglevel := atoi level
          times :=
            if initial_time - atoi t > vss_duration_s + 60 then 0 else initial_time - atoi t
          msg := msg }

/-! ## The filelist and the walk over it -/

/-- The fields of `SFile` that `FileBackup.cpp` reads from an entry of the filelist. -/
structure SFile where
  name : Str
  size : Int
  isdir : Bool
deriving DecidableEq, Repr

/-- What `FileListParser::nextEntry` hands out for one entry: the `SFile` and the map of
extras (as its key/value pairs). -/
structure FileListEntry where
  cf : SFile
  extras : List (Str × Str)
deriving DecidableEq, Repr

/-- The name `..` of a directory-leave entry. -/
def dotdot : Str := ['.', '.']

/-- The platform under the walks over the filelist: `os_file_sep()`, the variant of
`fixFilenameForOS` that was compiled, and `ExtractFilePath` of `stringtools`. -/
structure OsEnv where
  os_file_sep : Str
  fixFilenameForOS : PathCorrections → Str → List Str → Str → FixResult
  ExtractFilePath : Str → Str → Str

/-- Modelled from the spec: `ExtractFilePath(path, separators)` of `stringtools` is not part
of `FileBackup.cpp`; the walks use it to go back to the parent of `curr_path`, i.e. to cut
the path in front of its last separator. -/
def ExtractFilePath (path separators : Str) : Str :=
  ((path.reverse.dropWhile fun c => !separators.contains c).drop 1).reverse

/-- The POSIX-like platform: separator `/` and the `#else` variant of `fixFilenameForOS`. -/
def Posix.osEnv (hexMD5 : Str → Str) : OsEnv where
  os_file_sep := ['/']
  fixFilenameForOS := Posix.fixFilenameForOS hexMD5
  ExtractFilePath := ExtractFilePath

/-- The part of the state that the three walks over the filelist (`verify_file_backup`,
`findIdenticalPermissionRoots`, `createUserView`) keep in the same way: `curr_path`, the
stack `folder_files` (top first) and the member `filepath_corrections`. -/
structure WalkState where
  curr_path : Str
  folder_files : List (List Str)
  filepath_corrections : PathCorrections

/-- The call `fixFilenameForOS(name, folder_files.top(), curr_path)` made for every entry
that is not a directory-leave entry (lines 882-885, 1214-1217, 1389-1392): the name
returned (empty if the call is not made) and the state with the set on top of the stack
and the corrections as the call leaves them. (`top()` on an empty stack is undefined in
C++; the stack holds one set more than directories are open, so it is not empty as long as
no `..` comes without an open directory. The model reads an empty set there.) -/
def legalizeEntry (os : OsEnv) (st : WalkState) (cf : SFile) : Str × WalkState :=
  if !cf.isdir || cf.name != dotdot then
    let r := os.fixFilenameForOS st.filepath_corrections cf.name (st.folder_files.headD [])
      st.curr_path
    (r.ret,
      { curr_path := st.curr_path
        folder_files := r.samedir_filenames :: st.folder_files.tail
        filepath_corrections := r.filepath_corrections })
  else ([], st)

/-- The directory-leave entry: `folder_files.pop()` and
`curr_path = ExtractFilePath(curr_path, os_file_sep())`. -/
def leaveDir (os : OsEnv) (st : WalkState) : WalkState :=
  { st with
    curr_path := os.ExtractFilePath st.curr_path os.os_file_sep
    folder_files := st.folder_files.tail }

/-- The directory-enter entry: `folder_files.push(std::set<std::string>())` and
`curr_path += os_file_sep() + name`, `name` being the legalized name. -/
def enterDir (os : OsEnv) (st : WalkState) (name : Str) : WalkState :=
  { st with
    curr_path := st.curr_path ++ os.os_file_sep ++ name
    folder_files := [] :: st.folder_files }

/-! ## `verify_file_backup` (lines 853-980) -/

/-- What the user-view functions read from the metadata store: `read_metadata` by path of
the metadata file (`none` if it fails, else `metadata.file_permissions`),
`FileMetadata::hasPermission(permissions, id, denied)`, the constant `metadata_dir_fn` and
`escape_metadata_fn`. -/
structure MetaEnv where
  read_metadata : Str → Option Str
  hasPermission : Str → Int → Bool
  metadata_dir_fn : Str
  escape_metadata_fn : Str → Str

/-- The struct `SDirStatItem` (lines 1177-1183). -/
structure SDirStatItem where
  has_perm : Nat
  id : Nat
  nodecount : Nat
  identicalcount : Nat
deriving DecidableEq, Repr

/-- Lines 1260-1268: the number of ids that `hasPermission` accepts on `permissions`. -/
def countPermitted (env : MetaEnv) (ids : List Int) (permissions : Str) : Nat :=
  (ids.filter fun id => env.hasPermission permissions id).length

/-- Lines 1211-1258 for one entry: the local `permissions` (empty for `..` and when
`read_metadata` fails) and the walk state behind the entry. -/
def entryPermissions (os : OsEnv) (env : MetaEnv) (metadata_home_path : Str) (w : WalkState)
    (data : SFile) : Str × WalkState :=
  let l := legalizeEntry os w data
  let osspecific_name := l.1
  if data.isdir then
    if data.name == dotdot then ([], leaveDir os l.2)
    else
      let w2 := enterDir os l.2 osspecific_name
      let metadata_fn := metadata_home_path ++ w2.curr_path ++ os.os_file_sep ++ env.metadata_dir_fn
      ((env.read_metadata metadata_fn).getD [], w2)
  else
    let metadata_fn :=
      metadata_home_path ++ l.2.curr_path ++ os.os_file_sep
        ++ env.escape_metadata_fn osspecific_name
    ((env.read_metadata metadata_fn).getD [], l.2)

/-- Lines 1270-1322 for one entry with its `has_perm`, on the stack `dir_permissions` (top
first), the vector `identical_permission_roots` and `curr_id`. (`pop()` on an empty stack is
undefined in C++; it happens only at a `..` that closes no open directory. The model leaves
the stack empty there.) -/
def dirStatStep (isdir isdotdot : Bool) (has_perm : Nat)
    (st : List SDirStatItem × List Nat × Nat) : List SDirStatItem × List Nat × Nat :=
  let dir_permissions := st.1
  let roots := st.2.1
  let curr_id := st.2.2
  if isdir then
    if isdotdot then
      match dir_permissions with
      | [] => ([], roots, curr_id + 1)
      | last_dir :: below =>
        let roots2 :=
          if last_dir.nodecount == last_dir.identicalcount then roots ++ [last_dir.id]
          else roots
        match below with
        | [] => ([], roots2, curr_id + 1)
        | top :: deeper =>
          let top1 : SDirStatItem :=
            { top with
              nodecount := top.nodecount + (last_dir.nodecount + 1)
              identicalcount := top.identicalcount + last_dir.identicalcount }
          let top2 : SDirStatItem :=
            if last_dir.has_perm == top1.has_perm then
              { top1 with identicalcount := top1.identicalcount + 1 }
            else top1
          (top2 :: deeper, roots2, curr_id + 1)
    else
      ({ has_perm := has_perm, id := curr_id, nodecount := 0, identicalcount := 0 }
        :: dir_permissions, roots, curr_id + 1)
  else
    match dir_permissions with
    | [] => ([], roots, curr_id + 1)
    | top :: deeper =>
      let top1 : SDirStatItem := { top with nodecount := top.nodecount + 1 }
      let top2 : SDirStatItem :=
        if has_perm == top1.has_perm then
          { top1 with identicalcount := top1.identicalcount + 1 }
        else top1
      (top2 :: deeper, roots, curr_id + 1)

/-- The locals of `findIdenticalPermissionRoots` that change in the loop. -/
structure RootsState where
  walk : WalkState
  stat : List SDirStatItem × List Nat × Nat

/-- Lines 1207-1325, the body of the loop for one entry. -/
def rootsStep (os : OsEnv) (env : MetaEnv) (metadata_home_path : Str) (ids : List Int)
    (st : RootsState) (e : FileListEntry) : RootsState :=
  let p := entryPermissions os env metadata_home_path st.walk e.cf
  { walk := p.2
    stat := dirStatStep e.cf.isdir (e.cf.name == dotdot) (countPermitted env ids p.1) st.stat }

/-- Lines 1186-1331 on the entries of the filelist in the order of the parser; `std::sort`
is an insertion sort here. -/
def findIdenticalPermissionRoots (os : OsEnv) (env : MetaEnv) (backuppath : Str)
    (filepath_corrections : PathCorrections) (file_list : List FileListEntry)
    (ids : List Int) : List Nat :=
  let st := file_list.foldl
    (rootsStep os env (backuppath ++ os.os_file_sep ++ ".hashes".toList) ids)
    { walk :=
        { curr_path := [], folder_files := [[]], filepath_corrections := filepath_corrections }
      stat := ([], [], 0) }
  st.stat.2.1.insertionSort (fun a b => a ≤ b)

/-- An entry of the filelist as the counting sees it: a file or a directory-enter entry
with its permitted-principal count, or a directory-leave entry. -/
inductive PermItem
  | file (has_perm : Nat)
  | dir (has_perm : Nat)
  | up
deriving DecidableEq, Repr

/-- The entries of a filelist with their permitted-principal counts: for every entry the
number of ids for which `hasPermission` holds on the permissions stored for it (read from
its metadata file, empty if that cannot be read). -/
def permItems (os : OsEnv) (env : MetaEnv) (metadata_home_path : Str) (ids : List Int) :
    WalkState → List FileListEntry → List PermItem
  | _, [] => []
  | w, e :: rest =>
    (if e.cf.isdir then
      if e.cf.name == dotdot then PermItem.up
      else PermItem.dir
        (countPermitted env ids (entryPermissions os env metadata_home_path w e.cf).1)
    else PermItem.file
      (countPermitted env ids (entryPermissions os env metadata_home_path w e.cf).1))
      :: permItems os env metadata_home_path ids
        (entryPermissions os env metadata_home_path w e.cf).2 rest

/-- Whether every `..` of a list closes a directory that is open, `depth` directories being
open in front of the list. -/
def wellNestedFrom : Nat → List PermItem → Bool
  | _, [] => true
  | depth, PermItem.file _ :: rest => wellNestedFrom depth rest
  | depth, PermItem.dir _ :: rest => wellNestedFrom (depth + 1) rest
  | 0, PermItem.up :: _ => false
  | depth + 1, PermItem.up :: rest => wellNestedFrom depth rest

/-- A well-nested filelist: every `..` closes an open directory. -/
def wellNested (items : List PermItem) : Bool :=
  wellNestedFrom 0 items

/-- The number of directories left open at the end of a list. -/
def openAtEnd : Nat → List PermItem → Nat
  | depth, [] => depth
  | depth, PermItem.file _ :: rest => openAtEnd depth rest
  | depth, PermItem.dir _ :: rest => openAtEnd (depth + 1) rest
  | depth, PermItem.up :: rest => openAtEnd (depth - 1) rest

/-- The scan of the subtree of a directory with count `has_perm`, started behind its
directory-enter entry with `depth = 0`: `none` if the list ends before the `..` of the
directory, else whether every file and directory in front of that `..` has the count
`has_perm`. -/
def subtreeIdentical (has_perm : Nat) : Nat → List PermItem → Option Bool
  | _, [] => none
  | depth, PermItem.file p :: rest =>
    (subtreeIdentical has_perm depth rest).map fun b => decide (p = has_perm) && b
  | depth, PermItem.dir p :: rest =>
    (subtreeIdentical has_perm (depth + 1) rest).map fun b => decide (p = has_perm) && b
  | 0, PermItem.up :: _ => some true
  | depth + 1, PermItem.up :: rest => subtreeIdentical has_perm depth rest

/-- The ids of the directory-enter entries that are closed by a `..` and whose subtree has
nothing but entries with the count of the directory, `id` being the id of the first entry
of the list. -/
def identicalRootsRef : Nat → List PermItem → List Nat
  | _, [] => []
  | id, PermItem.dir p :: rest =>
    (if subtreeIdentical p 0 rest = some true then [id] else [])
      ++ identicalRootsRef (id + 1) rest
  | id, _ :: rest => identicalRootsRef (id + 1) rest

/-! ## `createUserView` (lines 1333-1507) -/

/-- The calls of `createUserView` that change the backup storage. -/
inductive ViewAction
  | os_create_dir_recursive (path : Str)
  | os_link_symbolic (target lname : Str)
  | os_create_dir (path : Str)
  | os_remove_symlink_dir (path : Str)
deriving DecidableEq, Repr

/-- What `createUserView` reads besides the filelist and the metadata: the settings, the
members it uses, `os_file_prefix`, `os_directory_exists`, and for every call that changes
the storage whether it succeeds, given the calls made before it. -/
structure ViewEnv where
  backupfolder : Str
  clientname : Str
  backuppath : Str
  backuppath_single : Str
  os_file_prefix : Str → Str
  os_directory_exists : List ViewAction → Str → Bool
  succeeds : List ViewAction → ViewAction → Bool

/-- The locals of `createUserView` that change in the loop, the calls made so far, and
whether the function has returned `false` already. -/
structure ViewState where
  walk : WalkState
  skip : Nat
  id : Nat
  actions : List ViewAction
  returned_false : Bool

/-- Make a call that changes the storage: record it; if it fails the function returns
`false`. -/
def ViewState.call (venv : ViewEnv) (st : ViewState) (a : ViewAction) : ViewState :=
  { st with
    actions := st.actions ++ [a]
    returned_false := !venv.succeeds st.actions a }

/-- Lines 1415-1441, the loop over `ids` for a directory-enter entry, on the state and the
local `has_perm`; `curr_path` is the path of the directory already. (The loop has no
`break`: every id with permission makes its own call.) -/
def viewDirIds (env : MetaEnv) (venv : ViewEnv) (user_view_home_path file_permissions : Str)
    (identical_permission_roots : List Nat) :
    List Int → ViewState × Bool → ViewState × Bool
  | [], r => r
  | idj :: more, (st, has_perm) =>
    if env.hasPermission file_permissions idj then
      if identical_permission_roots.contains st.id then
        let st1 := st.call venv
          (ViewAction.os_link_symbolic (venv.os_file_prefix (venv.backuppath ++ st.walk.curr_path))
            (venv.os_file_prefix (user_view_home_path ++ st.walk.curr_path)))
        if st1.returned_false then (st1, has_perm)
        else
          viewDirIds env venv user_view_home_path file_permissions identical_permission_roots
            more ({ st1 with skip := 1 }, true)
      else
        let st1 := st.call venv
          (ViewAction.os_create_dir (venv.os_file_prefix (user_view_home_path ++ st.walk.curr_path)))
        if st1.returned_false then (st1, has_perm)
        else
          viewDirIds env venv user_view_home_path file_permissions identical_permission_roots
            more (st1, true)
    else
      viewDirIds env venv user_view_home_path file_permissions identical_permission_roots
        more (st, has_perm)

/-- Lines 1460-1473, the loop over `ids` for a file entry: the first id that
`hasPermission` accepts on `permissions` makes the link and ends the loop. -/
def viewFileIds (env : MetaEnv) (venv : ViewEnv) (user_view_home_path permissions filename : Str) :
    List Int → ViewState → ViewState
  | [], st => st
  | idj :: more, st =>
    if env.hasPermission permissions idj then
      st.call venv
        (ViewAction.os_link_symbolic (venv.os_file_prefix (venv.backuppath ++ filename))
          (venv.os_file_prefix (user_view_home_path ++ filename)))
    else viewFileIds env venv user_view_home_path permissions filename more st

/-- Lines 1360-1477, the body of the loop for one entry. In the branch of a file entry the
local `permissions` (line 1387) is given to `hasPermission` (line 1463); nothing is assigned
to it between its declaration and that call, so it is the empty string. The result of
`read_metadata` in that branch (line 1455) goes to the log only. -/
def viewStep (os : OsEnv) (env : MetaEnv) (venv : ViewEnv)
    (metadata_home_path user_view_home_path : Str) (ids : List Int)
    (identical_permission_roots : List Nat) (st : ViewState) (e : FileListEntry) : ViewState :=
  if st.returned_false then st
  else if st.skip > 0 then
    if e.cf.isdir then
      if e.cf.name == dotdot then
        if st.skip - 1 = 0 then
          { st with skip := st.skip - 1, walk := leaveDir os st.walk, id := st.id + 1 }
        else { st with skip := st.skip - 1, id := st.id + 1 }
      else { st with skip := st.skip + 1, id := st.id + 1 }
    else { st with id := st.id + 1 }
  else
    let l := legalizeEntry os st.walk e.cf
    let osspecific_name := l.1
    let permissions : Str := []
    if e.cf.isdir then
      if e.cf.name == dotdot then
        { st with walk := leaveDir os l.2, id := st.id + 1 }
      else
        let w2 := enterDir os l.2 osspecific_name
        let metadata_fn :=
          metadata_home_path ++ w2.curr_path ++ os.os_file_sep ++ env.metadata_dir_fn
        let file_permissions := (env.read_metadata metadata_fn).getD []
        let r := viewDirIds env venv user_view_home_path file_permissions
          identical_permission_roots ids ({ st with walk := w2 }, false)
        if r.1.returned_false then r.1
        else if !r.2 then { r.1 with skip := 1, id := r.1.id + 1 }
        else { r.1 with id := r.1.id + 1 }
    else
      let filename := l.2.curr_path ++ os.os_file_sep ++ osspecific_name
      let r := viewFileIds env venv user_view_home_path permissions filename ids
        { st with walk := l.2 }
      if r.returned_false then r else { r with id := r.id + 1 }

/-- Lines 1481-1506, the links published behind the loop. -/
def viewPublish (os : OsEnv) (venv : ViewEnv) (user_view_home_path accoutname : Str)
    (st : ViewState) : ViewState :=
  if st.returned_false then st
  else
    let o_user_view_folder :=
      venv.backupfolder ++ os.os_file_sep ++ "user_views".toList ++ os.os_file_sep
        ++ venv.clientname ++ os.os_file_sep ++ accoutname
    let st1 :=
      if !venv.os_directory_exists st.actions (venv.os_file_prefix o_user_view_folder) then
        st.call venv (ViewAction.os_create_dir_recursive o_user_view_folder)
      else st
    if st1.returned_false then st1
    else
      let st2 := st1.call venv
        (ViewAction.os_link_symbolic (venv.os_file_prefix user_view_home_path)
          (venv.os_file_prefix (o_user_view_folder ++ os.os_file_sep ++ venv.backuppath_single)))
      if st2.returned_false then st2
      else
        let st3 : ViewState :=
          { st2 with
            actions := st2.actions ++
              [ViewAction.os_remove_symlink_dir
                (venv.os_file_prefix (o_user_view_folder ++ os.os_file_sep ++ "current".toList))] }
        st3.call venv
          (ViewAction.os_link_symbolic (venv.os_file_prefix user_view_home_path)
            (venv.os_file_prefix (o_user_view_folder ++ os.os_file_sep ++ "current".toList)))

/-- Lines 1333-1507 on the entries of the filelist in the order of the parser: the return
value, the calls made in order, and `filepath_corrections` afterwards.
`identical_permission_roots` is searched with `std::binary_search`; it is the sorted vector
that `findIdenticalPermissionRoots` returned, so the search is a membership test. -/
def createUserView (os : OsEnv) (env : MetaEnv) (venv : ViewEnv)
    (filepath_corrections : PathCorrections) (file_list : List FileListEntry)
    (ids : List Int) (accoutname : Str) (identical_permission_roots : List Nat) :
    Bool × List ViewAction × PathCorrections :=
  let user_view_home_path :=
    venv.backuppath ++ os.os_file_sep ++ "user_views".toList ++ os.os_file_sep ++ accoutname
  let st0 : ViewState :=
    ViewState.call venv
      { walk :=
          { curr_path := [], folder_files := [[]],
            filepath_corrections := filepath_corrections }
        skip := 0, id := 0, actions := [], returned_false := false }
      (ViewAction.os_create_dir_recursive (venv.os_file_prefix user_view_home_path))
  let st1 := file_list.foldl
    (viewStep os env venv (venv.backuppath ++ os.os_file_sep ++ ".hashes".toList)
      user_view_home_path ids identical_permission_roots) st0
  let st2 := viewPublish os venv user_view_home_path accoutname st1
  (!st2.returned_false, st2.actions, st2.walk.filepath_corrections)

/-- The scan of the subtree of a directory with count `has_perm` in the words of the spec,
started behind its directory-enter entry with `depth = 0`: whether every file and directory
of the subtree, which ends at the `..` of the directory or with the list, has the count
`has_perm`. -/
def subtreeAll (has_perm : Nat) : Nat → List PermItem → Bool
  | _, [] => true
  | depth, PermItem.file p :: rest => decide (p = has_perm) && subtreeAll has_perm depth rest
  | depth, PermItem.dir p :: rest =>
    decide (p = has_perm) && subtreeAll has_perm (depth + 1) rest
  | 0, PermItem.up :: _ => true
  | depth + 1, PermItem.up :: rest => subtreeAll has_perm depth rest

/-- The ids the spec asks for in its own words, `id` being the id of the first entry of the
list: the ids of the directory-enter entries whose subtree has nothing but entries with the
count of the directory. -/
def identicalDirsRef : Nat → List PermItem → List Nat
  | _, [] => []
  | id, PermItem.dir p :: rest =>
    (if subtreeAll p 0 rest then [id] else []) ++ identicalDirsRef (id + 1) rest
  | id, _ :: rest => identicalDirsRef (id + 1) rest

/-- One entry on the stack, the vector and the counter of `findIdenticalPermissionRoots`. -/
def itemStep (st : List SDirStatItem × List Nat × Nat) :
    PermItem → List SDirStatItem × List Nat × Nat
  | PermItem.file p => dirStatStep false false p st
  | PermItem.dir p => dirStatStep true false p st
  | PermItem.up => dirStatStep true true 0 st

/-! ### Filelists as forests

A list in which every directory is closed is the flattening of a forest; a well-nested list
is such a flattening with directories left open at the end. -/

/-- A sequence of files and closed directories. -/
inductive Forest
  | nil
  | file (has_perm : Nat) (rest : Forest)
  | dir (has_perm : Nat) (children : Forest) (rest : Forest)

/-- A sequence of files and closed directories behind which directories are left open. -/
inductive OpenForest
  | closed (f : Forest)
  | opened (f : Forest) (has_perm : Nat) (inner : OpenForest)

/-- The entries of a forest in the order of the filelist. -/
def Forest.flatten : Forest → List PermItem
  | Forest.nil => []
  | Forest.file p rest => PermItem.file p :: rest.flatten
  | Forest.dir p children rest =>
    PermItem.dir p :: (children.flatten ++ PermItem.up :: rest.flatten)

/-- The entries of an open forest in the order of the filelist. -/
def OpenForest.flatten : OpenForest → List PermItem
  | OpenForest.closed f => f.flatten
  | OpenForest.opened f p inner => f.flatten ++ PermItem.dir p :: inner.flatten

/-- The number of directories an open forest leaves open. -/
def OpenForest.depth : OpenForest → Nat
  | OpenForest.closed _ => 0
  | OpenForest.opened _ _ inner => inner.depth + 1

/-- One forest behind another. -/
def Forest.append : Forest → Forest → Forest
  | Forest.nil, g => g
  | Forest.file p rest, g => Forest.file p (rest.append g)
  | Forest.dir p children rest, g => Forest.dir p children (rest.append g)

/-- An open forest with one more file at its end. -/
def OpenForest.snocFile (p : Nat) : OpenForest → OpenForest
  | OpenForest.closed f => OpenForest.closed (f.append (Forest.file p Forest.nil))
  | OpenForest.opened f q inner => OpenForest.opened f q (inner.snocFile p)

/-- An open forest with one more directory opened at its end. -/
def OpenForest.snocDir (p : Nat) : OpenForest → OpenForest
  | OpenForest.closed f => OpenForest.opened f p (OpenForest.closed Forest.nil)
  | OpenForest.opened f q inner => OpenForest.opened f q (inner.snocDir p)

/-- An open forest whose innermost open directory is closed. -/
def OpenForest.snocUp : OpenForest → OpenForest
  | OpenForest.closed f => OpenForest.closed f
  | OpenForest.opened f q (OpenForest.closed g) =>
    OpenForest.closed (f.append (Forest.dir q g Forest.nil))
  | OpenForest.opened f q (OpenForest.opened g r inner) =>
    OpenForest.opened f q (OpenForest.snocUp (OpenForest.opened g r inner))

/-- The number of files and directories of a forest, at any depth. -/
def Forest.nodes : Forest → Nat
  | Forest.nil => 0
  | Forest.file _ rest => 1 + rest.nodes
  | Forest.dir _ children rest => 1 + children.nodes + rest.nodes

/-- The number of files and directories of a forest, at any depth, whose count is the one
of the directory they are in, `q` being the count of the directory around the forest. -/
def Forest.ident (q : Nat) : Forest → Nat
  | Forest.nil => 0
  | Forest.file p rest => (if p = q then 1 else 0) + Forest.ident q rest
  | Forest.dir p children rest =>
    Forest.ident p children + (if p = q then 1 else 0) + Forest.ident q rest

/-- Whether every file and directory of a forest, at any depth, has the count `q`. -/
def Forest.allEq (q : Nat) : Forest → Bool
  | Forest.nil => true
  | Forest.file p rest => decide (p = q) && Forest.allEq q rest
  | Forest.dir p children rest =>
    decide (p = q) && Forest.allEq q children && Forest.allEq q rest

/-- The ids of the directories of a forest whose subtree has nothing but their count, in the
order in which the directories are left; `id` is the id of the first entry. -/
def Forest.leaveIds : Nat → Forest → List Nat
  | _, Forest.nil => []
  | id, Forest.file _ rest => Forest.leaveIds (id + 1) rest
  | id, Forest.dir p children rest =>
    Forest.leaveIds (id + 1) children ++ (if Forest.allEq p children then [id] else [])
      ++ Forest.leaveIds (id + 1 + children.flatten.length + 1) rest

/-- The ids of the directories of a forest whose subtree has nothing but their count, in the
order in which the directories are entered; `id` is the id of the first entry. -/
def Forest.enterIds : Nat → Forest → List Nat
  | _, Forest.nil => []
  | id, Forest.file _ rest => Forest.enterIds (id + 1) rest
  | id, Forest.dir p children rest =>
    (if Forest.allEq p children then [id] else []) ++ Forest.enterIds (id + 1) children
      ++ Forest.enterIds (id + 1 + children.flatten.length + 1) rest

/-- The function `Forest.leaveIds` on an open forest: open directories are never left. -/
def OpenForest.leaveIds : Nat → OpenForest → List Nat
  | id, OpenForest.closed f => f.leaveIds id
  | id, OpenForest.opened f _ inner =>
    f.leaveIds id ++ OpenForest.leaveIds (id + f.flatten.length + 1) inner

/-- The function `Forest.enterIds` on an open forest, the open directories left out. -/
def OpenForest.enterIds : Nat → OpenForest → List Nat
  | id, OpenForest.closed f => f.enterIds id
  | id, OpenForest.opened f _ inner =>
    f.enterIds id ++ OpenForest.enterIds (id + f.flatten.length + 1) inner

/-- The counters of the directory on top of the stack after the entries of a forest. -/
def bump (f : Forest) : List SDirStatItem → List SDirStatItem
  | [] => []
  | top :: deeper =>
    { top with
      nodecount := top.nodecount + f.nodes
      identicalcount := top.identicalcount + f.ident top.has_perm } :: deeper

/-! ## Nesting of the entries of a filelist -/

/-- The number of directories open behind a list of entries, `depth` being open in front of
it; `none` if a `..` of the list closes a directory that is not open. -/
def depthAfter : Nat → List SFile → Option Nat
  | depth, [] => some depth
  | depth, cf :: rest =>
    if cf.isdir then
      if cf.name == dotdot then
        match depth with
        | 0 => none
        | d + 1 => depthAfter d rest
      else depthAfter (depth + 1) rest
    else depthAfter depth rest

/-! ## `saveUsersOnClient` (lines 1509-1551) -/

/-- The value `std::string::npos` of a 64-bit `size_t`. -/
def npos : Nat := 2 ^ 64 - 1

/-- The first position at which `pat` occurs in a string, if there is one. -/
def findStrFrom (pat : Str) : Str → Option Nat
  | [] => if pat.isPrefixOf [] then some 0 else none
  | c :: r =>
    if pat.isPrefixOf (c :: r) then some 0 else (findStrFrom pat r).map fun i => i + 1

/-- The call `s.find(pat)` with a string argument, as the `size_t` it returns: the first
position at which `pat` occurs, `npos` if there is none. -/
def findStr (s pat : Str) : Nat :=
  (findStrFrom pat s).getD npos

/-- The test of line 1546, `keys[i].find(".token")==keys[i].size()-6`, both sides being
`size_t`: the subtraction is taken modulo `2^64`. -/
def tokenKeyTest (key : Str) : Bool :=
  findStr key ".token".toList == (key.length + 2 ^ 64 - 6) % 2 ^ 64

/-- The calls of `saveUsersOnClient` on `backup_dao` (all of them for `clientid`). -/
inductive DaoAction
  | deleteAllUsersOnClient
  | addUserOnClient (accountname : Str)
  | addUserToken (accountname token : Str)
  | addClientToken (token : Str)
deriving DecidableEq, Repr

/-- What `saveUsersOnClient` uses of the `ISettingsReader` of the tokens file:
`getValue(key, def)` and `getKeys()`. -/
structure SettingsReader where
  getValue : Str → Str → Str
  getKeys : List Str

/-- Lines 1526-1541 for one uid. -/
def saveUser (Tokenize : Str → Str → List Str) (base64_decode_dash : Str → Str)
    (urbackup_tokens : SettingsReader) (uid : Str) : List DaoAction :=
  let accountname :=
    base64_decode_dash (urbackup_tokens.getValue (uid ++ ".accountname".toList) [])
  let s_gids := urbackup_tokens.getValue (uid ++ ".gids".toList) []
  let gids := Tokenize s_gids ",".toList
  [DaoAction.addUserOnClient accountname,
    DaoAction.addUserToken accountname (urbackup_tokens.getValue (uid ++ ".token".toList) [])]
    ++ gids.map fun gid =>
      DaoAction.addUserToken accountname (urbackup_tokens.getValue (gid ++ ".token".toList) [])

/-- Lines 1509-1551: the calls on `backup_dao` in order. `urbackup_tokens` is `none` when
`createFileSettingsReader` returns `NULL`; `Tokenize` and `base64_decode_dash` are not part
of `FileBackup.cpp`. -/
def saveUsersOnClient (Tokenize : Str → Str → List Str) (base64_decode_dash : Str → Str) :
    Option SettingsReader → List DaoAction
  | none => []
  | some urbackup_tokens =>
    let s_uids := urbackup_tokens.getValue "uids".toList []
    let uids := Tokenize s_uids ",".toList
    let keys := urbackup_tokens.getKeys
    [DaoAction.deleteAllUsersOnClient]
      ++ (uids.map (saveUser Tokenize base64_decode_dash urbackup_tokens)).flatten
      ++ (keys.filter tokenKeyTest).map fun key =>
        DaoAction.addClientToken (urbackup_tokens.getValue key [])

/-! ## `getIncrementalSize` (lines 392-475) and `hasChange` (lines 595-598) -/

/-- Lines 595-598: `std::binary_search` for `line` in `diffs`. The vector is ascending, so
the search is a membership test. -/
def hasChange (line : Nat) (diffs : List Nat) : Bool :=
  diffs.contains line

/-- The value of a signed 64-bit integer (`_i64`) after an operation whose exact result is
`x`: the number in `[-2^63, 2^63)` that differs from `x` by a multiple of `2^64`. (Signed
overflow is undefined in C++; the compiled code wraps.) -/
def wrapInt64 (x : Int) : Int :=
  (x + 2 ^ 63) % 2 ^ 64 - 2 ^ 63

/-- The locals of `getIncrementalSize` that change in the loop. `rsize` is an `_i64`; what
is added to it is taken modulo `2^64` (`wrapInt64`). The three depth counters are `int`;
they move by one per directory entry, and the model does not wrap them. -/
structure IncrState where
  rsize : Int
  indirchange : Bool
  line : Nat
  indir_currdepth : Int
  depth : Int
  changelevel : Int
deriving DecidableEq, Repr

/-- Lines 419-466, the body of the loop for one entry. -/
def incrStep (diffs : List Nat) (all : Bool) (st : IncrState) (cf : SFile) : IncrState :=
  if cf.isdir then
    let st1 : IncrState :=
      if st.indirchange == false && hasChange st.line diffs then
        { st with indirchange := true, changelevel := st.depth, indir_currdepth := 0 }
      else if st.indirchange then
        if cf.name != dotdot then { st with indir_currdepth := st.indir_currdepth + 1 }
        else { st with indir_currdepth := st.indir_currdepth - 1 }
      else st
    let st2 : IncrState :=
      if cf.name == dotdot && decide (st1.indir_currdepth > 0) then
        { st1 with indir_currdepth := st1.indir_currdepth - 1 }
      else st1
    let st3 : IncrState :=
      if cf.name != dotdot then { st2 with depth := st2.depth + 1 }
      else
        if st2.indirchange && decide (st2.depth - 1 = st2.changelevel) then
          if !all then { st2 with depth := st2.depth - 1, indirchange := false }
          else { st2 with depth := st2.depth - 1 }
        else { st2 with depth := st2.depth - 1 }
    { st3 with line := st3.line + 1 }
  else
    let st1 : IncrState :=
      if st.indirchange || hasChange st.line diffs then
        if cf.size > 0 then { st with rsize := wrapInt64 (st.rsize + cf.size) } else st
      else st
    { st1 with line := st1.line + 1 }

/-- Lines 392-475 on the entries of the filelist in the order of the parser. -/
def getIncrementalSize (entries : List SFile) (diffs : List Nat) (all : Bool) : Int :=
  (entries.foldl (incrStep diffs all)
    { rsize := 0, indirchange := all, line := 0, indir_currdepth := 0, depth := 0,
      changelevel := 0 }).rsize

/-- The sum of the sizes of the File entries with a positive size. -/
def allSizeRef : List SFile → Int
  | [] => 0
  | cf :: rest => (if !cf.isdir && decide (cf.size > 0) then cf.size else 0) + allSizeRef rest

/-- The size the spec asks for with `all = false`: the sum of the positive sizes of the File
entries whose index is in `diffs` or that lie inside a directory whose directory-enter index
is in `diffs`. `index` is the index of the first entry of the list and `opened` holds the
indices of the directory-enter entries of the directories open in front of it, the
innermost first. -/
def incrementalSizeRef (diffs : List Nat) : Nat → List Nat → List SFile → Int
  | _, _, [] => 0
  | index, opened, cf :: rest =>
    if cf.isdir then
      if cf.name == dotdot then incrementalSizeRef diffs (index + 1) opened.tail rest
      else incrementalSizeRef diffs (index + 1) (index :: opened) rest
    else
      (if (diffs.contains index || opened.any fun j => diffs.contains j)
          && decide (cf.size > 0) then cf.size else 0)
        + incrementalSizeRef diffs (index + 1) opened rest

/-- The indices of the `..` entries of a filelist, `index` being the index of its first
entry. -/
def dotdotIndices : Nat → List SFile → List Nat
  | _, [] => []
  | index, cf :: rest =>
    (if cf.isdir && cf.name == dotdot then [index] else []) ++ dotdotIndices (index + 1) rest

/-! ## `createSymlink` (lines 1575-1605) -/

/-- Lines 1587-1602, the loop over the tokens that are left, on `target` and the member
`filepath_corrections`; the test `i+1<toks.size()` asks whether a token is left behind the
current one. -/
def createSymlinkLoop (os : OsEnv) :
    List Str → Str × PathCorrections → Str × PathCorrections
  | [], r => r
  | tok :: left, (target, filepath_corrections) =>
    let r := os.fixFilenameForOS filepath_corrections tok [] []
    let component := r.ret
    if component == dotdot || component == ['.'] then
      createSymlinkLoop os left (target, r.filepath_corrections)
    else
      createSymlinkLoop os left
        ((target ++ component) ++ (if !left.isEmpty then os.os_file_sep else []),
          r.filepath_corrections)

/-- Lines 1582-1585: `depth` times `".."+os_file_sep()`. -/
def dotdotSteps (os : OsEnv) : Nat → Str
  | 0 => []
  | depth + 1 => dotdotSteps os depth ++ (dotdot ++ os.os_file_sep)

/-- Lines 1575-1605: the target and the name given to `os_link_symbolic`, and
`filepath_corrections` afterwards. `TokenizeMail` is not part of `FileBackup.cpp`. -/
def createSymlink (os : OsEnv) (TokenizeMail : Str → Str → List Str)
    (filepath_corrections : PathCorrections) (name : Str) (depth : Nat)
    (symlink_target dir_sep : Str) : (Str × Str) × PathCorrections :=
  let toks := TokenizeMail symlink_target dir_sep
  let r := createSymlinkLoop os toks (dotdotSteps os depth, filepath_corrections)
  ((r.1, name), r.2)

/-- The pieces of a target behind the `..` prefix: for every token whose legalized form is
neither `.` nor `..` that form, and whether a separator follows it. -/
def symlinkPieces (legalize : Str → Str) : List Str → List (Str × Bool)
  | [] => []
  | tok :: left =>
    (if legalize tok = dotdot ∨ legalize tok = ['.'] then []
      else [(legalize tok, !left.isEmpty)]) ++ symlinkPieces legalize left

/-- A target in the words of the spec: `depth` copies of `..` and the separator, followed by
path components, each with or without a separator behind it. -/
def symlinkTargetRef (sep : Str) (depth : Nat) (pieces : List (Str × Bool)) : Str :=
  (List.replicate depth (dotdot ++ sep)).flatten
    ++ (pieces.map fun p => p.1 ++ if p.2 then sep else []).flatten

/-- The segments of a path between its `/`. -/
def pathSegments : Str → List Str
  | [] => [[]]
  | c :: r =>
    if c = '/' then [] :: pathSegments r
    else
      match pathSegments r with
      | [] => [[c]]
      | seg :: more => (c :: seg) :: more

/-- Whether a walk along the segments of a relative path never gets above the directory
that lies `room` levels above the start: `..` goes up one level, an empty segment and `.`
stay, every other segment goes down one level. -/
def climbOk : Nat → List Str → Bool
  | _, [] => true
  | room, seg :: more =>
    if seg = dotdot then
      match room with
      | 0 => false
      | r + 1 => climbOk r more
    else if seg = [] ∨ seg = ['.'] then climbOk room more
    else climbOk (room + 1) more

/-- Whether a link target does not climb higher than `depth` levels: it is not absolute
(does not begin with `/`) and the walk along its segments stays at or below the directory
`depth` levels up. -/
def staysWithin (depth : Nat) (target : Str) : Bool :=
  target.head? != some '/' && climbOk depth (pathSegments target)

/-- Whether the first token other than `.` and `..` is empty and has a token behind it. -/
def leadingEmptyToken : List Str → Bool
  | [] => false
  | tok :: left =>
    if tok = dotdot ∨ tok = ['.'] then leadingEmptyToken left
    else decide (tok = []) && !left.isEmpty

/-! # Theorems -/

/-! ## `doBackup` -/

/-- C1, as stated, fails: when `doFileBackup` returns `true` but `disk_error` is set,
`doBackup` returns `true` although the commit branch is not taken. -/
theorem doBackup_true_without_commit :
    (doBackup
      { handle_not_enough_space := true, cdp_path := false, constructBackupPath := true,
        constructBackupPathCdp := true,
        doFileBackup :=
          { backup_result := true, disk_error := true, has_early_error := false, backupid := 7 },
        use_snapshots := false, removeFilesystem := false }).1 = true ∧
    committed (doBackup
      { handle_not_enough_space := true, cdp_path := false, constructBackupPath := true,
        constructBackupPathCdp := true,
        doFileBackup :=
          { backup_result := true, disk_error := true, has_early_error := false, backupid := 7 },
        use_snapshots := false, removeFilesystem := false }) = false := by
  decide

/-- C1, amended: `doBackup` returns `true` exactly when it got as far as `doFileBackup` and
that call returned `true`; the commit branch is taken exactly when `doBackup` returns `true`
and neither `disk_error` nor `has_early_error` is set. -/
theorem doBackup_commit_iff (env : BackupEnv) :
    ((doBackup env).1 = true ↔
        (reachesDoFileBackup env = true ∧ env.doFileBackup.backup_result = true)) ∧
    (committed (doBackup env) = true ↔
        ((doBackup env).1 = true ∧ env.doFileBackup.disk_error = false ∧
          env.doFileBackup.has_early_error = false)) := by
  obtain ⟨sp, cdp, p1, p2, ⟨br, de, he, id⟩, us, rf⟩ := env
  cases sp <;> cases cdp <;> cases p1 <;> cases p2 <;> cases br <;> cases de <;> cases he <;>
    simp [doBackup, committed, reachesDoFileBackup]

/-- C2: after `doFileBackup`, a set `disk_error` mails the admins and never calls
`deleteBackup`; without `disk_error`, a set `has_early_error` calls `deleteBackup`; in both
cases the backup is not marked complete. With `backupid == -1`, `deleteBackup` removes the
snapshot when `use_snapshots` is on, removes the directory recursively only if that failed,
and removes the directory recursively at once when `use_snapshots` is off. -/
theorem doBackup_teardown (env : BackupEnv) (h : reachesDoFileBackup env = true) :
    (env.doFileBackup.disk_error = true →
      Effect.sendMailToAdmins ∈ (doBackup env).2 ∧ deleteBackupInvoked (doBackup env) = false ∧
        committed (doBackup env) = false) ∧
    (env.doFileBackup.disk_error = false → env.doFileBackup.has_early_error = true →
      Effect.deleteBackup
          (deleteBackup env.doFileBackup.backupid env.use_snapshots env.removeFilesystem)
        ∈ (doBackup env).2 ∧
      deleteBackupInvoked (doBackup env) = true ∧ committed (doBackup env) = false) ∧
    (∀ use_snapshots removeFilesystem : Bool,
      deleteBackup (-1) use_snapshots removeFilesystem =
        if use_snapshots then
          if removeFilesystem then [DeleteAction.removeFilesystem]
          else [DeleteAction.removeFilesystem, DeleteAction.remove_directory_link_dir]
        else [DeleteAction.remove_directory_link_dir]) := by
  obtain ⟨sp, cdp, p1, p2, ⟨br, de, he, id⟩, us, rf⟩ := env
  refine ⟨?_, ?_, ?_⟩
  · intro hd
    simp only at hd
    subst hd
    cases sp <;> cases cdp <;> cases p1 <;> cases p2 <;> cases br <;> cases he <;>
      simp_all [doBackup, committed, deleteBackupInvoked, reachesDoFileBackup]
  · intro hd he1
    simp only at hd he1
    subst hd
    subst he1
    cases sp <;> cases cdp <;> cases p1 <;> cases p2 <;> cases br <;>
      simp_all [doBackup, committed, deleteBackupInvoked, reachesDoFileBackup]
  · intro a b
    cases a <;> cases b <;> rfl

/-- C2, at concrete inputs: a disk error together with an early error mails the admins and
deletes nothing; an early error alone, on a snapshot whose removal fails, deletes by both
means. -/
theorem doBackup_teardown_witness :
    (Effect.sendMailToAdmins ∈ (doBackup
        { handle_not_enough_space := true, cdp_path := false, constructBackupPath := true,
          constructBackupPathCdp := false,
          doFileBackup :=
            { backup_result := true, disk_error := true, has_early_error := true,
              backupid := -1 },
          use_snapshots := true, removeFilesystem := false }).2 ∧
      deleteBackupInvoked (doBackup
        { handle_not_enough_space := true, cdp_path := false, constructBackupPath := true,
          constructBackupPathCdp := false,
          doFileBackup :=
            { backup_result := true, disk_error := true, has_early_error := true,
              backupid := -1 },
          use_snapshots := true, removeFilesystem := false }) = false ∧
      committed (doBackup
        { handle_not_enough_space := true, cdp_path := false, constructBackupPath := true,
          constructBackupPathCdp := false,
          doFileBackup :=
            { backup_result := true, disk_error := true, has_early_error := true,
              backupid := -1 },
          use_snapshots := true, removeFilesystem := false }) = false) ∧
    Effect.deleteBackup [DeleteAction.removeFilesystem, DeleteAction.remove_directory_link_dir]
      ∈ (doBackup
        { handle_not_enough_space := true, cdp_path := false, constructBackupPath := true,
          constructBackupPathCdp := false,
          doFileBackup :=
            { backup_result := true, disk_error := false, has_early_error := true,
              backupid := -1 },
          use_snapshots := true, removeFilesystem := false }).2 :=
  ⟨(doBackup_teardown
      { handle_not_enough_space := true, cdp_path := false, constructBackupPath := true,
        constructBackupPathCdp := false,
        doFileBackup :=
          { backup_result := true, disk_error := true, has_early_error := true,
            backupid := -1 },
        use_snapshots := true, removeFilesystem := false }
      (by decide)).1 rfl,
    ((doBackup_teardown
      { handle_not_enough_space := true, cdp_path := false, constructBackupPath := true,
        constructBackupPathCdp := false,
        doFileBackup :=
          { backup_result := true, disk_error := false, has_early_error := true,
            backupid := -1 },
        use_snapshots := true, removeFilesystem := false }
      (by decide)).2.1 rfl rfl).1⟩

/-! ## Helper lemmas on strings and on `GenerateHexMD5` -/

theorem ReplaceChar_of_not_mem (s : Str) (a b : Char) (h : a ∉ s) : ReplaceChar s a b = s := by
  induction s with
  | nil => rfl
  | cons c r ih =>
    have h1 : c ≠ a := fun e => h (by simp [e])
    have h2 : a ∉ r := fun e => h (by simp [e])
    simp only [ReplaceChar, List.map_cons, if_neg h1] at ih ⊢
    rw [ih h2]

theorem not_mem_ReplaceChar (s : Str) (a b : Char) (h : a ≠ b) : a ∉ ReplaceChar s a b := by
  intro hm
  simp only [ReplaceChar, List.mem_map] at hm
  obtain ⟨c, _, hc⟩ := hm
  by_cases e : c = a
  · rw [if_pos e] at hc
    exact h hc.symm
  · rw [if_neg e] at hc
    exact e hc

theorem length_ReplaceChar (s : Str) (a b : Char) : (ReplaceChar s a b).length = s.length := by
  simp [ReplaceChar]

theorem hexDigit_isHex : ∀ n < 16, isHexChar (hexDigit n) = true := by decide

theorem GenerateHexMD5_isHex (s : Str) : ∀ c ∈ GenerateHexMD5 s, isHexChar c = true := by
  intro c hc
  simp only [GenerateHexMD5, List.mem_flatMap, hexByte, List.mem_cons, List.mem_singleton,
    List.not_mem_nil, or_false] at hc
  obtain ⟨b, _, h | h⟩ := hc
  · rw [h]
    exact hexDigit_isHex _ (Nat.mod_lt _ (by decide))
  · rw [h]
    exact hexDigit_isHex _ (Nat.mod_lt _ (by decide))

/-! ## The POSIX variant of `fixFilenameForOS` -/

namespace Posix

theorem resize_pred (ret : Str) : resize ret (ret.length - 1) = ret.take (ret.length - 1) := by
  have h : ret.length - 1 - ret.length = 0 := by omega
  simp [resize, h]

theorem shortenLoop_eq (k : Nat) :
    ∀ ret : Str, ret.length = NAME_MAX - 11 + k → shortenLoop ret = ret.take (NAME_MAX - 12) := by
  induction k with
  | zero =>
    intro ret h
    rw [shortenLoop, resize_pred]
    simp only [NAME_MAX, Nat.add_zero] at h
    simp [h, NAME_MAX]
  | succ k ih =>
    intro ret h
    rw [shortenLoop, resize_pred]
    simp only [NAME_MAX] at h
    have hl : (List.take (ret.length - 1) ret).length = NAME_MAX - 11 + k := by
      simp [NAME_MAX, h]
    rw [if_pos (by rw [hl]; omega), ih _ hl, List.take_take]
    congr 1
    simp only [NAME_MAX, h]
    omega

/-- The `do ... while` loop leaves the first `NAME_MAX-12` chars. -/
theorem shortenLoop_take (ret : Str) (h : NAME_MAX - 11 ≤ ret.length) :
    shortenLoop ret = ret.take (NAME_MAX - 12) :=
  shortenLoop_eq (ret.length - (NAME_MAX - 11)) ret (by omega)

theorem replaceDisallowed_eq (fn : Str) (st : Str × Bool) :
    replaceDisallowed disallowed_chars fn st = replaceStep fn st '/' := rfl

/-- The final `modified_filename` of the POSIX variant. -/
theorem modified_eq (hexMD5 : Str → Str) (t : PathCorrections) (fn : Str) (sd : List Str)
    (cp : Str) :
    (fixFilenameForOS hexMD5 t fn sd cp).modified_filename
      = !decide (fn.length < NAME_MAX - 11 ∧ '/' ∉ fn) := by
  by_cases hlen : NAME_MAX - 11 ≤ fn.length
  · have hlt : ¬ fn.length < NAME_MAX - 11 := by omega
    by_cases hs : '/' ∈ fn <;>
      simp [fixFilenameForOS, replaceDisallowed_eq, replaceStep, hlen, hlt, hs]
  · have hlt : fn.length < NAME_MAX - 11 := by omega
    by_cases hs : '/' ∈ fn <;>
      simp [fixFilenameForOS, replaceDisallowed_eq, replaceStep, hlen, hlt, hs]

/-- The name returned by the POSIX variant, in closed form. -/
theorem ret_eq (hexMD5 : Str → Str) (t : PathCorrections) (fn : Str) (sd : List Str)
    (cp : Str) :
    (fixFilenameForOS hexMD5 t fn sd cp).ret =
      if fn.length < NAME_MAX - 11 ∧ '/' ∉ fn then fn
      else ReplaceChar (fn.take (NAME_MAX - 12)) '/' '_' ++ ['-'] ++ (hexMD5 fn).take 10 := by
  by_cases hlen : NAME_MAX - 11 ≤ fn.length
  · have hlt : ¬ fn.length < NAME_MAX - 11 := by omega
    by_cases hs : '/' ∈ fn
    · simp [fixFilenameForOS, replaceDisallowed_eq, replaceStep, appendHash, hlen,
        hlt, hs, shortenLoop_take]
    · have hs2 : '/' ∉ fn.take (NAME_MAX - 12) := fun hm => hs (List.mem_of_mem_take hm)
      simp [fixFilenameForOS, replaceDisallowed_eq, replaceStep, appendHash, hlen,
        hlt, hs, shortenLoop_take, ReplaceChar_of_not_mem _ _ _ hs2]
  · have hlt : fn.length < NAME_MAX - 11 := by omega
    by_cases hs : '/' ∈ fn
    · have ht : fn.take (NAME_MAX - 12) = fn :=
        List.take_of_length_le (by simp only [NAME_MAX] at hlt ⊢; omega)
      simp [fixFilenameForOS, replaceDisallowed_eq, replaceStep, appendHash, hlen,
        hlt, hs, ht]
    · simp [fixFilenameForOS, replaceDisallowed_eq, replaceStep, appendHash, hlen,
        hlt, hs]

theorem ret_no_slash (hexMD5 : Str → Str) (t : PathCorrections) (fn : Str) (sd : List Str)
    (cp : Str) (hhex : ∀ c ∈ hexMD5 fn, isHexChar c = true) :
    '/' ∉ (fixFilenameForOS hexMD5 t fn sd cp).ret := by
  rw [ret_eq]
  split
  · next h => exact h.2
  · intro hm
    simp only [List.append_assoc, List.mem_append, List.mem_singleton] at hm
    rcases hm with hm | hm | hm
    · exact not_mem_ReplaceChar _ _ _ (by decide) hm
    · exact absurd hm (by decide)
    · have := hhex _ (List.mem_of_mem_take hm)
      exact absurd this (by decide)

theorem ret_length_le (hexMD5 : Str → Str) (t : PathCorrections) (fn : Str) (sd : List Str)
    (cp : Str) : (fixFilenameForOS hexMD5 t fn sd cp).ret.length ≤ NAME_MAX - 1 := by
  rw [ret_eq]
  split
  · next h =>
    have := h.1
    omega
  · simp only [List.length_append, length_ReplaceChar, List.length_take, List.length_singleton,
      NAME_MAX]
    omega

theorem corrections_eq (hexMD5 : Str → Str) (t : PathCorrections) (fn : Str) (sd : List Str)
    (cp : Str) :
    (fixFilenameForOS hexMD5 t fn sd cp).filepath_corrections =
      recordCorrection fn cp (fixFilenameForOS hexMD5 t fn sd cp).ret
        (fixFilenameForOS hexMD5 t fn sd cp).modified_filename t := rfl

/-- C3: on the POSIX-like target the returned name contains no `/` and has at most `NAME_MAX`
bytes, for every raw name, as long as the hex MD5 of the name consists of hex digits. -/
theorem fixFilenameForOS_legal (hexMD5 : Str → Str) (t : PathCorrections) (fn : Str)
    (sd : List Str) (cp : Str) (hhex : ∀ c ∈ hexMD5 fn, isHexChar c = true) :
    '/' ∉ (fixFilenameForOS hexMD5 t fn sd cp).ret ∧
      (fixFilenameForOS hexMD5 t fn sd cp).ret.length ≤ NAME_MAX :=
  ⟨ret_no_slash hexMD5 t fn sd cp hhex,
    le_trans (ret_length_le hexMD5 t fn sd cp) (by decide)⟩

/-- C3 at a name of 300 slashes. -/
theorem fixFilenameForOS_legal_witness :
    (∀ c ∈ GenerateHexMD5 (List.replicate 300 '/'), isHexChar c = true) ∧
    '/' ∉ (fixFilenameForOS GenerateHexMD5 (fun _ => none) (List.replicate 300 '/') [] []).ret ∧
      (fixFilenameForOS GenerateHexMD5 (fun _ => none) (List.replicate 300 '/') [] []).ret.length
        ≤ NAME_MAX :=
  ⟨GenerateHexMD5_isHex _,
    fixFilenameForOS_legal GenerateHexMD5 (fun _ => none) (List.replicate 300 '/') [] []
      (GenerateHexMD5_isHex _)⟩

/-- C5: the POSIX variant computes the reference definition: the name itself when it is
shorter than `NAME_MAX-11` and has no `/`, else the stem (cut to `NAME_MAX-12` bytes, `/`
replaced by `_`) followed by `-` and the first 10 chars of the hex MD5 of the original name;
`modified_filename` is set exactly in the second case. -/
theorem fixFilenameForOS_eq_legalizeRef (hexMD5 : Str → Str) (t : PathCorrections) (fn : Str)
    (sd : List Str) (cp : Str) :
    (fixFilenameForOS hexMD5 t fn sd cp).ret = legalizeRef hexMD5 fn ∧
    (fixFilenameForOS hexMD5 t fn sd cp).modified_filename
      = !decide (fn.length < NAME_MAX - 11 ∧ '/' ∉ fn) := by
  refine ⟨?_, modified_eq hexMD5 t fn sd cp⟩
  rw [ret_eq]
  rfl

set_option maxRecDepth 1000000 in
/-- C7, as stated, fails: the name of `NAME_MAX-11 = 244` letters `a` is cut to 243 bytes and
hash-suffixed, and the correction is recorded. -/
theorem name_of_244_bytes_is_modified :
    (fixFilenameForOS GenerateHexMD5 (fun _ => none) (List.replicate (NAME_MAX - 11) 'a')
        [] []).ret = List.replicate 243 'a' ++ "-f30f75dce7".toList ∧
    (fixFilenameForOS GenerateHexMD5 (fun _ => none) (List.replicate (NAME_MAX - 11) 'a')
        [] []).ret ≠ List.replicate (NAME_MAX - 11) 'a' ∧
    (fixFilenameForOS GenerateHexMD5 (fun _ => none) (List.replicate (NAME_MAX - 11) 'a')
        [] []).filepath_corrections (List.replicate (NAME_MAX - 11) 'a')
      = some (List.replicate 243 'a' ++ "-f30f75dce7".toList) := by
  simp only [corrections_eq, ret_eq, modified_eq]
  decide

/-- C7, amended: a name without `/` of exactly `NAME_MAX-12` bytes is returned unmodified and
nothing is recorded; at `NAME_MAX-11` and at `NAME_MAX-10` bytes it is cut to `NAME_MAX-12`
bytes and hash-suffixed. -/
theorem length_boundary (hexMD5 : Str → Str) (t : PathCorrections) (fn : Str)
    (sd : List Str) (cp : Str) (hs : '/' ∉ fn) :
    (fn.length = NAME_MAX - 12 →
      (fixFilenameForOS hexMD5 t fn sd cp).ret = fn ∧
      (fixFilenameForOS hexMD5 t fn sd cp).modified_filename = false ∧
      (fixFilenameForOS hexMD5 t fn sd cp).filepath_corrections = t) ∧
    (fn.length = NAME_MAX - 11 ∨ fn.length = NAME_MAX - 10 →
      (fixFilenameForOS hexMD5 t fn sd cp).ret
        = fn.take (NAME_MAX - 12) ++ ['-'] ++ (hexMD5 fn).take 10 ∧
      (fixFilenameForOS hexMD5 t fn sd cp).modified_filename = true) := by
  constructor
  · intro hl
    have hc : fn.length < NAME_MAX - 11 ∧ '/' ∉ fn := ⟨by rw [hl]; decide, hs⟩
    have hm := modified_eq hexMD5 t fn sd cp
    rw [decide_eq_true hc] at hm
    refine ⟨by rw [ret_eq, if_pos hc], hm, ?_⟩
    rw [corrections_eq, hm]
    rfl
  · intro hl
    have hc : ¬ (fn.length < NAME_MAX - 11 ∧ '/' ∉ fn) := by
      intro h
      have := h.1
      simp only [NAME_MAX] at hl this
      omega
    have hm := modified_eq hexMD5 t fn sd cp
    rw [decide_eq_false hc] at hm
    refine ⟨?_, hm⟩
    rw [ret_eq, if_neg hc,
      ReplaceChar_of_not_mem _ _ _ (fun hm => hs (List.mem_of_mem_take hm))]

set_option maxRecDepth 1000000 in
/-- C7, amended, at the names of 243 and of 244 letters `a`. -/
theorem length_boundary_witness :
    '/' ∉ List.replicate 243 'a' ∧ (List.replicate 243 'a').length = NAME_MAX - 12 ∧
    (fixFilenameForOS GenerateHexMD5 (fun _ => none) (List.replicate 243 'a') [] []).ret
      = List.replicate 243 'a' ∧
    (fixFilenameForOS GenerateHexMD5 (fun _ => none) (List.replicate 244 'a') [] []).modified_filename
      = true :=
  ⟨by decide, by decide,
    ((length_boundary GenerateHexMD5 (fun _ => none) (List.replicate 243 'a') [] []
      (by decide)).1 (by decide)).1,
    ((length_boundary GenerateHexMD5 (fun _ => none) (List.replicate 244 'a') [] []
      (by decide)).2 (Or.inl (by decide))).2⟩

set_option maxRecDepth 1000000 in
/-- C6, as stated, fails: the name of 244 letters `a` is legalized to 243 letters `a` followed
by `-f30f75dce7`; legalizing that name again cuts it to the same 243 letters and appends the
hash of the legalized name, `-792b010a9d`. -/
theorem legalize_twice_differs :
    (fixFilenameForOS GenerateHexMD5 (fun _ => none)
        (fixFilenameForOS GenerateHexMD5 (fun _ => none) (List.replicate 244 'a') [] []).ret
        [] []).ret = List.replicate 243 'a' ++ "-792b010a9d".toList ∧
    (fixFilenameForOS GenerateHexMD5 (fun _ => none)
        (fixFilenameForOS GenerateHexMD5 (fun _ => none) (List.replicate 244 'a') [] []).ret
        [] []).ret
      ≠ (fixFilenameForOS GenerateHexMD5 (fun _ => none) (List.replicate 244 'a') [] []).ret := by
  simp only [ret_eq]
  decide

/-- C6, amended: on the POSIX-like target, legalizing a legalized name again returns it
unchanged and unmodified whenever the legalized name is shorter than `NAME_MAX-11` bytes (the
hex MD5 consisting of hex digits). -/
theorem legalize_idempotent_of_short (hexMD5 : Str → Str) (t t2 : PathCorrections) (fn : Str)
    (sd sd2 : List Str) (cp : Str) (hhex : ∀ c ∈ hexMD5 fn, isHexChar c = true)
    (hshort : (fixFilenameForOS hexMD5 t fn sd cp).ret.length < NAME_MAX - 11) :
    (fixFilenameForOS hexMD5 t2 (fixFilenameForOS hexMD5 t fn sd cp).ret sd2 cp).ret
      = (fixFilenameForOS hexMD5 t fn sd cp).ret ∧
    (fixFilenameForOS hexMD5 t2 (fixFilenameForOS hexMD5 t fn sd cp).ret sd2
      cp).modified_filename = false := by
  have hc : (fixFilenameForOS hexMD5 t fn sd cp).ret.length < NAME_MAX - 11 ∧
      '/' ∉ (fixFilenameForOS hexMD5 t fn sd cp).ret :=
    ⟨hshort, ret_no_slash hexMD5 t fn sd cp hhex⟩
  constructor
  · rw [ret_eq hexMD5 t2, if_pos hc]
  · rw [modified_eq hexMD5 t2, decide_eq_true hc]
    rfl

set_option maxRecDepth 1000000 in
/-- C6, amended, at the name `a/b`, which is legalized to `a_b-a7e8613654`. -/
theorem legalize_idempotent_of_short_witness :
    (fixFilenameForOS GenerateHexMD5 (fun _ => none) "a/b".toList [] []).ret
      = "a_b-a7e8613654".toList ∧
    (fixFilenameForOS GenerateHexMD5 (fun _ => none)
        (fixFilenameForOS GenerateHexMD5 (fun _ => none) "a/b".toList [] []).ret [] []).ret
      = (fixFilenameForOS GenerateHexMD5 (fun _ => none) "a/b".toList [] []).ret :=
  ⟨by decide,
    (legalize_idempotent_of_short GenerateHexMD5 (fun _ => none) (fun _ => none) "a/b".toList
      [] [] [] (GenerateHexMD5_isHex _) (by decide)).1⟩

set_option maxRecDepth 1000000 in
/-- C4, as stated, fails on the POSIX-like target: the distinct raw names `a/b` and
`a_b-a7e8613654`, legalized one after the other in the same directory, both come back as
`a_b-a7e8613654`. -/
theorem distinct_names_collide :
    "a/b".toList ≠ "a_b-a7e8613654".toList ∧
    (fixFilenameForOS GenerateHexMD5 (fun _ => none) "a/b".toList [] []).ret
      = "a_b-a7e8613654".toList ∧
    (fixFilenameForOS GenerateHexMD5
        (fixFilenameForOS GenerateHexMD5 (fun _ => none) "a/b".toList [] []).filepath_corrections
        "a_b-a7e8613654".toList
        (fixFilenameForOS GenerateHexMD5 (fun _ => none) "a/b".toList [] []).samedir_filenames
        []).ret
      = "a_b-a7e8613654".toList := by
  decide

end Posix

/-! ## Decimal suffixes and lower-casing -/

theorem digitChar_toLower : ∀ d < 10, (Nat.digitChar d).toLower = Nat.digitChar d := by decide

theorem digitChar_toNat : ∀ d < 10, (Nat.digitChar d).toNat - 48 = d := by decide

theorem strlower_convert (n : Nat) : strlower (convert n) = convert n := by
  unfold convert strlower
  split
  · decide
  · rw [List.map_map]
    apply List.map_congr_left
    intro d hd
    exact digitChar_toLower d (Nat.digits_lt_base (by decide) (List.mem_reverse.mp hd))

theorem map_digitChar_injective (l1 l2 : List Nat) (h1 : ∀ d ∈ l1, d < 10)
    (h2 : ∀ d ∈ l2, d < 10) (h : l1.map Nat.digitChar = l2.map Nat.digitChar) : l1 = l2 := by
  have key : ∀ l : List Nat, (∀ d ∈ l, d < 10) →
      (l.map Nat.digitChar).map (fun c => c.toNat - 48) = l := by
    intro l hl
    rw [List.map_map]
    conv_rhs => rw [← List.map_id l]
    apply List.map_congr_left
    intro d hd
    exact digitChar_toNat d (hl d hd)
  rw [← key l1 h1, ← key l2 h2, h]

theorem convert_injective (a b : Nat) (h : convert a = convert b) : a = b := by
  have hlt : ∀ n, ∀ d ∈ (Nat.digits 10 n).reverse, d < 10 := fun n d hd =>
    Nat.digits_lt_base (by decide) (List.mem_reverse.mp hd)
  have hzero : ∀ n, n ≠ 0 → convert 0 ≠ convert n := by
    intro n hn h0
    simp only [convert, if_neg hn, if_true] at h0
    have h1 : [0] = (Nat.digits 10 n).reverse := by
      apply map_digitChar_injective _ _ (by simp) (hlt n)
      simpa using h0
    have h2 : Nat.digits 10 n = [0] := by
      have := congrArg List.reverse h1
      simpa using this.symm
    have h3 := Nat.getLast_digit_ne_zero 10 hn
    simp [h2] at h3
  by_cases ha : a = 0
  · by_cases hb : b = 0
    · rw [ha, hb]
    · rw [ha] at h
      exact absurd h (hzero b hb)
  · by_cases hb : b = 0
    · rw [hb] at h
      exact absurd h.symm (hzero a ha)
    · simp only [convert, if_neg ha, if_neg hb] at h
      have h1 := map_digitChar_injective _ _ (hlt a) (hlt b) h
      exact Nat.digits_inj_iff.mp (List.reverse_injective h1)

/-! ## The Windows variant of `fixFilenameForOS` -/

namespace Win32

theorem strlower_candidate_injective (base : Str) (i j : Nat)
    (h : strlower (candidate base i) = strlower (candidate base j)) : i = j := by
  have hlen := congrArg List.length h
  cases i with
  | zero =>
    cases j with
    | zero => rfl
    | succ j =>
      simp [strlower, candidate] at hlen
  | succ i =>
    cases j with
    | zero =>
      simp [strlower, candidate] at hlen
    | succ j =>
      simp only [candidate, strlower, List.map_append, List.append_assoc] at h
      have h1 := List.append_cancel_left h
      simp only [List.map_cons, List.map_nil, List.singleton_append, List.cons.injEq,
        true_and] at h1
      have h2 : strlower (convert i) = strlower (convert j) := h1
      rw [strlower_convert, strlower_convert] at h2
      rw [convert_injective i j h2]

/-- If the bounded loop gives up, every name it tested was in the set. -/
theorem caseLoop_none (S : List Str) (base : Str) :
    ∀ (fuel idx : Nat) (m : Bool),
      caseLoop S base fuel idx (candidate base idx) m = none →
      ∀ j < fuel, strlower (candidate base (idx + j)) ∈ S := by
  intro fuel
  induction fuel with
  | zero => intro idx m _ j hj; omega
  | succ fuel ih =>
    intro idx m h j hj
    rw [caseLoop] at h
    split at h
    · next hin =>
      cases j with
      | zero => exact hin
      | succ j =>
        have := ih (idx + 1) true h j (by omega)
        rw [show idx + (j + 1) = idx + 1 + j by omega]
        exact this
    · cases h

/-- What the loop returns: the first tested name whose lower-cased form is not in the set;
`modified_filename` is set if that is not the very first one. -/
theorem caseLoop_some (S : List Str) (base : Str) :
    ∀ (fuel idx : Nat) (m : Bool) (r : Str × Bool),
      caseLoop S base fuel idx (candidate base idx) m = some r →
      ∃ j, j < fuel ∧ r.1 = candidate base (idx + j) ∧ strlower r.1 ∉ S ∧
        (∀ i < j, strlower (candidate base (idx + i)) ∈ S) ∧
        r.2 = (m || decide (0 < j)) := by
  intro fuel
  induction fuel with
  | zero => intro idx m r h; cases h
  | succ fuel ih =>
    intro idx m r h
    rw [caseLoop] at h
    split at h
    · next hin =>
      obtain ⟨j, hj, h1, h2, h3, h4⟩ := ih (idx + 1) true r h
      refine ⟨j + 1, by omega, ?_, h2, ?_, ?_⟩
      · rw [h1]
        congr 1
        omega
      · intro i hi
        cases i with
        | zero => exact hin
        | succ i =>
          have := h3 i (by omega)
          rw [show idx + (i + 1) = idx + 1 + i by omega]
          exact this
      · rw [h4]
        simp
    · next hin =>
      cases h
      exact ⟨0, by omega, rfl, hin, fun i hi => by omega, by simp⟩

/-- The loop ends: `samedir_filenames.size() + 1` tests of the condition are never used up. -/
theorem caseLoop_terminates (S : List Str) (base : Str) (m : Bool) :
    ∃ r, caseLoop S base (S.length + 1) 0 base m = some r := by
  cases h : caseLoop S base (S.length + 1) 0 base m with
  | some r => exact ⟨r, rfl⟩
  | none =>
    exfalso
    have hall := caseLoop_none S base (S.length + 1) 0 m h
    have hnodup : ((List.range (S.length + 1)).map
        fun j => strlower (candidate base j)).Nodup := by
      apply List.Nodup.map _ (List.nodup_range _)
      intro i j hij
      exact strlower_candidate_injective base i j hij
    have hsub : ((List.range (S.length + 1)).map
        fun j => strlower (candidate base j)) ⊆ S := by
      intro x hx
      obtain ⟨j, hj, rfl⟩ := List.mem_map.mp hx
      have := hall j (List.mem_range.mp hj)
      simpa using this
    have hle := (hnodup.subperm hsub).length_le
    simp at hle

/-- The Windows variant always returns; its result is the first candidate name whose
lower-cased form is not in the set, with the bookkeeping of lines 727-743. -/
theorem fix_spec (hexMD5 : Str → Str) (codec : Utf8Codec) (t : PathCorrections) (fn : Str)
    (S : List Str) (cp : Str) :
    ∃ r j, fixFilenameForOS hexMD5 codec t fn S cp = some r ∧
      r.ret = candidate (beforeCaseLoop hexMD5 codec fn).1 j ∧
      strlower r.ret ∉ S ∧
      (∀ i < j, strlower (candidate (beforeCaseLoop hexMD5 codec fn).1 i) ∈ S) ∧
      r.modified_filename = ((beforeCaseLoop hexMD5 codec fn).2 || decide (0 < j)) ∧
      r.samedir_filenames = S.insert (strlower r.ret) ∧
      r.filepath_corrections = recordCorrection fn cp r.ret r.modified_filename t := by
  obtain ⟨r, hr⟩ := caseLoop_terminates S (beforeCaseLoop hexMD5 codec fn).1
    (beforeCaseLoop hexMD5 codec fn).2
  obtain ⟨j, _, h1, h2, h3, h4⟩ := caseLoop_some S _ _ 0 _ r hr
  simp only [Nat.zero_add] at h1 h3
  refine ⟨⟨r.1, r.2, S.insert (strlower r.1), recordCorrection fn cp r.1 r.2 t⟩, j, ?_,
    h1, h2, h3, h4, rfl, rfl⟩
  simp only [fixFilenameForOS, hr]

theorem replaceDisallowed_of_absent (dc fn : Str) (st : Str × Bool)
    (h : ∀ ch ∈ dc, ch ∉ fn) : replaceDisallowed dc fn st = st := by
  induction dc with
  | nil => rfl
  | cons c r ih =>
    have hc : c ∉ fn := h c (by simp)
    simp only [replaceDisallowed, List.foldl_cons, replaceStep, if_neg hc]
    exact ih (fun ch hch => h ch (by simp [hch]))

/-- A name that needs no fix reaches the `while` loop as it is, with `modified_filename`
unset, whatever its length. -/
theorem beforeCaseLoop_of_needsNoFix (hexMD5 : Str → Str) (codec : Utf8Codec) (fn : Str)
    (h : needsNoFix codec fn = true) : beforeCaseLoop hexMD5 codec fn = (fn, false) := by
  simp only [needsNoFix, Bool.and_eq_true, decide_eq_true_eq, Bool.not_eq_true',
    List.all_eq_true] at h
  obtain ⟨⟨⟨h1, h2⟩, h3⟩, h4⟩ := h
  simp only [beforeCaseLoop, if_neg h1, h2, h3, Bool.false_eq_true, if_false]
  rw [replaceDisallowed_of_absent _ _ _ h4]
  simp [appendHash, MAX_PATH]

theorem appendHash_unmodified (hexMD5 : Str → Str) (fn : Str) (st : Str × Bool)
    (h : st.2 = false) : appendHash hexMD5 fn st = fn := by
  simp [appendHash, h]

/-- If `modified_filename` is unset in front of the loop, the name there is `fn`. -/
theorem beforeCaseLoop_unmodified (hexMD5 : Str → Str) (codec : Utf8Codec) (fn : Str)
    (h : (beforeCaseLoop hexMD5 codec fn).2 = false) :
    (beforeCaseLoop hexMD5 codec fn).1 = fn := by
  unfold beforeCaseLoop at h ⊢
  exact appendHash_unmodified _ _ _ h

/-- A name that needs no fix and whose lower-cased form is not in the set is returned as it
is, unmodified, whatever its length. -/
theorem fix_of_needsNoFix (hexMD5 : Str → Str) (codec : Utf8Codec) (t : PathCorrections)
    (fn : Str) (S : List Str) (cp : Str) (h : needsNoFix codec fn = true)
    (hS : strlower fn ∉ S) :
    fixFilenameForOS hexMD5 codec t fn S cp = some ⟨fn, false, S.insert (strlower fn), t⟩ := by
  simp only [fixFilenameForOS, beforeCaseLoop_of_needsNoFix hexMD5 codec fn h, caseLoop,
    if_neg hS]
  rfl

/-- A name that needs no fix, whose lower-cased form is in the set while that of the name
followed by `_0` is not, is returned with the suffix `_0`. -/
theorem fix_of_collision (hexMD5 : Str → Str) (codec : Utf8Codec) (t : PathCorrections)
    (fn : Str) (S : List Str) (cp : Str) (h : needsNoFix codec fn = true)
    (hS : strlower fn ∈ S) (hS0 : strlower (fn ++ ['_', '0']) ∉ S) :
    fixFilenameForOS hexMD5 codec t fn S cp =
      some ⟨fn ++ ['_', '0'], true, S.insert (strlower (fn ++ ['_', '0'])),
        recordCorrection fn cp (fn ++ ['_', '0']) true t⟩ := by
  have hc : fn ++ ['_'] ++ convert 0 = fn ++ ['_', '0'] := by
    simp [convert]
  have hlen : S.length + 1 = (S.length - 1 + 1) + 1 := by
    have := List.length_pos_of_mem hS
    omega
  simp only [fixFilenameForOS, beforeCaseLoop_of_needsNoFix hexMD5 codec fn h]
  rw [hlen]
  simp only [caseLoop, if_pos hS, hc, if_neg hS0]

end Win32

/-! ## Claims on both variants of `fixFilenameForOS` -/

/-- C4, amended: on the Windows-like target any two names legalized one after the other in
the same directory (set and table carried over) come back different after lower-casing; on
the POSIX-like target two distinct names come back different when neither is modified. -/
theorem fixFilenameForOS_injective (hexMD5 : Str → Str) (codec : Utf8Codec)
    (t : PathCorrections) (fn1 fn2 : Str) (S : List Str) (cp : Str) :
    (∃ r1 r2, Win32.fixFilenameForOS hexMD5 codec t fn1 S cp = some r1 ∧
      Win32.fixFilenameForOS hexMD5 codec r1.filepath_corrections fn2 r1.samedir_filenames cp
        = some r2 ∧
      strlower r1.ret ≠ strlower r2.ret) ∧
    (fn1 ≠ fn2 →
      (Posix.fixFilenameForOS hexMD5 t fn1 S cp).modified_filename = false →
      (Posix.fixFilenameForOS hexMD5 (Posix.fixFilenameForOS hexMD5 t fn1 S cp).filepath_corrections
        fn2 (Posix.fixFilenameForOS hexMD5 t fn1 S cp).samedir_filenames cp).modified_filename
          = false →
      (Posix.fixFilenameForOS hexMD5 t fn1 S cp).ret ≠
        (Posix.fixFilenameForOS hexMD5 (Posix.fixFilenameForOS hexMD5 t fn1 S cp).filepath_corrections
          fn2 (Posix.fixFilenameForOS hexMD5 t fn1 S cp).samedir_filenames cp).ret) := by
  constructor
  · obtain ⟨r1, _, h1, _, _, _, _, hs1, _⟩ := Win32.fix_spec hexMD5 codec t fn1 S cp
    obtain ⟨r2, _, h2, _, hn2, _⟩ :=
      Win32.fix_spec hexMD5 codec r1.filepath_corrections fn2 r1.samedir_filenames cp
    refine ⟨r1, r2, h1, h2, ?_⟩
    intro he
    apply hn2
    rw [← he, hs1]
    simp
  · intro hne hm1 hm2
    rw [Posix.modified_eq] at hm1 hm2
    simp only [Bool.not_eq_false', decide_eq_true_eq] at hm1 hm2
    rw [Posix.ret_eq, Posix.ret_eq, if_pos hm1, if_pos hm2]
    exact hne

/-- C4, amended, at the POSIX names `a` and `b`. -/
theorem fixFilenameForOS_injective_witness :
    (Posix.fixFilenameForOS GenerateHexMD5 (fun _ => none) "a".toList [] []).ret ≠
      (Posix.fixFilenameForOS GenerateHexMD5
        (Posix.fixFilenameForOS GenerateHexMD5 (fun _ => none) "a".toList [] []).filepath_corrections
        "b".toList
        (Posix.fixFilenameForOS GenerateHexMD5 (fun _ => none) "a".toList [] []).samedir_filenames
        []).ret :=
  (fixFilenameForOS_injective GenerateHexMD5 utf8cpp (fun _ => none) "a".toList "b".toList []
    []).2 (by decide) (by decide) (by decide)

set_option maxRecDepth 1000000 in
/-- C8: the code at a failing input. On the Windows-like target the name of
`MAX_PATH-15 = 245` letters `a` (valid UTF-8, not reserved, no disallowed char) is returned
as it is, all 245 bytes, with `modified_filename` unset. -/
theorem long_name_is_not_shortened :
    Win32.needsNoFix utf8cpp (List.replicate 245 'a') = true ∧
    (List.replicate 245 'a').length = MAX_PATH - 15 ∧
    (Win32.fixFilenameForOS GenerateHexMD5 utf8cpp (fun _ => none) (List.replicate 245 'a')
        [] []).map (fun r => (r.ret, r.modified_filename))
      = some (List.replicate 245 'a', false) := by
  decide

/-- C9, as stated, fails: with `a` and `A` legalized one after the other in an empty
directory, the second comes back as `A_0`, not as `A_1`. -/
theorem second_name_gets_suffix_0 :
    (Win32.fixFilenameForOS GenerateHexMD5 utf8cpp (fun _ => none) "a".toList [] []).map
        (fun r => r.ret) = some "a".toList ∧
    ((Win32.fixFilenameForOS GenerateHexMD5 utf8cpp (fun _ => none) "a".toList [] []).bind
        fun r => Win32.fixFilenameForOS GenerateHexMD5 utf8cpp r.filepath_corrections
          "A".toList r.samedir_filenames []).map (fun r => r.ret) = some "A_0".toList ∧
    "A_0".toList ≠ "A".toList ++ "_1".toList := by
  decide

/-- C9, amended: two names that need no other modification and have the same lower-cased
form, legalized one after the other with the same set (which held neither the lower-cased
name nor the lower-cased name followed by `_0`): the first is returned unchanged, the second
is returned as its own name followed by `_0`. In general the call returns (the loop ends),
the lower-cased returned name was not in the set before the call and is in it afterwards. -/
theorem case_collision (hexMD5 : Str → Str) (codec : Utf8Codec) (t : PathCorrections)
    (fn1 fn2 : Str) (S : List Str) (cp : Str)
    (h1 : Win32.needsNoFix codec fn1 = true) (h2 : Win32.needsNoFix codec fn2 = true)
    (hcase : strlower fn1 = strlower fn2)
    (hS : strlower fn1 ∉ S) (hS0 : strlower (fn2 ++ ['_', '0']) ∉ S) :
    (∃ r1 r2, Win32.fixFilenameForOS hexMD5 codec t fn1 S cp = some r1 ∧
      Win32.fixFilenameForOS hexMD5 codec r1.filepath_corrections fn2 r1.samedir_filenames cp
        = some r2 ∧
      r1.ret = fn1 ∧ r1.modified_filename = false ∧
      r2.ret = fn2 ++ ['_', '0'] ∧ r2.modified_filename = true) ∧
    (∀ (t0 : PathCorrections) (fn S0 cp0), ∃ r,
      Win32.fixFilenameForOS hexMD5 codec t0 fn S0 cp0 = some r ∧
      strlower r.ret ∉ S0 ∧ strlower r.ret ∈ r.samedir_filenames) := by
  constructor
  · have e1 := Win32.fix_of_needsNoFix hexMD5 codec t fn1 S cp h1 hS
    have hin : strlower fn2 ∈ S.insert (strlower fn1) := by
      rw [hcase]
      simp
    have hout : strlower (fn2 ++ ['_', '0']) ∉ S.insert (strlower fn1) := by
      intro hm
      rcases List.mem_insert_iff.mp hm with hm | hm
      · have := congrArg List.length hm
        rw [hcase] at this
        simp [strlower] at this
      · exact hS0 hm
    have e2 := Win32.fix_of_collision hexMD5 codec t fn2 (S.insert (strlower fn1)) cp h2 hin hout
    exact ⟨_, _, e1, e2, rfl, rfl, rfl, rfl⟩
  · intro t0 fn S0 cp0
    obtain ⟨r, _, hr, _, hn, _, _, hs, _⟩ := Win32.fix_spec hexMD5 codec t0 fn S0 cp0
    refine ⟨r, hr, hn, ?_⟩
    rw [hs]
    simp

/-- C9, amended, at the names `a` and `A` in an empty directory. -/
theorem case_collision_witness :
    ∃ r1 r2, Win32.fixFilenameForOS GenerateHexMD5 utf8cpp (fun _ => none) "a".toList [] []
        = some r1 ∧
      Win32.fixFilenameForOS GenerateHexMD5 utf8cpp r1.filepath_corrections "A".toList
        r1.samedir_filenames [] = some r2 ∧
      r1.ret = "a".toList ∧ r1.modified_filename = false ∧
      r2.ret = "A".toList ++ ['_', '0'] ∧ r2.modified_filename = true :=
  (case_collision GenerateHexMD5 utf8cpp (fun _ => none) "a".toList "A".toList [] []
    (by decide) (by decide) (by decide) (by decide) (by decide)).1

theorem recordCorrection_frame (fn cp ret : Str) (m : Bool) (t : PathCorrections) :
    (m = false → recordCorrection fn cp ret m t = t) ∧
    (m = true →
      recordCorrection fn cp ret m t (if cp = [] then fn else cp ++ ['/'] ++ fn) = some ret ∧
      ∀ k, k ≠ (if cp = [] then fn else cp ++ ['/'] ++ fn) →
        recordCorrection fn cp ret m t k = t k) := by
  constructor
  · intro h
    simp [recordCorrection, h]
  · intro h
    by_cases hc : cp = []
    · simp only [recordCorrection, h, if_true, hc, List.isEmpty_nil, Function.update_same,
        true_and]
      intro k hk
      exact Function.update_noteq hk _ _
    · have hi : cp.isEmpty = false := by
        cases cp with
        | nil => exact absurd rfl hc
        | cons _ _ => rfl
      simp only [recordCorrection, h, if_true, hi, Bool.false_eq_true, if_false, if_neg hc,
        Function.update_same, true_and]
      intro k hk
      exact Function.update_noteq hk _ _

/-- C10: on both targets `filepath_corrections` is written exactly when `modified_filename`
is set at the end of the call. Then the one key `curr_path/fn` (just `fn` for an empty
`curr_path`) maps to the returned name and every other key keeps its value; otherwise the
returned name is `fn` and the table is the same as before. -/
theorem corrections_bookkeeping (hexMD5 : Str → Str) (codec : Utf8Codec) (t : PathCorrections)
    (fn : Str) (S : List Str) (cp : Str) :
    (((Posix.fixFilenameForOS hexMD5 t fn S cp).modified_filename = false →
        (Posix.fixFilenameForOS hexMD5 t fn S cp).ret = fn ∧
        (Posix.fixFilenameForOS hexMD5 t fn S cp).filepath_corrections = t) ∧
      ((Posix.fixFilenameForOS hexMD5 t fn S cp).modified_filename = true →
        (Posix.fixFilenameForOS hexMD5 t fn S cp).filepath_corrections
            (if cp = [] then fn else cp ++ ['/'] ++ fn)
          = some (Posix.fixFilenameForOS hexMD5 t fn S cp).ret ∧
        ∀ k, k ≠ (if cp = [] then fn else cp ++ ['/'] ++ fn) →
          (Posix.fixFilenameForOS hexMD5 t fn S cp).filepath_corrections k = t k)) ∧
    (∃ r, Win32.fixFilenameForOS hexMD5 codec t fn S cp = some r ∧
      (r.modified_filename = false → r.ret = fn ∧ r.filepath_corrections = t) ∧
      (r.modified_filename = true →
        r.filepath_corrections (if cp = [] then fn else cp ++ ['/'] ++ fn) = some r.ret ∧
        ∀ k, k ≠ (if cp = [] then fn else cp ++ ['/'] ++ fn) →
          r.filepath_corrections k = t k)) := by
  constructor
  · rw [Posix.corrections_eq]
    refine ⟨fun hm => ⟨?_, (recordCorrection_frame _ _ _ _ _).1 hm⟩,
      (recordCorrection_frame _ _ _ _ _).2⟩
    rw [Posix.modified_eq] at hm
    simp only [Bool.not_eq_false', decide_eq_true_eq] at hm
    rw [Posix.ret_eq, if_pos hm]
  · obtain ⟨r, j, hr, hret, _, _, hmod, _, hcor⟩ := Win32.fix_spec hexMD5 codec t fn S cp
    refine ⟨r, hr, ?_, ?_⟩
    · intro hm
      rw [hcor]
      refine ⟨?_, (recordCorrection_frame _ _ _ _ _).1 hm⟩
      rw [hm] at hmod
      have hb : (Win32.beforeCaseLoop hexMD5 codec fn).2 = false := by
        cases hx : (Win32.beforeCaseLoop hexMD5 codec fn).2
        · rfl
        · rw [hx] at hmod
          simp at hmod
      have hj : j = 0 := by
        rw [hb] at hmod
        simp at hmod
        exact hmod
      rw [hret, hj]
      exact Win32.beforeCaseLoop_unmodified hexMD5 codec fn hb
    · rw [hcor]
      exact (recordCorrection_frame _ _ _ _ _).2

set_option maxRecDepth 1000000 in
/-- C10 at the reserved name `NUL` with an empty `curr_path` on the Windows-like target: the
name is legalized to `_NUL-890f5fe658` (the first 10 hex chars of the MD5 of `NUL`), and
the table maps `NUL` to it. -/
theorem corrections_bookkeeping_witness :
    (GenerateHexMD5 "NUL".toList).take 10 = "890f5fe658".toList ∧
    ∃ r, Win32.fixFilenameForOS GenerateHexMD5 utf8cpp (fun _ => none) "NUL".toList [] []
        = some r ∧
      r.ret = "_NUL-890f5fe658".toList ∧ r.modified_filename = true ∧
      r.filepath_corrections "NUL".toList = some "_NUL-890f5fe658".toList := by
  refine ⟨by decide, ?_⟩
  obtain ⟨r, hr, _, h2⟩ :=
    (corrections_bookkeeping GenerateHexMD5 utf8cpp (fun _ => none) "NUL".toList [] []).2
  have hd : (Win32.fixFilenameForOS GenerateHexMD5 utf8cpp (fun _ => none) "NUL".toList
      [] []).map (fun r => (r.ret, r.modified_filename))
        = some ("_NUL-890f5fe658".toList, true) := by
    decide
  rw [hr] at hd
  simp only [Option.map_some', Option.some.injEq, Prod.mk.injEq] at hd
  refine ⟨r, hr, hd.1, hd.2, ?_⟩
  have := (h2 hd.2).1
  rw [hd.1] at this
  exact this

/-! ## `request_filelist_construct` -/

theorem isEmpty_eq_false_iff (s : Str) : (!s.isEmpty) = true ↔ s ≠ [] := by
  cases s <;> simp

/-- C11: for all inputs the command built by lines 120-173 is the concatenation
identity, pver, verb, group part, resume part, sha part, the fixed `&with_...` part and the
token part, each part as the spec describes it; on an obtained connection it is the first
command sent. -/
theorem start_backup_cmd_eq_ref (cfg : FilelistConfig) (full resume : Bool) (group : Int)
    (with_token : Bool) (clientsubname : Str) :
    start_backup_cmd cfg full resume group with_token clientsubname
      = startBackupCmdRef cfg full resume group with_token clientsubname ∧
    ∀ (no_backup_dirs connect_fail : Bool) (cc : Connection) (later : List (Option Connection))
      (o : FilelistOutcome),
      request_filelist_construct cfg full resume group clientsubname with_token no_backup_dirs
        connect_fail (some cc :: later) = some o →
      o.sent.head? = some (start_backup_cmd cfg full resume group with_token clientsubname) := by
  constructor
  · unfold start_backup_cmd startBackupCmdRef
    have hs : (!cfg.session_identity.isEmpty) = true ↔ cfg.session_identity ≠ [] :=
      isEmpty_eq_false_iff _
    have hc : (!clientsubname.isEmpty) = true ↔ clientsubname ≠ [] := isEmpty_eq_false_iff _
    have hr : "&resume=full".toList = "&resume=".toList ++ "full".toList := by decide
    have hi : "&resume=incr".toList = "&resume=".toList ++ "incr".toList := by decide
    rw [hr, hi]
    generalize "START FULL BACKUP".toList = s1
    generalize "START BACKUP".toList = s2
    generalize " group=".toList = s3
    generalize "&clientsubname=".toList = s4
    generalize "&resume=".toList = s5
    generalize "full".toList = s6
    generalize "incr".toList = s7
    generalize "&sha=512".toList = s8
    generalize ("&with_permissions=1&with_scripts=1&with_orig_path=1&with_sequence=1"
      ++ "&with_proper_symlinks=1").toList = s9
    generalize "#token=".toList = s10
    generalize "2".toList = s11
    generalize "3".toList = s12
    generalize cfg.EscapeParamString clientsubname = esc
    generalize convertInt group = g
    have e1 : ∀ (c : Prop) [Decidable c] (x a : Str),
        (if c then x ++ a else x) = x ++ if c then a else [] := by
      intro c _ x a
      split <;> simp
    have e2 : ∀ (c : Prop) [Decidable c] (x a b : Str),
        (if c then x ++ a else x ++ b) = x ++ if c then a else b := by
      intro c _ x a b
      split <;> rfl
    simp only [hs, hc, e1, e2, List.append_assoc]
    congr 1
    by_cases h3 : cfg.file_protocol_version_v2 ≥ 1 <;> by_cases h2 : clientsubname = [] <;>
      cases full <;> cases resume <;>
      simp [h2, h3]
  · intro nbd cf cc later o h
    rw [request_filelist_construct] at h
    split at h <;> simp at h
    all_goals first
      | (rw [← h]; rfl)
      | (obtain ⟨a, _, ha⟩ := h; rw [← ha]; rfl)

/-- The loop goes through a prelude of absent, empty and `BUSY` packets and goes on behind
it with the start time the last `BUSY` packet has set. -/
theorem readLoop_busyPrelude (fpv : Int) (wt : Bool) (T : Int) (l : List LoopPass) :
    ∀ (pre : List LoopPass) (st st' : Int), busyPrelude T st pre = some st' →
      readLoop fpv wt T st (pre ++ l) = readLoop fpv wt T st' l := by
  intro pre
  induction pre with
  | nil =>
    intro st st' h
    simp only [busyPrelude, Option.some.injEq] at h
    rw [h]
    rfl
  | cons p pre ih =>
    intro st st' h
    rw [busyPrelude] at h
    rw [List.cons_append, readLoop]
    by_cases hw : p.now - st ≤ T
    · rw [if_pos hw] at h ⊢
      cases hr : p.read with
      | nothing now isT => rw [hr] at h; cases h
      | data pck size now =>
        rw [hr] at h
        simp only at h ⊢
        cases pck with
        | none =>
          simp only [true_or, if_true] at h
          exact ih st st' h
        | some ret =>
          by_cases hs : size = 0
          · subst hs
            simp only [or_true, if_true] at h
            simp only [gt_iff_lt, lt_self_iff_false, if_false]
            exact ih st st' h
          · have hpos : size > 0 := Nat.pos_of_ne_zero hs
            simp only [hs, or_false, if_false, Option.some.injEq, reduceCtorEq] at h
            by_cases hb : ret = "BUSY".toList
            · subst hb
              simp only [if_true] at h
              have hd : "BUSY".toList ≠ "DONE".toList := by decide
              simp only [if_pos hpos, if_pos hd, if_true]
              exact ih now st' h
            · rw [if_neg hb] at h
              cases h
    · rw [if_neg hw] at h
      cases h

/-- The function sees a connection through the way its loop is left only. -/
theorem request_congr (cfg : FilelistConfig) (full resume : Bool) (group : Int)
    (clientsubname : Str) (wt nbd cf : Bool) (c1 c2 : Connection)
    (later : List (Option Connection))
    (h : readLoop cfg.file_protocol_version wt (timeout_time cfg) c1.starttime c1.passes
      = readLoop cfg.file_protocol_version wt (timeout_time cfg) c2.starttime c2.passes) :
    request_filelist_construct cfg full resume group clientsubname wt nbd cf (some c1 :: later)
      = request_filelist_construct cfg full resume group clientsubname wt nbd cf
          (some c2 :: later) := by
  rw [request_filelist_construct, request_filelist_construct, h]

/-- The recursive call is reached with `file_protocol_version < 2` and `with_token` only. -/
theorem readLoop_retry (fpv : Int) (wt : Bool) (T : Int) :
    ∀ (passes : List LoopPass) (st : Int), readLoop fpv wt T st passes = LoopExit.retry →
      fpv < 2 ∧ wt = true := by
  intro passes
  induction passes with
  | nil => intro st h; cases h
  | cons p rest ih =>
    intro st h
    rw [readLoop] at h
    split at h
    · split at h
      · split at h
        · next hc => exact ⟨hc.1, hc.2.2⟩
        · split at h
          · cases h
          · exact ih st h
      · split at h
        · split at h
          · split at h
            · split at h
              · exact ih _ h
              · split at h <;> cases h
            · cases h
          · exact ih st h
        · exact ih st h
    · cases h

/-- The recursive call is made at a read that returned nothing at most 20000 ms after the
start of the window (the start of the loop or the last `BUSY` packet). -/
theorem readLoop_retry_read (fpv : Int) (wt : Bool) (T : Int) :
    ∀ (passes : List LoopPass) (st : Int), readLoop fpv wt T st passes = LoopExit.retry →
      ∃ p ∈ passes, ∃ now isTimeout st', p.read = ReadResult.nothing now isTimeout ∧
        now - st' ≤ 20000 ∧
        (st' = st ∨ ∃ q ∈ passes, ∃ n, q.read = ReadResult.data (some "BUSY".toList) n st') := by
  intro passes
  induction passes with
  | nil => intro st h; cases h
  | cons p rest ih =>
    intro st h
    have lift : ∀ st2, (st2 = st ∨ ∃ n, p.read = ReadResult.data (some "BUSY".toList) n st2) →
        readLoop fpv wt T st2 rest = LoopExit.retry →
        ∃ p' ∈ p :: rest, ∃ now isTimeout st', p'.read = ReadResult.nothing now isTimeout ∧
          now - st' ≤ 20000 ∧
          (st' = st ∨ ∃ q ∈ p :: rest, ∃ n,
            q.read = ReadResult.data (some "BUSY".toList) n st') := by
      intro st2 hst2 hr
      obtain ⟨p', hp', now, isT, st', h1, h2, h3⟩ := ih st2 hr
      refine ⟨p', List.mem_cons_of_mem _ hp', now, isT, st', h1, h2, ?_⟩
      rcases h3 with h3 | ⟨q, hq, n, hqr⟩
      · rcases hst2 with e | ⟨n, hn⟩
        · exact Or.inl (h3.trans e)
        · exact Or.inr ⟨p, List.mem_cons_self _ _, n, by rw [h3]; exact hn⟩
      · exact Or.inr ⟨q, List.mem_cons_of_mem _ hq, n, hqr⟩
    rw [readLoop] at h
    split at h
    · split at h
      · next now isT hr =>
        split at h
        · next hc =>
          exact ⟨p, List.mem_cons_self _ _, now, isT, st, hr, hc.2.1, Or.inl rfl⟩
        · split at h
          · cases h
          · exact lift st (Or.inl rfl) h
      · next pck size now hr =>
        split at h
        · next ret =>
          split at h
          · split at h
            · split at h
              · next hb =>
                exact lift now (Or.inr ⟨size, by rw [hr, hb]⟩) h
              · split at h <;> cases h
            · cases h
          · exact lift st (Or.inl rfl) h
        · exact lift st (Or.inl rfl) h
    · cases h

/-- Without the token the function does not call itself: one call of
`getClientCommandConnection` is made. -/
theorem request_without_token_connects (cfg : FilelistConfig) (full resume : Bool) (group : Int)
    (clientsubname : Str) (nbd cf : Bool) (conns : List (Option Connection))
    (o : FilelistOutcome)
    (h : request_filelist_construct cfg full resume group clientsubname false nbd cf conns
      = some o) : o.connects = 1 := by
  cases conns with
  | nil => cases h
  | cons x later =>
    cases x with
    | none =>
      simp only [request_filelist_construct, Option.some.injEq] at h
      rw [← h]
    | some cc =>
      rw [request_filelist_construct] at h
      split at h
      case h_6 hx =>
        exact absurd (readLoop_retry _ _ _ _ _ hx).2 (by decide)
      all_goals first
        | (cases h; rfl)
        | cases h

/-- The return value and the two reference parameters after a call whose loop is left in
another way than by the recursive call. -/
theorem request_flags (cfg : FilelistConfig) (full resume : Bool) (group : Int)
    (clientsubname : Str) (wt nbd cf : Bool) (cc : Connection)
    (later : List (Option Connection)) (e : LoopExit)
    (h : readLoop cfg.file_protocol_version wt (timeout_time cfg) cc.starttime cc.passes = e)
    (h1 : e ≠ LoopExit.retry) (h2 : e ≠ LoopExit.running) :
    (request_filelist_construct cfg full resume group clientsubname wt nbd cf
        (some cc :: later)).map (fun o => (o.ret, o.no_backup_dirs, o.connect_fail))
      = some (decide (e = LoopExit.done), decide (e = LoopExit.noBackupDirs) || nbd, cf) := by
  rw [request_filelist_construct, h]
  cases e <;> first
    | exact absurd rfl h1
    | exact absurd rfl h2
    | rfl

/-- The loop at a packet inside the window that is neither absent nor empty nor `BUSY`. -/
theorem readLoop_packet (fpv : Int) (wt : Bool) (T st now now2 : Int) (txt : Str)
    (packetsize : Nat) (post : List LoopPass) (hwin : now - st ≤ T) (hsize : 0 < packetsize)
    (hbusy : txt ≠ "BUSY".toList) :
    readLoop fpv wt T st (⟨now, ReadResult.data (some txt) packetsize now2⟩ :: post) =
      if txt = "DONE".toList then LoopExit.done
      else if txt = "no backup dirs".toList then LoopExit.noBackupDirs
      else LoopExit.refused := by
  rw [readLoop]
  simp only [if_pos hwin, gt_iff_lt, if_pos hsize, if_neg hbusy, ne_eq, ite_not]

/-- C12: on an obtained connection, behind absent, empty and `BUSY` packets received inside
the window, the first other packet decides: `DONE` returns `true`, `no backup dirs` returns
`false` and sets `no_backup_dirs`, any other text returns `false` and leaves `no_backup_dirs`
as it was; `connect_fail` is not touched. A `BUSY` packet makes the loop go on with the
start of the window set to the current time. Without a connection the function returns
`false`, sets `connect_fail` and sends no command; with a connection and no retry it leaves
`connect_fail` as it was. -/
theorem filelist_outcome_by_packet (cfg : FilelistConfig) (full resume : Bool) (group : Int)
    (clientsubname : Str) (with_token no_backup_dirs connect_fail : Bool)
    (starttime st now now2 : Int) (pre post : List LoopPass) (txt : Str) (packetsize : Nat)
    (later : List (Option Connection))
    (hpre : busyPrelude (timeout_time cfg) starttime pre = some st)
    (hwin : now - st ≤ timeout_time cfg) (hsize : 0 < packetsize)
    (hbusy : txt ≠ "BUSY".toList) :
    (request_filelist_construct cfg full resume group clientsubname with_token no_backup_dirs
        connect_fail
        (some ⟨starttime, pre ++ ⟨now, ReadResult.data (some txt) packetsize now2⟩ :: post⟩
          :: later)).map (fun o => (o.ret, o.no_backup_dirs, o.connect_fail))
      = some (decide (txt = "DONE".toList),
          decide (txt = "no backup dirs".toList) || no_backup_dirs, connect_fail) ∧
    (∀ rest : List LoopPass,
      readLoop cfg.file_protocol_version with_token (timeout_time cfg) st
          (⟨now, ReadResult.data (some "BUSY".toList) packetsize now2⟩ :: rest)
        = readLoop cfg.file_protocol_version with_token (timeout_time cfg) now2 rest) ∧
    request_filelist_construct cfg full resume group clientsubname with_token no_backup_dirs
        connect_fail (none :: later)
      = some
          { ret := false, no_backup_dirs := no_backup_dirs, connect_fail := true, sent := [],
            client_messages := enableVerificationMessage cfg, connects := 1 } ∧
    (∀ (cc : Connection) (o : FilelistOutcome),
      request_filelist_construct cfg full resume group clientsubname with_token no_backup_dirs
        connect_fail (some cc :: later) = some o →
      readLoop cfg.file_protocol_version with_token (timeout_time cfg) cc.starttime cc.passes
        ≠ LoopExit.retry →
      o.connect_fail = connect_fail) := by
  refine ⟨?_, ?_, rfl, ?_⟩
  · have hl := readLoop_busyPrelude cfg.file_protocol_version with_token (timeout_time cfg)
      (⟨now, ReadResult.data (some txt) packetsize now2⟩ :: post) pre starttime st hpre
    rw [readLoop_packet _ _ _ _ _ _ _ _ _ hwin hsize hbusy] at hl
    by_cases hd : txt = "DONE".toList
    · have hn : txt ≠ "no backup dirs".toList := by rw [hd]; decide
      rw [if_pos hd] at hl
      rw [request_flags cfg full resume group clientsubname with_token no_backup_dirs
        connect_fail _ later _ hl (by decide) (by decide), decide_eq_true hd,
        decide_eq_false hn]
      rfl
    · rw [if_neg hd] at hl
      by_cases hn : txt = "no backup dirs".toList
      · rw [if_pos hn] at hl
        rw [request_flags cfg full resume group clientsubname with_token no_backup_dirs
          connect_fail _ later _ hl (by decide) (by decide), decide_eq_false hd,
          decide_eq_true hn]
        rfl
      · rw [if_neg hn] at hl
        rw [request_flags cfg full resume group clientsubname with_token no_backup_dirs
          connect_fail _ later _ hl (by decide) (by decide), decide_eq_false hd,
          decide_eq_false hn]
        rfl
  · intro rest
    rw [readLoop]
    have hd : "BUSY".toList ≠ "DONE".toList := by decide
    simp only [if_pos hwin, gt_iff_lt, if_pos hsize, if_pos hd, if_true]
  · intro cc o h hne
    rw [request_filelist_construct] at h
    split at h
    case h_6 hx => exact absurd hx hne
    all_goals first
      | (cases h; rfl)
      | cases h

set_option maxRecDepth 100000 in
/-- C12 at a connection on which `BUSY`, an empty packet and `no backup dirs` arrive. -/
theorem filelist_outcome_by_packet_witness :
    (request_filelist_construct
        ⟨false, 2, 1, 1, [], "id".toList, "tok".toList, fun s => s⟩ true false 0 [] true
        false false
        [some ⟨0, [⟨1000, ReadResult.data (some "BUSY".toList) 4 1500⟩,
            ⟨2000, ReadResult.data (some []) 0 2000⟩,
            ⟨121000, ReadResult.data (some "no backup dirs".toList) 14 121000⟩]⟩]).map
        (fun o => (o.ret, o.no_backup_dirs, o.connect_fail))
      = some (false, true, false) :=
  (filelist_outcome_by_packet ⟨false, 2, 1, 1, [], "id".toList, "tok".toList, fun s => s⟩
    true false 0 [] true false false 0 1500 121000 121000
    [⟨1000, ReadResult.data (some "BUSY".toList) 4 1500⟩,
      ⟨2000, ReadResult.data (some []) 0 2000⟩] [] "no backup dirs".toList 14 []
    (by decide) (by decide) (by decide) (by decide)).1

theorem readLoop_nothing (fpv : Int) (wt : Bool) (T st now now2 : Int) (isTimeout : Bool)
    (post : List LoopPass) (hwin : now - st ≤ T) :
    readLoop fpv wt T st (⟨now, ReadResult.nothing now2 isTimeout⟩ :: post) =
      if fpv < 2 ∧ now2 - st ≤ 20000 ∧ wt = true then LoopExit.retry
      else if fpv ≥ 2 ∨ isTimeout = true then LoopExit.readTimeout
      else readLoop fpv wt T st post := by
  rw [readLoop]
  simp only [if_pos hwin]

theorem readLoop_window (fpv : Int) (wt : Bool) (T st : Int) (p : LoopPass)
    (post : List LoopPass) (hwin : T < p.now - st) :
    readLoop fpv wt T st (p :: post) = LoopExit.windowExceeded := by
  rw [readLoop, if_neg (by omega)]

set_option maxRecDepth 100000 in
/-- C19, as stated, fails: with a legacy client (`file_protocol_version` 1) and no token, a
read that returns nothing while the ping thread has no timeout does not abort; the `DONE`
packet that follows makes the function return `true`. -/
theorem legacy_read_timeout_does_not_abort :
    (request_filelist_construct
        ⟨false, 1, 0, 0, [], "id".toList, "tok".toList, fun s => s⟩ true false 0 [] false
        false false
        [some ⟨0, [⟨0, ReadResult.nothing 60000 false⟩,
            ⟨60000, ReadResult.data (some "DONE".toList) 4 60000⟩]⟩]).map
        (fun o => o.ret) = some true := by
  decide

/-- C19, amended: behind absent, empty and `BUSY` packets, a read inside the window that
returns nothing makes the function return `false` with both flags untouched when
`file_protocol_version >= 2`, and for a legacy client when the retry does not apply and the
ping thread has a timeout; for a legacy client without ping timeout (and without retry) the
loop goes on as if the read had not happened. A pass that starts after the window (120000 ms
for `file_protocol_version >= 2`, 14400000 ms else, counted from the start or the last
`BUSY`) makes the function return `false` with both flags untouched, for every version. -/
theorem read_timeout_and_window (cfg : FilelistConfig) (full resume : Bool) (group : Int)
    (clientsubname : Str) (with_token no_backup_dirs connect_fail : Bool)
    (starttime st now now2 : Int) (isTimeout : Bool) (pre post : List LoopPass)
    (later : List (Option Connection))
    (hpre : busyPrelude (timeout_time cfg) starttime pre = some st) :
    (now - st ≤ timeout_time cfg →
      (cfg.file_protocol_version ≥ 2 ∨
        (¬ (now2 - st ≤ 20000 ∧ with_token = true) ∧ isTimeout = true)) →
      (request_filelist_construct cfg full resume group clientsubname with_token no_backup_dirs
          connect_fail
          (some ⟨starttime, pre ++ ⟨now, ReadResult.nothing now2 isTimeout⟩ :: post⟩
            :: later)).map (fun o => (o.ret, o.no_backup_dirs, o.connect_fail))
        = some (false, no_backup_dirs, connect_fail)) ∧
    (now - st ≤ timeout_time cfg → cfg.file_protocol_version < 2 →
      ¬ (now2 - st ≤ 20000 ∧ with_token = true) → isTimeout = false →
      request_filelist_construct cfg full resume group clientsubname with_token no_backup_dirs
          connect_fail
          (some ⟨starttime, pre ++ ⟨now, ReadResult.nothing now2 isTimeout⟩ :: post⟩ :: later)
        = request_filelist_construct cfg full resume group clientsubname with_token
            no_backup_dirs connect_fail (some ⟨starttime, pre ++ post⟩ :: later)) ∧
    (∀ r : ReadResult, timeout_time cfg < now - st →
      (request_filelist_construct cfg full resume group clientsubname with_token no_backup_dirs
          connect_fail (some ⟨starttime, pre ++ ⟨now, r⟩ :: post⟩ :: later)).map
          (fun o => (o.ret, o.no_backup_dirs, o.connect_fail))
        = some (false, no_backup_dirs, connect_fail)) ∧
    timeout_time cfg = (if cfg.file_protocol_version ≥ 2 then 120000 else 14400000) := by
  refine ⟨?_, ?_, ?_, rfl⟩
  · intro hwin hcase
    have hl := readLoop_busyPrelude cfg.file_protocol_version with_token (timeout_time cfg)
      (⟨now, ReadResult.nothing now2 isTimeout⟩ :: post) pre starttime st hpre
    rw [readLoop_nothing _ _ _ _ _ _ _ _ hwin] at hl
    have hne : ¬ (cfg.file_protocol_version < 2 ∧ now2 - st ≤ 20000 ∧ with_token = true) := by
      rintro ⟨h1, h2, h3⟩
      rcases hcase with h | h
      · omega
      · exact h.1 ⟨h2, h3⟩
    have hab : cfg.file_protocol_version ≥ 2 ∨ isTimeout = true := by
      rcases hcase with h | h
      · exact Or.inl h
      · exact Or.inr h.2
    rw [if_neg hne, if_pos hab] at hl
    rw [request_flags cfg full resume group clientsubname with_token no_backup_dirs
      connect_fail _ later _ hl (by decide) (by decide)]
    rfl
  · intro hwin hleg hnr hnt
    apply request_congr
    show readLoop _ _ _ starttime (pre ++ _ :: post) = readLoop _ _ _ starttime (pre ++ post)
    rw [readLoop_busyPrelude _ _ _ _ pre starttime st hpre,
      readLoop_busyPrelude _ _ _ _ pre starttime st hpre,
      readLoop_nothing _ _ _ _ _ _ _ _ hwin]
    have hne : ¬ (cfg.file_protocol_version < 2 ∧ now2 - st ≤ 20000 ∧ with_token = true) :=
      fun h => hnr h.2
    have hab : ¬ (cfg.file_protocol_version ≥ 2 ∨ isTimeout = true) := by
      rintro (h | h)
      · omega
      · rw [hnt] at h
        cases h
    rw [if_neg hne, if_neg hab]
  · intro r hwin
    have hl := readLoop_busyPrelude cfg.file_protocol_version with_token (timeout_time cfg)
      (⟨now, r⟩ :: post) pre starttime st hpre
    rw [readLoop_window _ _ _ _ _ _ hwin] at hl
    rw [request_flags cfg full resume group clientsubname with_token no_backup_dirs
      connect_fail _ later _ hl (by decide) (by decide)]
    rfl

set_option maxRecDepth 100000 in
/-- C19, amended, at a current client whose read returns nothing after a `BUSY` packet. -/
theorem read_timeout_and_window_witness :
    (request_filelist_construct
        ⟨false, 2, 1, 1, [], "id".toList, "tok".toList, fun s => s⟩ true false 0 [] true
        false false
        [some ⟨0, [⟨1000, ReadResult.data (some "BUSY".toList) 4 1500⟩,
            ⟨61500, ReadResult.nothing 61500 false⟩]⟩]).map
        (fun o => (o.ret, o.no_backup_dirs, o.connect_fail))
      = some (false, false, false) :=
  (read_timeout_and_window ⟨false, 2, 1, 1, [], "id".toList, "tok".toList, fun s => s⟩
    true false 0 [] true false false 0 1500 61500 61500 false
    [⟨1000, ReadResult.data (some "BUSY".toList) 4 1500⟩] [] [] (by decide)).1
    (by decide) (Or.inl (by decide))

/-- A call makes two calls of `getClientCommandConnection` at most. -/
theorem request_connects_le (cfg : FilelistConfig) (full resume : Bool) (group : Int)
    (clientsubname : Str) (wt nbd cf : Bool) (conns : List (Option Connection))
    (o : FilelistOutcome)
    (h : request_filelist_construct cfg full resume group clientsubname wt nbd cf conns
      = some o) : o.connects ≤ 2 := by
  cases conns with
  | nil => cases h
  | cons x later =>
    cases x with
    | none =>
      simp only [request_filelist_construct, Option.some.injEq] at h
      rw [← h]
      exact Nat.le_succ 1
    | some cc =>
      rw [request_filelist_construct] at h
      split at h
      case h_6 hx =>
        simp only [Option.map_eq_some'] at h
        obtain ⟨o2, ho2, he⟩ := h
        have := request_without_token_connects cfg full resume group clientsubname nbd cf
          later o2 ho2
        rw [← he]
        show o2.connects + 1 ≤ 2
        omega
      all_goals first
        | (cases h; exact Nat.le_succ 1)
        | cases h

/-- The function returns as soon as the loops of its (at most two) connections are left. -/
theorem request_isSome (cfg : FilelistConfig) (full resume : Bool) (group : Int)
    (clientsubname : Str) (wt nbd cf : Bool) (x1 x2 : Option Connection)
    (more : List (Option Connection)) (h1 : loopEnds cfg wt x1 = true)
    (h2 : loopEnds cfg false x2 = true) :
    (request_filelist_construct cfg full resume group clientsubname wt nbd cf
      (x1 :: x2 :: more)).isSome = true := by
  have second : (request_filelist_construct cfg full resume group clientsubname false nbd cf
      (x2 :: more)).isSome = true := by
    cases x2 with
    | none => rfl
    | some c2 =>
      simp only [loopEnds, decide_eq_true_eq] at h2
      rw [request_filelist_construct]
      split
      case h_6 hx => exact absurd (readLoop_retry _ _ _ _ _ hx).2 (by decide)
      case h_7 hx => exact absurd hx h2
      all_goals rfl
  cases x1 with
  | none => rfl
  | some c1 =>
    simp only [loopEnds, decide_eq_true_eq] at h1
    rw [request_filelist_construct]
    split
    case h_6 hx =>
      rw [Option.isSome_map']
      exact second
    case h_7 hx => exact absurd hx h1
    all_goals rfl

/-- C20: the function calls itself only from a loop with `file_protocol_version < 2` and
`with_token` set, at a read that returned nothing at most 20000 ms after the start of the
window; the call made then is the same call with `with_token = false` on the next
connection; a call with `with_token = false` makes one connection attempt and never calls
itself, so at most two attempts are made in all; the function returns as soon as the loops
on its first two connections are left; and the command with the token is the command
without it followed by `#token=` and the server token. -/
theorem legacy_retry_once (cfg : FilelistConfig) (full resume : Bool) (group : Int)
    (clientsubname : Str) (with_token no_backup_dirs connect_fail : Bool) :
    (∀ cc : Connection,
      readLoop cfg.file_protocol_version with_token (timeout_time cfg) cc.starttime cc.passes
        = LoopExit.retry →
      cfg.file_protocol_version < 2 ∧ with_token = true ∧
      ∃ p ∈ cc.passes, ∃ now isTimeout st, p.read = ReadResult.nothing now isTimeout ∧
        now - st ≤ 20000 ∧
        (st = cc.starttime ∨
          ∃ q ∈ cc.passes, ∃ n, q.read = ReadResult.data (some "BUSY".toList) n st)) ∧
    (∀ (cc : Connection) (later : List (Option Connection)),
      readLoop cfg.file_protocol_version with_token (timeout_time cfg) cc.starttime cc.passes
        = LoopExit.retry →
      request_filelist_construct cfg full resume group clientsubname with_token no_backup_dirs
          connect_fail (some cc :: later)
        = (request_filelist_construct cfg full resume group clientsubname false no_backup_dirs
            connect_fail later).map fun o =>
            { o with
              sent := start_backup_cmd cfg full resume group with_token clientsubname :: o.sent
              client_messages := enableVerificationMessage cfg ++ o.client_messages
              connects := o.connects + 1 }) ∧
    (∀ (conns : List (Option Connection)) (o : FilelistOutcome),
      request_filelist_construct cfg full resume group clientsubname false no_backup_dirs
        connect_fail conns = some o → o.connects = 1) ∧
    (∀ (conns : List (Option Connection)) (o : FilelistOutcome),
      request_filelist_construct cfg full resume group clientsubname with_token no_backup_dirs
        connect_fail conns = some o → o.connects ≤ 2) ∧
    (∀ (x1 x2 : Option Connection) (more : List (Option Connection)),
      loopEnds cfg with_token x1 = true → loopEnds cfg false x2 = true →
      (request_filelist_construct cfg full resume group clientsubname with_token no_backup_dirs
        connect_fail (x1 :: x2 :: more)).isSome = true) ∧
    start_backup_cmd cfg full resume group true clientsubname
      = start_backup_cmd cfg full resume group false clientsubname
          ++ ("#token=".toList ++ cfg.server_token) := by
  refine ⟨?_, ?_, ?_, ?_, ?_, ?_⟩
  · intro cc h
    exact ⟨(readLoop_retry _ _ _ _ _ h).1, (readLoop_retry _ _ _ _ _ h).2,
      readLoop_retry_read _ _ _ _ _ h⟩
  · intro cc later h
    rw [request_filelist_construct, h]
  · intro conns o h
    exact request_without_token_connects cfg full resume group clientsubname no_backup_dirs
      connect_fail conns o h
  · intro conns o h
    exact request_connects_le cfg full resume group clientsubname with_token no_backup_dirs
      connect_fail conns o h
  · intro x1 x2 more h1 h2
    exact request_isSome cfg full resume group clientsubname with_token no_backup_dirs
      connect_fail x1 x2 more h1 h2
  · rfl

set_option maxRecDepth 100000 in
/-- C20 at a legacy client that does not answer the command with the token for 10 s and
answers `DONE` to the command without it: two connections, two commands, the second one
without `#token=tok`. -/
theorem legacy_retry_once_witness :
    request_filelist_construct
        ⟨false, 1, 0, 0, [], "id".toList, "tok".toList, fun s => s⟩ true false 0 [] true
        false false
        [some ⟨0, [⟨0, ReadResult.nothing 10000 false⟩]⟩,
          some ⟨10000, [⟨10000, ReadResult.data (some "DONE".toList) 4 10000⟩]⟩]
      = some
          { ret := true, no_backup_dirs := false, connect_fail := false,
            sent :=
              [("idSTART FULL BACKUP&with_permissions=1&with_scripts=1&with_orig_path=1"
                  ++ "&with_sequence=1&with_proper_symlinks=1#token=tok").toList,
                ("idSTART FULL BACKUP&with_permissions=1&with_scripts=1&with_orig_path=1"
                  ++ "&with_sequence=1&with_proper_symlinks=1").toList],
            client_messages := ["GET VSSLOG".toList], connects := 2 } :=
  ((legacy_retry_once ⟨false, 1, 0, 0, [], "id".toList, "tok".toList, fun s => s⟩ true false
      0 [] true false false).2.1 ⟨0, [⟨0, ReadResult.nothing 10000 false⟩]⟩
      [some ⟨10000, [⟨10000, ReadResult.data (some "DONE".toList) 4 10000⟩]⟩]
      (by decide)).trans (by decide)

/-! ## `constructBackupPath` -/

/-- C16, as stated, fails: with snapshots enabled and no fresh tree to build (`on_snapshot`
set, `create_fs` unset) the function returns `true` and creates neither the backup root nor
the hashes root. -/
theorem constructBackupPath_creates_nothing :
    (constructBackupPath
        ⟨"/b".toList, "c".toList, "/".toList, fun p => p, "260101-1200".toList, true, true,
          fun _ => true⟩ ⟨[], [], [], []⟩ true true false).1 = true ∧
    (constructBackupPath
        ⟨"/b".toList, "c".toList, "/".toList, fun p => p, "260101-1200".toList, true, true,
          fun _ => true⟩ ⟨[], [], [], []⟩ true true false).2.2
      = [PathAction.createDirectoryForClient] := by
  decide

/-- C16, amended: once `createDirectoryForClient` has succeeded, `backuppath` is
`backupfolder/clientname/<single>` and `backuppath_hashes` is `backuppath/.hashes`. The
snapshot helper is asked for an empty filesystem exactly when `on_snapshot` and `create_fs`
are set, and then the hashes root is created if that succeeded; with `on_snapshot` set and
`create_fs` unset no directory is created and `true` is returned; with `on_snapshot` unset
the backup root is created and, if that succeeded, the hashes root. The function returns
`true` only if every call it made succeeded. -/
theorem constructBackupPath_spec (env : PathEnv) (old : BackupPaths)
    (with_hashes on_snapshot create_fs : Bool) :
    (env.createDirectoryForClient = true →
      (constructBackupPath env old with_hashes on_snapshot create_fs).2.1.backuppath
        = env.backupfolder ++ env.os_file_sep ++ env.clientname ++ env.os_file_sep
            ++ (constructBackupPath env old with_hashes on_snapshot
              create_fs).2.1.backuppath_single ∧
      (constructBackupPath env old with_hashes on_snapshot create_fs).2.1.backuppath_hashes
        = (constructBackupPath env old with_hashes on_snapshot create_fs).2.1.backuppath
            ++ env.os_file_sep ++ ".hashes".toList ∧
      ((constructBackupPath env old with_hashes on_snapshot create_fs).2.2.any
          PathAction.isCreateEmptyFilesystem = true ↔
        (on_snapshot = true ∧ create_fs = true)) ∧
      (on_snapshot = true → create_fs = true →
        (constructBackupPath env old with_hashes on_snapshot create_fs).2.2.filter
            PathAction.isCreateDir
          = if env.createEmptyFilesystem then
              [PathAction.os_create_dir (env.os_file_prefix
                (constructBackupPath env old with_hashes on_snapshot
                  create_fs).2.1.backuppath_hashes)]
            else []) ∧
      (on_snapshot = true → create_fs = false →
        (constructBackupPath env old with_hashes on_snapshot create_fs).1 = true ∧
        (constructBackupPath env old with_hashes on_snapshot create_fs).2.2.filter
            PathAction.isCreateDir = []) ∧
      (on_snapshot = false →
        (constructBackupPath env old with_hashes on_snapshot create_fs).2.2.filter
            PathAction.isCreateDir
          = if env.os_create_dir (env.os_file_prefix
                (constructBackupPath env old with_hashes on_snapshot
                  create_fs).2.1.backuppath) then
              [PathAction.os_create_dir (env.os_file_prefix
                  (constructBackupPath env old with_hashes on_snapshot
                    create_fs).2.1.backuppath),
                PathAction.os_create_dir (env.os_file_prefix
                  (constructBackupPath env old with_hashes on_snapshot
                    create_fs).2.1.backuppath_hashes)]
            else
              [PathAction.os_create_dir (env.os_file_prefix
                  (constructBackupPath env old with_hashes on_snapshot
                    create_fs).2.1.backuppath)])) ∧
    ((constructBackupPath env old with_hashes on_snapshot create_fs).1 = true →
      ∀ a ∈ (constructBackupPath env old with_hashes on_snapshot create_fs).2.2,
        a.succeeded env = true) := by
  constructor
  · intro hc
    cases on_snapshot <;> cases create_fs <;>
      cases h1 : env.createEmptyFilesystem <;>
      cases h2 : env.os_create_dir (env.os_file_prefix
        (env.backupfolder ++ env.os_file_sep ++ env.clientname ++ env.os_file_sep
          ++ env.strftime)) <;>
      simp only [List.append_assoc] at h2 <;>
      simp [constructBackupPath, hc, h1, h2, PathAction.isCreateEmptyFilesystem,
        PathAction.isCreateDir]
  · intro hr a ha
    cases hc : env.createDirectoryForClient <;> cases on_snapshot <;> cases create_fs <;>
      cases h1 : env.createEmptyFilesystem <;>
      cases h2 : env.os_create_dir (env.os_file_prefix
        (env.backupfolder ++ env.os_file_sep ++ env.clientname ++ env.os_file_sep
          ++ env.strftime)) <;>
      simp only [List.append_assoc] at h2 <;>
      simp [constructBackupPath, hc, h1, h2] at hr ha <;>
      (try rcases ha with ha | ha | ha) <;> (try rcases ha with ha | ha) <;>
      simp_all [PathAction.succeeded]

/-- C16, amended, at a storage without snapshots on which both directories can be made. -/
theorem constructBackupPath_spec_witness :
    (constructBackupPath
        ⟨"/b".toList, "c".toList, "/".toList, fun p => p, "260101-1200".toList, true, true,
          fun _ => true⟩ ⟨[], [], [], []⟩ true false true).2.2.filter PathAction.isCreateDir
      = [PathAction.os_create_dir "/b/c/260101-1200".toList,
          PathAction.os_create_dir "/b/c/260101-1200/.hashes".toList] :=
  ((constructBackupPath_spec
      ⟨"/b".toList, "c".toList, "/".toList, fun p => p, "260101-1200".toList, true, true,
        fun _ => true⟩ ⟨[], [], [], []⟩ true false true).1 rfl).2.2.2.2.2 rfl

/-! ## `calculateEtaFileBackup` -/

theorem eta_estimate_eq (s : EtaState) (ctime now1 now2 fc_received : Int)
    (chunked_received : Option Int) (linked_bytes files_size : Int) :
    (calculateEtaFileBackup s ctime now1 now2 fc_received chunked_received linked_bytes
        files_size).1.eta_estimated_speed
      = if s.eta_estimated_speed = 0 then
          tickSpeed s now1 fc_received chunked_received linked_bytes
        else s.eta_estimated_speed := by
  simp only [calculateEtaFileBackup, tickSpeed]
  split
  · rfl
  · ring

/-- C17: the code at a failing input. With a stored estimate of 1 byte/ms and a tick that
measures 2000 bytes in 1000 ms, i.e. a speed of 2, the new estimate is 1 again, not
`0.9 * 1 + 0.1 * 2 = 1.1`; and so it stays: after three such ticks the estimate is still 1,
farther from the true speed 2 than `0.9^3 * |1 - 2|`. -/
theorem eta_estimate_is_not_smoothed :
    (calculateEtaFileBackup ⟨0, 0, 1000, 1⟩ 1000 1000 1000 3000 none 0 100000).1.eta_estimated_speed
      = 1 ∧
    tickSpeed ⟨0, 0, 1000, 1⟩ 1000 3000 none 0 = 2 ∧
    (9 / 10 : ℚ) * 1 + (1 / 10) * 2 ≠ 1 ∧
    (calculateEtaFileBackup
      (calculateEtaFileBackup
        (calculateEtaFileBackup ⟨0, 0, 1000, 1⟩ 1000 1000 1000 3000 none 0 100000).1
        2000 2000 2000 5000 none 0 100000).1
      3000 3000 3000 7000 none 0 100000).1.eta_estimated_speed = 1 ∧
    ¬ (|(1 : ℚ) - 2| ≤ (9 / 10) ^ 3 * |(1 : ℚ) - 2|) := by
  refine ⟨?_, ?_, ?_, ?_, ?_⟩
  · rw [eta_estimate_eq]
    norm_num
  · norm_num [tickSpeed]
  · norm_num
  · rw [eta_estimate_eq, if_neg, eta_estimate_eq, if_neg, eta_estimate_eq, if_neg]
    · norm_num
    · rw [eta_estimate_eq]
      norm_num
    · rw [eta_estimate_eq, if_neg, eta_estimate_eq, if_neg]
      · norm_num
      · norm_num
      · rw [eta_estimate_eq]
        norm_num
  · norm_num [abs_of_neg]

/-! ## `logVssLogdata` -/

theorem indexOfChar_append (c : Char) (a b : Str) (ha : c ∉ a) :
    indexOfChar c (a ++ c :: b) = some a.length := by
  induction a with
  | nil => simp [indexOfChar]
  | cons x r ih =>
    have hx : x ≠ c := fun e => ha (by simp [e])
    have hr : c ∉ r := fun e => ha (by simp [e])
    simp [indexOfChar, hx, ih hr]

theorem indexOfChar_none (c : Char) (a : Str) (ha : c ∉ a) : indexOfChar c a = none := by
  induction a with
  | nil => rfl
  | cons x r ih =>
    have hx : x ≠ c := fun e => ha (by simp [e])
    have hr : c ∉ r := fun e => ha (by simp [e])
    simp [indexOfChar, hx, ih hr]

theorem splitDash_none (s : Str) (h : splitDash s = none) : '-' ∉ s := by
  unfold splitDash at h
  split at h
  · cases h
  · assumption

theorem splitDash_some (s a b : Str) (h : splitDash s = some (a, b)) :
    s = a ++ '-' :: b ∧ '-' ∉ a := by
  unfold splitDash at h
  split at h
  · next hm =>
    simp only [Option.some.injEq, Prod.mk.injEq] at h
    obtain ⟨h1, h2⟩ := h
    have key : ∀ l : Str, '-' ∈ l →
        l = l.takeWhile (fun c => c != '-') ++ '-' :: (l.dropWhile (fun c => c != '-')).drop 1 ∧
        '-' ∉ l.takeWhile (fun c => c != '-') := by
      intro l
      induction l with
      | nil => intro hl; cases hl
      | cons x r ih =>
        intro hl
        by_cases hx : x = '-'
        · subst hx
          simp [List.takeWhile, List.dropWhile]
        · have hr : '-' ∈ r := by
            rcases List.mem_cons.mp hl with e | e
            · exact absurd e.symm hx
            · exact e
          obtain ⟨i1, i2⟩ := ih hr
          have hb : (x != '-') = true := by simp [hx]
          simp only [List.takeWhile, List.dropWhile, hb, List.cons_append, List.mem_cons,
            not_or]
          exact ⟨by rw [← i1], fun e => hx e.symm, i2⟩
    obtain ⟨k1, k2⟩ := key s hm
    rw [h1, h2] at k1
    rw [h1] at k2
    exact ⟨k1, k2⟩
  · cases h

theorem digitsValue_append_dash (t r : Str) (ht : '-' ∉ t) :
    ∀ acc, digitsValue acc (t ++ '-' :: r) = digitsValue acc t := by
  induction t with
  | nil => intro acc; simp [digitsValue]
  | cons x u ih =>
    intro acc
    have hu : '-' ∉ u := fun e => ht (by simp [e])
    simp only [List.cons_append, digitsValue]
    split
    · exact ih hu _
    · rfl

theorem atoiSigned_of_no_sign (x : Char) (l : Str) (h1 : x ≠ '-') (h2 : x ≠ '+') :
    atoiSigned (x :: l) = (digitsValue 0 (x :: l) : Int) := by
  unfold atoiSigned
  split
  · next h => exact absurd (List.cons.inj h).1 h1
  · next h => exact absurd (List.cons.inj h).1 h2
  · rfl

/-- The number read by `atoi` does not change when a `-` is put behind a text without
`-`. -/
theorem atoi_append_dash (t : Str) (ht : '-' ∉ t) : atoi (t ++ ['-']) = atoi t := by
  have hsp : isSpaceC '-' = false := by decide
  have key : ∀ t : Str, '-' ∉ t →
      (t.dropWhile isSpaceC = [] ∧ (t ++ ['-']).dropWhile isSpaceC = ['-']) ∨
      (∃ x u, t.dropWhile isSpaceC = x :: u ∧ '-' ∉ x :: u ∧
        (t ++ ['-']).dropWhile isSpaceC = x :: (u ++ ['-'])) := by
    intro t
    induction t with
    | nil => intro _; left; simp [List.dropWhile, hsp]
    | cons x u ih =>
      intro hx
      have hu : '-' ∉ u := fun e => hx (by simp [e])
      by_cases hs : isSpaceC x = true
      · simp only [List.cons_append, List.dropWhile, hs]
        exact ih hu
      · right
        simp only [Bool.not_eq_true] at hs
        exact ⟨x, u, by simp [List.dropWhile, hs], hx, by simp [List.dropWhile, hs]⟩
  rcases key t ht with ⟨h1, h2⟩ | ⟨x, u, h1, h2, h3⟩
  · simp only [atoi, h1, h2]
    rfl
  · have hxd : x ≠ '-' := fun e => h2 (by simp [e])
    have hu : '-' ∉ u := fun e => h2 (by simp [e])
    simp only [atoi, h1, h3]
    by_cases hp : x = '+'
    · subst hp
      show (digitsValue 0 (u ++ ['-']) : Int) = (digitsValue 0 u : Int)
      rw [digitsValue_append_dash u [] hu]
    · rw [atoiSigned_of_no_sign x _ hxd hp, atoiSigned_of_no_sign x _ hxd hp]
      have := digitsValue_append_dash (x :: u) [] h2 0
      simp only [List.cons_append] at this
      rw [this]

theorem find_first (a b : Str) (ha : '-' ∉ a) : find (a ++ '-' :: b) '-' 0 = some a.length := by
  simp [find, indexOfChar_append '-' a b ha]

theorem find_absent (s : Str) (h : '-' ∉ s) : find s '-' 0 = none := by
  simp [find, indexOfChar_none '-' s h]

theorem find_second (a t m : Str) (ht : '-' ∉ t) :
    find (a ++ '-' :: (t ++ '-' :: m)) '-' (a.length + 1) = some (a.length + 1 + t.length) := by
  have hd : (a ++ '-' :: (t ++ '-' :: m)).drop (a.length + 1) = t ++ '-' :: m := by
    rw [show a ++ '-' :: (t ++ '-' :: m) = (a ++ ['-']) ++ (t ++ '-' :: m) by simp]
    exact List.drop_left' (by simp)
  simp [find, hd, indexOfChar_append '-' t m ht]

theorem find_second_absent (a r : Str) (hr : '-' ∉ r) :
    find (a ++ '-' :: r) '-' (a.length + 1) = none := by
  have hd : (a ++ '-' :: r).drop (a.length + 1) = r := by
    rw [show a ++ '-' :: r = (a ++ ['-']) ++ r by simp]
    exact List.drop_left' (by simp)
  simp [find, hd, indexOfChar_none '-' r hr]

/-- One pass of the loop of lines 258-300, by the shape of the line. -/
theorem logVssLoop_cons (vss : Int) (i : Nat) (it : Int) (line : Str) (rest : List Str) :
    logVssLoop vss i it (line :: rest) =
      match splitDash line with
      | none => logVssLoop vss (i + 1) it rest
      | some (level, r) =>
        match splitDash r with
        | none => { loglevel := atoi level, times := 0, msg := r }
            :: logVssLoop vss (i + 1) it rest
        | some (t, m) =>
          if i = 0 then logVssLoop vss (i + 1) (atoi t) rest
          else
            { loglevel := atoi level
              times := if it - atoi t > vss + 60 then 0 else it - atoi t
              msg := m } :: logVssLoop vss (i + 1) it rest := by
  cases h1 : splitDash line with
  | none =>
    rw [logVssLoop, find_absent line (splitDash_none line h1)]
  | some p =>
    obtain ⟨level, r⟩ := p
    obtain ⟨e1, n1⟩ := splitDash_some line level r h1
    have hsub : substr line 0 level.length = level := by
      rw [e1]
      simp [substr]
    cases h2 : splitDash r with
    | none =>
      have n2 := splitDash_none r h2
      have hdrop : line.drop (level.length + 1) = r := by
        rw [e1, show level ++ '-' :: r = (level ++ ['-']) ++ r by simp]
        exact List.drop_left' (by simp)
      rw [logVssLoop]
      simp only [show find line '-' 0 = some level.length by rw [e1]; exact find_first _ _ n1,
        show find line '-' (level.length + 1) = none by
          rw [e1]; exact find_second_absent _ _ n2, hsub, hdrop, h2]
    | some q =>
      obtain ⟨t, m⟩ := q
      obtain ⟨e2, n2⟩ := splitDash_some r t m h2
      have hline : line = level ++ '-' :: (t ++ '-' :: m) := by rw [e1, e2]
      have hts : substr line (level.length + 1)
          (level.length + 1 + t.length - level.length) = t ++ ['-'] := by
        rw [hline, show level ++ '-' :: (t ++ '-' :: m) = (level ++ ['-']) ++ (t ++ '-' :: m) by
          simp]
        have : level.length + 1 + t.length - level.length = (t ++ ['-']).length := by
          simp
          omega
        rw [substr, List.drop_left' (by simp), this,
          show t ++ '-' :: m = (t ++ ['-']) ++ m by simp, List.take_left]
      have hmsg : line.drop (level.length + 1 + t.length + 1) = m := by
        rw [hline, show level ++ '-' :: (t ++ '-' :: m)
          = (level ++ ['-'] ++ t ++ ['-']) ++ m by simp]
        exact List.drop_left' (by simp; omega)
      rw [logVssLoop]
      simp only [show find line '-' 0 = some level.length by rw [e1]; exact find_first _ _ n1,
        show find line '-' (level.length + 1) = some (level.length + 1 + t.length) by
          rw [hline]; exact find_second _ _ _ n2, hsub, hts, hmsg, atoi_append_dash t n2, h2]

/-- C18: the first line, when it has the form `<loglevel>-<unix_seconds>-<msg>`, gives the
reference `initial_time` and is not logged; every later line is treated as the spec says:
skipped without `-`; else the level is the integer before the first `-`, the offset is
`initial_time - t`, replaced by 0 when greater than `vss_duration_s + 60` and kept else, and
the message is the text behind the second `-` (behind the first one if there is no second,
and then no offset is computed). -/
theorem logVssLoop_spec (vss_duration_s now : Int) (level t msg : Str) (later : List Str)
    (hlevel : '-' ∉ level) (ht : '-' ∉ t) :
    logVssLoop vss_duration_s 0 now ((level ++ ['-'] ++ t ++ ['-'] ++ msg) :: later)
      = later.filterMap (vssLineRef vss_duration_s (atoi t)) ∧
    (∀ (i : Nat) (initial_time : Int) (lines : List Str),
      logVssLoop vss_duration_s (i + 1) initial_time lines
        = lines.filterMap (vssLineRef vss_duration_s initial_time)) ∧
    (∀ (initial_time : Int) (level2 t2 msg2 : Str), '-' ∉ level2 → '-' ∉ t2 →
      vssLineRef vss_duration_s initial_time (level2 ++ ['-'] ++ t2 ++ ['-'] ++ msg2)
        = some
            { loglevel := atoi level2
              times :=
                if initial_time - atoi t2 > vss_duration_s + 60 then 0
                else initial_time - atoi t2
              msg := msg2 }) := by
  have later_eq : ∀ (lines : List Str) (i : Nat) (it : Int),
      logVssLoop vss_duration_s (i + 1) it lines
        = lines.filterMap (vssLineRef vss_duration_s it) := by
    intro lines
    induction lines with
    | nil => intro i it; rfl
    | cons line rest ih =>
      intro i it
      rw [logVssLoop_cons, List.filterMap_cons, vssLineRef]
      cases h1 : splitDash line with
      | none => exact ih _ _
      | some p =>
        obtain ⟨lv, r⟩ := p
        cases h2 : splitDash r with
        | none => simp only [h2, ih]
        | some q =>
          obtain ⟨t, m⟩ := q
          simp only [h2, Nat.add_one_ne_zero, if_false, ih]
  have split2 : ∀ (a b c : Str), '-' ∉ a → '-' ∉ b →
      splitDash (a ++ ['-'] ++ b ++ ['-'] ++ c) = some (a, b ++ ['-'] ++ c) ∧
      splitDash (b ++ ['-'] ++ c) = some (b, c) := by
    intro a b c ha hb
    have one : ∀ (x y : Str), '-' ∉ x → splitDash (x ++ ['-'] ++ y) = some (x, y) := by
      intro x y hx
      cases h : splitDash (x ++ ['-'] ++ y) with
      | none =>
        exact absurd (by simp) (splitDash_none _ h)
      | some p =>
        obtain ⟨u, v⟩ := p
        obtain ⟨e, n⟩ := splitDash_some _ u v h
        have hlen : u = x ∧ v = y := by
          have e' : x ++ '-' :: y = u ++ '-' :: v := by simpa using e
          have hu : u = x := by
            have := List.append_eq_append_iff.mp e'
            rcases this with ⟨w, hw1, hw2⟩ | ⟨w, hw1, hw2⟩
            · cases w with
              | nil => simpa using hw1
              | cons c w =>
                simp only [List.cons_append, List.cons.injEq] at hw2
                exact absurd (by rw [hw1, hw2.1]; simp) n
            · cases w with
              | nil => exact (by simpa using hw1 : x = u).symm
              | cons c w =>
                simp only [List.cons_append, List.cons.injEq] at hw2
                exact absurd (by rw [hw1, hw2.1]; simp) hx
          subst hu
          exact ⟨rfl, by simpa using (List.append_cancel_left e').symm⟩
        rw [hlen.1, hlen.2]
    constructor
    · have := one a (b ++ ['-'] ++ c) ha
      simpa using this
    · exact one b c hb
  refine ⟨?_, fun i it lines => later_eq lines i it, ?_⟩
  · rw [logVssLoop_cons, (split2 level t msg hlevel ht).1]
    simp only [(split2 level t msg hlevel ht).2, if_true]
    exact later_eq later 0 _
  · intro it level2 t2 msg2 h1 h2
    rw [vssLineRef, (split2 level2 t2 msg2 h1 h2).1]
    simp only [(split2 level2 t2 msg2 h1 h2).2]

set_option maxRecDepth 100000 in
/-- C18 at a log of four lines with `vss_duration_s = 10`: the first line gives the
reference 1000; 990 gives the offset 10, 900 gives 100, which is replaced by 0, 1005 gives
-5; the line without `-` is skipped. -/
theorem logVssLoop_spec_witness :
    logVssLoop 10 0 5000
        ["2-1000-start".toList, "1-990-snapshot a-b".toList, "junk".toList,
          "0-900-old".toList, "3-1005-late".toList]
      = [⟨1, 10, "snapshot a-b".toList⟩, ⟨0, 0, "old".toList⟩, ⟨3, -5, "late".toList⟩] :=
  ((logVssLoop_spec 10 5000 "2".toList "1000".toList "start".toList
      ["1-990-snapshot a-b".toList, "junk".toList, "0-900-old".toList, "3-1005-late".toList]
      (by decide) (by decide)).1).trans (by decide)

/-! ## `verify_file_backup` -/

theorem dirStatStep_file (b : Bool) (p : Nat) (st : List SDirStatItem × List Nat × Nat) :
    dirStatStep false b p st = itemStep st (PermItem.file p) := by
  cases b <;> rfl

theorem dirStatStep_up (p : Nat) (st : List SDirStatItem × List Nat × Nat) :
    dirStatStep true true p st = itemStep st PermItem.up := by
  rfl

theorem roots_foldl (os : OsEnv) (env : MetaEnv) (metadata_home_path : Str) (ids : List Int)
    (es : List FileListEntry) :
    ∀ st : RootsState,
      (es.foldl (rootsStep os env metadata_home_path ids) st).stat =
        (permItems os env metadata_home_path ids st.walk es).foldl itemStep st.stat := by
  induction es with
  | nil => intro st; rfl
  | cons e rest ih =>
    intro st
    rw [List.foldl_cons, ih, permItems, List.foldl_cons]
    congr 1
    unfold rootsStep
    cases hd : e.cf.isdir
    · simp only [dirStatStep_file, Bool.false_eq_true, if_false]
    · cases hn : (e.cf.name == dotdot)
      · simp only [if_true, Bool.false_eq_true, if_false]; rfl
      · simp only [if_true, dirStatStep_up]

theorem ident_le_nodes (f : Forest) : ∀ q, f.ident q ≤ f.nodes := by
  induction f with
  | nil => intro q; exact Nat.le_refl _
  | file p rest ih =>
    intro q
    have := ih q
    simp only [Forest.ident, Forest.nodes]
    split <;> omega
  | dir p children rest ihc ihr =>
    intro q
    have h1 := ihc p
    have h2 := ihr q
    simp only [Forest.ident, Forest.nodes]
    split <;> omega

theorem allEq_iff (f : Forest) : ∀ q, f.allEq q = true ↔ f.ident q = f.nodes := by
  induction f with
  | nil => intro q; simp [Forest.allEq, Forest.ident, Forest.nodes]
  | file p rest ih =>
    intro q
    have hle := ident_le_nodes rest q
    simp only [Forest.allEq, Forest.ident, Forest.nodes, Bool.and_eq_true, decide_eq_true_eq,
      ih q]
    constructor
    · rintro ⟨h1, h2⟩; rw [if_pos h1, h2]
    · intro h
      by_cases hp : p = q
      · rw [if_pos hp] at h; exact ⟨hp, by omega⟩
      · rw [if_neg hp] at h; omega
  | dir p children rest ihc ihr =>
    intro q
    have hle1 := ident_le_nodes children p
    have hle2 := ident_le_nodes rest q
    simp only [Forest.allEq, Forest.ident, Forest.nodes, Bool.and_eq_true, decide_eq_true_eq,
      ihr q]
    constructor
    · rintro ⟨⟨h1, h2⟩, h3⟩
      subst h1
      rw [(ihc p).1 h2, h3, if_pos rfl]; omega
    · intro h
      by_cases hp : p = q
      · rw [if_pos hp] at h
        subst hp
        exact ⟨⟨rfl, (ihc p).2 (by omega)⟩, by omega⟩
      · rw [if_neg hp] at h; omega

theorem nodes_beq_ident (p : Nat) (f : Forest) : (f.nodes == f.ident p) = f.allEq p := by
  rw [Bool.eq_iff_iff, allEq_iff, beq_iff_eq]
  exact eq_comm

theorem run_flatten (f : Forest) :
    ∀ (stk : List SDirStatItem) (out : List Nat) (id : Nat) (tail : List PermItem),
      (f.flatten ++ tail).foldl itemStep (stk, out, id) =
        tail.foldl itemStep (bump f stk, out ++ f.leaveIds id, id + f.flatten.length) := by
  induction f with
  | nil =>
    intro stk out id tail
    cases stk <;> simp [Forest.flatten, bump, Forest.leaveIds, Forest.nodes, Forest.ident]
  | file p rest ih =>
    intro stk out id tail
    simp only [Forest.flatten, List.cons_append, List.foldl_cons, ih, Forest.leaveIds,
      List.length_cons]
    congr 1
    cases stk with
    | nil => simp [itemStep, dirStatStep, bump]; omega
    | cons top deeper =>
      simp only [itemStep, dirStatStep, bump, Forest.nodes, Forest.ident]
      by_cases hp : p = top.has_perm
      · simp [hp]; omega
      · simp [hp]; omega
  | dir p children rest ihc ihr =>
    intro stk out id tail
    simp only [Forest.flatten, List.cons_append, List.foldl_cons, List.append_assoc, ihc, ihr,
      Forest.leaveIds, List.length_cons, List.length_append]
    congr 1
    cases stk with
    | nil =>
      simp [itemStep, dirStatStep, bump, nodes_beq_ident]
      constructor
      · split <;> simp
      · omega
    | cons top deeper =>
      simp only [itemStep, dirStatStep, bump, Forest.nodes, Forest.ident]
      simp [nodes_beq_ident]
      refine ⟨?_, ?_, ?_⟩
      · by_cases hp : p = top.has_perm
        · simp [hp]; omega
        · simp [hp]; omega
      · split <;> simp
      · omega

theorem run_flatten_nil (f : Forest) (stk : List SDirStatItem) (out : List Nat) (id : Nat) :
    f.flatten.foldl itemStep (stk, out, id) =
      (bump f stk, out ++ f.leaveIds id, id + f.flatten.length) := by
  have h := run_flatten f stk out id []
  rwa [List.append_nil] at h

theorem run_flattenOpen (F : OpenForest) :
    ∀ (stk : List SDirStatItem) (out : List Nat) (id : Nat),
      (F.flatten.foldl itemStep (stk, out, id)).2.1 = out ++ F.leaveIds id := by
  induction F with
  | closed f => intro stk out id; rw [OpenForest.flatten, run_flatten_nil]; rfl
  | opened f p inner ih =>
    intro stk out id
    rw [OpenForest.flatten, run_flatten, List.foldl_cons]
    simp only [itemStep, dirStatStep, if_true, Bool.false_eq_true, if_false]
    rw [ih, OpenForest.leaveIds, List.append_assoc]

/-! ### The scans of the spec on forests -/

theorem subtreeIdentical_flatten (q : Nat) (f : Forest) :
    ∀ (k : Nat) (tail : List PermItem),
      subtreeIdentical q k (f.flatten ++ tail) =
        (subtreeIdentical q k tail).map fun b => f.allEq q && b := by
  induction f with
  | nil => intro k tail; simp [Forest.flatten, Forest.allEq]
  | file p rest ih =>
    intro k tail
    simp only [Forest.flatten, List.cons_append, subtreeIdentical, ih, Option.map_map,
      Forest.allEq]
    congr 1
    funext b
    simp [Bool.and_assoc]
  | dir p children rest ihc ihr =>
    intro k tail
    simp only [Forest.flatten, List.cons_append, List.append_assoc, subtreeIdentical, ihc, ihr,
      Option.map_map, Forest.allEq]
    congr 1
    funext b
    simp [Bool.and_assoc]

theorem subtreeIdentical_closed (q : Nat) (f : Forest) (tail : List PermItem) :
    subtreeIdentical q 0 (f.flatten ++ PermItem.up :: tail) = some (f.allEq q) := by
  rw [subtreeIdentical_flatten]
  simp [subtreeIdentical]

theorem subtreeIdentical_open (q : Nat) (F : OpenForest) :
    ∀ k, subtreeIdentical q k F.flatten = none := by
  induction F with
  | closed f =>
    intro k
    have h := subtreeIdentical_flatten q f k []
    rw [List.append_nil] at h
    rw [OpenForest.flatten, h]
    cases k <;> rfl
  | opened f p inner ih =>
    intro k
    rw [OpenForest.flatten, subtreeIdentical_flatten]
    simp [subtreeIdentical, ih]

theorem subtreeAll_flatten (q : Nat) (f : Forest) :
    ∀ (k : Nat) (tail : List PermItem),
      subtreeAll q k (f.flatten ++ tail) = (f.allEq q && subtreeAll q k tail) := by
  induction f with
  | nil => intro k tail; simp [Forest.flatten, Forest.allEq]
  | file p rest ih =>
    intro k tail
    simp only [Forest.flatten, List.cons_append, subtreeAll, ih, Forest.allEq, Bool.and_assoc]
  | dir p children rest ihc ihr =>
    intro k tail
    simp only [Forest.flatten, List.cons_append, List.append_assoc, subtreeAll, ihc, ihr,
      Forest.allEq, Bool.and_assoc]

theorem subtreeAll_closed (q : Nat) (f : Forest) (tail : List PermItem) :
    subtreeAll q 0 (f.flatten ++ PermItem.up :: tail) = f.allEq q := by
  rw [subtreeAll_flatten]
  simp [subtreeAll]

theorem identicalRootsRef_flatten (f : Forest) :
    ∀ (id : Nat) (tail : List PermItem),
      identicalRootsRef id (f.flatten ++ tail) =
        f.enterIds id ++ identicalRootsRef (id + f.flatten.length) tail := by
  induction f with
  | nil => intro id tail; simp [Forest.flatten, Forest.enterIds]
  | file p rest ih =>
    intro id tail
    simp only [Forest.flatten, List.cons_append]
    simp only [identicalRootsRef]
    rw [ih]
    simp only [Forest.enterIds, List.length_cons]
    rw [Nat.add_assoc, Nat.add_comm 1]
  | dir p children rest ihc ihr =>
    intro id tail
    simp only [Forest.flatten, List.cons_append, List.append_assoc]
    simp only [identicalRootsRef]
    rw [subtreeIdentical_closed, ihc]
    simp only [identicalRootsRef]
    rw [ihr]
    simp only [Forest.enterIds, List.length_cons, List.length_append, List.append_assoc,
      Option.some.injEq]
    congr 4
    omega

theorem identicalDirsRef_flatten (f : Forest) :
    ∀ (id : Nat) (tail : List PermItem),
      identicalDirsRef id (f.flatten ++ tail) =
        f.enterIds id ++ identicalDirsRef (id + f.flatten.length) tail := by
  induction f with
  | nil => intro id tail; simp [Forest.flatten, Forest.enterIds]
  | file p rest ih =>
    intro id tail
    simp only [Forest.flatten, List.cons_append]
    simp only [identicalDirsRef]
    rw [ih]
    simp only [Forest.enterIds, List.length_cons]
    rw [Nat.add_assoc, Nat.add_comm 1]
  | dir p children rest ihc ihr =>
    intro id tail
    simp only [Forest.flatten, List.cons_append, List.append_assoc]
    simp only [identicalDirsRef]
    rw [subtreeAll_closed, ihc]
    simp only [identicalDirsRef]
    rw [ihr]
    simp only [Forest.enterIds, List.length_cons, List.length_append, List.append_assoc]
    congr 4
    omega

theorem identicalRootsRef_flattenOpen (F : OpenForest) :
    ∀ id, identicalRootsRef id F.flatten = F.enterIds id := by
  induction F with
  | closed f =>
    intro id
    have h := identicalRootsRef_flatten f id []
    rw [List.append_nil] at h
    rw [OpenForest.flatten, h, OpenForest.enterIds]
    simp [identicalRootsRef]
  | opened f p inner ih =>
    intro id
    rw [OpenForest.flatten, identicalRootsRef_flatten, identicalRootsRef,
      subtreeIdentical_open, ih, OpenForest.enterIds]
    simp

theorem identicalDirsRef_closed (f : Forest) (id : Nat) :
    identicalDirsRef id f.flatten = f.enterIds id := by
  have h := identicalDirsRef_flatten f id []
  rw [List.append_nil] at h
  rw [h]
  simp [identicalDirsRef]

/-! ### Leave order and enter order -/

theorem leaveIds_perm (f : Forest) : ∀ id, (f.leaveIds id).Perm (f.enterIds id) := by
  induction f with
  | nil => intro id; exact List.Perm.refl _
  | file p rest ih => intro id; exact ih (id + 1)
  | dir p children rest ihc ihr =>
    intro id
    simp only [Forest.leaveIds, Forest.enterIds]
    exact List.Perm.append (List.perm_append_comm.trans
      (List.Perm.append_left _ (ihc (id + 1)))) (ihr _)

theorem leaveIdsOpen_perm (F : OpenForest) : ∀ id, (F.leaveIds id).Perm (F.enterIds id) := by
  induction F with
  | closed f => intro id; exact leaveIds_perm f id
  | opened f p inner ih =>
    intro id
    exact List.Perm.append (leaveIds_perm f id) (ih _)

theorem enterIds_bounds (f : Forest) :
    ∀ id, ∀ x ∈ f.enterIds id, id ≤ x ∧ x < id + f.flatten.length := by
  induction f with
  | nil => intro id x hx; simp [Forest.enterIds] at hx
  | file p rest ih =>
    intro id x hx
    have := ih (id + 1) x hx
    simp only [Forest.flatten, List.length_cons]
    omega
  | dir p children rest ihc ihr =>
    intro id x hx
    simp only [Forest.enterIds, List.mem_append] at hx
    simp only [Forest.flatten, List.length_cons, List.length_append]
    rcases hx with (hx | hx) | hx
    · split at hx
      · simp only [List.mem_singleton] at hx; omega
      · simp at hx
    · have := ihc (id + 1) x hx
      omega
    · have := ihr _ x hx
      omega

theorem enterIds_sorted (f : Forest) : ∀ id, (f.enterIds id).Pairwise (fun a b => a < b) := by
  induction f with
  | nil => intro id; exact List.Pairwise.nil
  | file p rest ih => intro id; exact ih (id + 1)
  | dir p children rest ihc ihr =>
    intro id
    simp only [Forest.enterIds]
    rw [List.pairwise_append, List.pairwise_append]
    refine ⟨⟨?_, ihc _, ?_⟩, ihr _, ?_⟩
    · split
      · exact List.pairwise_singleton _ _
      · exact List.Pairwise.nil
    · intro a ha b hb
      have := enterIds_bounds children (id + 1) b hb
      split at ha
      · simp only [List.mem_singleton] at ha; omega
      · simp at ha
    · intro a ha b hb
      have hb2 := enterIds_bounds rest _ b hb
      rcases List.mem_append.1 ha with ha | ha
      · split at ha
        · simp only [List.mem_singleton] at ha; omega
        · simp at ha
      · have := enterIds_bounds children (id + 1) a ha
        omega

theorem enterIdsOpen_bounds (F : OpenForest) :
    ∀ id, ∀ x ∈ F.enterIds id, id ≤ x := by
  induction F with
  | closed f => intro id x hx; exact (enterIds_bounds f id x hx).1
  | opened f p inner ih =>
    intro id x hx
    rcases List.mem_append.1 hx with hx | hx
    · exact (enterIds_bounds f id x hx).1
    · have := ih _ x hx
      omega

theorem enterIdsOpen_sorted (F : OpenForest) :
    ∀ id, (F.enterIds id).Pairwise (fun a b => a < b) := by
  induction F with
  | closed f => intro id; exact enterIds_sorted f id
  | opened f p inner ih =>
    intro id
    simp only [OpenForest.enterIds]
    rw [List.pairwise_append]
    refine ⟨enterIds_sorted f id, ih _, ?_⟩
    intro a ha b hb
    have := enterIds_bounds f id a ha
    have := enterIdsOpen_bounds inner _ b hb
    omega

theorem sort_leaveIds (F : OpenForest) (id : Nat) :
    (F.leaveIds id).insertionSort (fun a b => a ≤ b) = F.enterIds id := by
  apply List.eq_of_perm_of_sorted (r := fun a b : Nat => a ≤ b)
  · exact (List.perm_insertionSort _ _).trans (leaveIdsOpen_perm F id)
  · exact List.sorted_insertionSort _ _
  · exact (enterIdsOpen_sorted F id).imp (fun h => Nat.le_of_lt h)

/-! ### Every well-nested list is the flattening of an open forest -/

theorem flatten_append (f g : Forest) : (f.append g).flatten = f.flatten ++ g.flatten := by
  induction f with
  | nil => rfl
  | file p rest ih => simp [Forest.append, Forest.flatten, ih]
  | dir p children rest _ ihr => simp [Forest.append, Forest.flatten, ihr]

theorem openAtEnd_flatten (f : Forest) :
    ∀ (d : Nat) (rest : List PermItem), openAtEnd d (f.flatten ++ rest) = openAtEnd d rest := by
  induction f with
  | nil => intro d rest; rfl
  | file p r ih => intro d rest; simp only [Forest.flatten, List.cons_append, openAtEnd, List.append_eq, ih]
  | dir p c r ihc ihr =>
    intro d rest
    simp only [Forest.flatten, List.cons_append, List.append_assoc, openAtEnd, List.append_eq,
      ihc, ihr, Nat.add_sub_cancel]

theorem openAtEnd_flattenOpen (F : OpenForest) :
    ∀ d, openAtEnd d F.flatten = d + F.depth := by
  induction F with
  | closed f =>
    intro d
    have h := openAtEnd_flatten f d []
    rw [List.append_nil] at h
    rw [OpenForest.flatten, h]
    rfl
  | opened f p inner ih =>
    intro d
    rw [OpenForest.flatten, openAtEnd_flatten, openAtEnd, ih, OpenForest.depth]
    omega

theorem openAtEnd_append (a : List PermItem) :
    ∀ (d : Nat) (b : List PermItem), openAtEnd d (a ++ b) = openAtEnd (openAtEnd d a) b := by
  induction a with
  | nil => intro d b; rfl
  | cons x a ih =>
    intro d b
    cases x <;> simp only [List.cons_append, openAtEnd, List.append_eq, ih]

theorem wellNestedFrom_append (a : List PermItem) :
    ∀ (d : Nat) (b : List PermItem),
      wellNestedFrom d (a ++ b) = (wellNestedFrom d a && wellNestedFrom (openAtEnd d a) b) := by
  induction a with
  | nil => intro d b; simp [wellNestedFrom, openAtEnd]
  | cons x a ih =>
    intro d b
    cases x with
    | file p => simp only [List.cons_append, wellNestedFrom, openAtEnd, ih]
    | dir p => simp only [List.cons_append, wellNestedFrom, openAtEnd, ih]
    | up =>
      cases d with
      | zero => simp [wellNestedFrom]
      | succ d =>
        simp only [List.cons_append, wellNestedFrom, openAtEnd, List.append_eq, ih,
          Nat.add_sub_cancel]

theorem snocFile_flatten (p : Nat) (F : OpenForest) :
    (F.snocFile p).flatten = F.flatten ++ [PermItem.file p] := by
  induction F with
  | closed f => simp [OpenForest.snocFile, OpenForest.flatten, flatten_append, Forest.flatten]
  | opened f q inner ih => simp [OpenForest.snocFile, OpenForest.flatten, ih]

theorem snocDir_flatten (p : Nat) (F : OpenForest) :
    (F.snocDir p).flatten = F.flatten ++ [PermItem.dir p] := by
  induction F with
  | closed f => simp [OpenForest.snocDir, OpenForest.flatten, Forest.flatten]
  | opened f q inner ih => simp [OpenForest.snocDir, OpenForest.flatten, ih]

theorem snocUp_flatten (F : OpenForest) :
    F.depth ≠ 0 → F.snocUp.flatten = F.flatten ++ [PermItem.up] := by
  induction F with
  | closed f => intro h; exact absurd rfl h
  | opened f q inner ih =>
    intro _
    cases inner with
    | closed g =>
      simp [OpenForest.snocUp, OpenForest.flatten, flatten_append, Forest.flatten]
    | opened g r inner2 =>
      have h := ih (Nat.succ_ne_zero _)
      simp only [OpenForest.snocUp, OpenForest.flatten] at h ⊢
      rw [h]
      simp

theorem exists_openForest (items : List PermItem) :
    wellNested items = true → ∃ F : OpenForest, F.flatten = items := by
  induction items using List.reverseRecOn with
  | nil => intro _; exact ⟨OpenForest.closed Forest.nil, rfl⟩
  | append_singleton init x ih =>
    intro h
    unfold wellNested at h ih
    rw [wellNestedFrom_append, Bool.and_eq_true] at h
    obtain ⟨F, hF⟩ := ih h.1
    have h2 := h.2
    rw [← hF, openAtEnd_flattenOpen, Nat.zero_add] at h2
    cases x with
    | file p => exact ⟨F.snocFile p, by rw [snocFile_flatten, hF]⟩
    | dir p => exact ⟨F.snocDir p, by rw [snocDir_flatten, hF]⟩
    | up =>
      have hd : F.depth ≠ 0 := by
        intro h0
        rw [h0] at h2
        simp [wellNestedFrom] at h2
      exact ⟨F.snocUp, by rw [snocUp_flatten F hd, hF]⟩

theorem exists_forest (items : List PermItem) :
    wellNested items = true → openAtEnd 0 items = 0 → ∃ f : Forest, f.flatten = items := by
  intro hw ho
  obtain ⟨F, hF⟩ := exists_openForest items hw
  rw [← hF, openAtEnd_flattenOpen, Nat.zero_add] at ho
  cases F with
  | closed f => exact ⟨f, hF⟩
  | opened f p inner => simp [OpenForest.depth] at ho

/-! ### The result of the loop -/

theorem roots_eq_ref (items : List PermItem) (h : wellNested items = true) :
    ((items.foldl itemStep ([], [], 0)).2.1).insertionSort (fun a b => a ≤ b) =
      identicalRootsRef 0 items := by
  obtain ⟨F, hF⟩ := exists_openForest items h
  rw [← hF, run_flattenOpen, List.nil_append, sort_leaveIds, identicalRootsRef_flattenOpen]

theorem ref_sorted (items : List PermItem) (h : wellNested items = true) :
    (identicalRootsRef 0 items).Pairwise (fun a b => a < b) := by
  obtain ⟨F, hF⟩ := exists_openForest items h
  rw [← hF, identicalRootsRef_flattenOpen]
  exact enterIdsOpen_sorted F 0

theorem ref_eq_dirs (items : List PermItem) (h : wellNested items = true)
    (hc : openAtEnd 0 items = 0) : identicalRootsRef 0 items = identicalDirsRef 0 items := by
  obtain ⟨f, hf⟩ := exists_forest items h hc
  rw [← hf, identicalDirsRef_closed]
  exact identicalRootsRef_flattenOpen (OpenForest.closed f) 0

theorem findIdenticalPermissionRoots_eq (os : OsEnv) (env : MetaEnv) (backuppath : Str)
    (filepath_corrections : PathCorrections) (file_list : List FileListEntry)
    (ids : List Int) :
    findIdenticalPermissionRoots os env backuppath filepath_corrections file_list ids =
      (((permItems os env (backuppath ++ os.os_file_sep ++ ".hashes".toList) ids
          { curr_path := [], folder_files := [[]],
            filepath_corrections := filepath_corrections } file_list).foldl
        itemStep ([], [], 0)).2.1).insertionSort (fun a b => a ≤ b) := by
  unfold findIdenticalPermissionRoots
  simp only []
  rw [roots_foldl]

theorem mem_identicalRootsRef_append (x : Nat) (pre : List PermItem) :
    ∀ (id : Nat) (tail : List PermItem),
      x ∈ identicalRootsRef (id + pre.length) tail → x ∈ identicalRootsRef id (pre ++ tail) := by
  induction pre with
  | nil => intro id tail h; exact h
  | cons y pre ih =>
    intro id tail h
    have h2 : x ∈ identicalRootsRef (id + 1) (pre ++ tail) := by
      apply ih
      rw [List.length_cons] at h
      rwa [Nat.add_assoc, Nat.add_comm 1]
    cases y with
    | file p => simp only [List.cons_append, identicalRootsRef]; exact h2
    | dir p =>
      simp only [List.cons_append, identicalRootsRef]
      exact List.mem_append_right _ h2
    | up => simp only [List.cons_append, identicalRootsRef]; exact h2

theorem single_dir_items (os : OsEnv) (env : MetaEnv) (mhp : Str) (ids : List Int)
    (w : WalkState) (name : Str) (size : Int) (extras : List (Str × Str))
    (hn : (name == dotdot) = false) :
    ∃ p, permItems os env mhp ids w [⟨⟨name, size, true⟩, extras⟩] = [PermItem.dir p] := by
  refine ⟨countPermitted env ids
    (entryPermissions os env mhp w ⟨name, size, true⟩).1, ?_⟩
  simp only [permItems, hn, if_true, Bool.false_eq_true, if_false]

set_option maxRecDepth 100000 in
/-- C14, counterexample: a filelist with nothing but one directory-enter entry is
well-nested (there is no `..` in it) and the subtree of the directory is empty, yet the id
0 of the directory is not returned: the decision is taken when a directory is left. -/
theorem unclosed_directory_is_not_returned :
    wellNested (permItems (Posix.osEnv GenerateHexMD5)
      ⟨fun _ => none, fun _ _ => false, [], fun s => s⟩ "/backup/.hashes".toList [1000]
      ⟨[], [[]], fun _ => none⟩ [⟨⟨"a".toList, 0, true⟩, []⟩]) = true ∧
    findIdenticalPermissionRoots (Posix.osEnv GenerateHexMD5)
      ⟨fun _ => none, fun _ _ => false, [], fun s => s⟩ "/backup".toList (fun _ => none)
      [⟨⟨"a".toList, 0, true⟩, []⟩] [1000] = [] ∧
    identicalDirsRef 0 (permItems (Posix.osEnv GenerateHexMD5)
      ⟨fun _ => none, fun _ _ => false, [], fun s => s⟩ "/backup/.hashes".toList [1000]
      ⟨[], [[]], fun _ => none⟩ [⟨⟨"a".toList, 0, true⟩, []⟩]) = [0] := by
  refine ⟨?_, ?_, ?_⟩
  · obtain ⟨p, hp⟩ := single_dir_items (Posix.osEnv GenerateHexMD5)
      ⟨fun _ => none, fun _ _ => false, [], fun s => s⟩ "/backup/.hashes".toList [1000]
      ⟨[], [[]], fun _ => none⟩ "a".toList 0 [] (by decide)
    rw [hp]; rfl
  · rw [findIdenticalPermissionRoots_eq]
    obtain ⟨p, hp⟩ := single_dir_items (Posix.osEnv GenerateHexMD5)
      ⟨fun _ => none, fun _ _ => false, [], fun s => s⟩
      ("/backup".toList ++ (Posix.osEnv GenerateHexMD5).os_file_sep ++ ".hashes".toList) [1000]
      ⟨[], [[]], fun _ => none⟩ "a".toList 0 [] (by decide)
    rw [hp]; rfl
  · obtain ⟨p, hp⟩ := single_dir_items (Posix.osEnv GenerateHexMD5)
      ⟨fun _ => none, fun _ _ => false, [], fun s => s⟩ "/backup/.hashes".toList [1000]
      ⟨[], [[]], fun _ => none⟩ "a".toList 0 [] (by decide)
    rw [hp]; rfl

/-- C14: for a well-nested filelist (every `..` closes an open directory)
`findIdenticalPermissionRoots` returns, in ascending order without duplicates, exactly the
ids of the directory-enter entries that are closed by a `..` and whose subtree has nothing
but entries with the permitted-principal count of the directory; a closed directory with an
empty subtree is among them; and if no directory is left open at the end of the filelist
these are the ids of all directories with such a subtree. -/
theorem findIdenticalPermissionRoots_spec (os : OsEnv) (env : MetaEnv) (backuppath : Str)
    (filepath_corrections : PathCorrections) (file_list : List FileListEntry)
    (ids : List Int)
    (h : wellNested (permItems os env (backuppath ++ os.os_file_sep ++ ".hashes".toList) ids
      { curr_path := [], folder_files := [[]], filepath_corrections := filepath_corrections }
      file_list) = true) :
    findIdenticalPermissionRoots os env backuppath filepath_corrections file_list ids =
      identicalRootsRef 0
        (permItems os env (backuppath ++ os.os_file_sep ++ ".hashes".toList) ids
          { curr_path := [], folder_files := [[]],
            filepath_corrections := filepath_corrections } file_list) ∧
    (findIdenticalPermissionRoots os env backuppath filepath_corrections file_list
      ids).Pairwise (fun a b => a < b) ∧
    (∀ pre p rest,
      permItems os env (backuppath ++ os.os_file_sep ++ ".hashes".toList) ids
          { curr_path := [], folder_files := [[]],
            filepath_corrections := filepath_corrections } file_list
        = pre ++ PermItem.dir p :: PermItem.up :: rest →
      pre.length ∈
        findIdenticalPermissionRoots os env backuppath filepath_corrections file_list ids) ∧
    (openAtEnd 0
        (permItems os env (backuppath ++ os.os_file_sep ++ ".hashes".toList) ids
          { curr_path := [], folder_files := [[]],
            filepath_corrections := filepath_corrections } file_list) = 0 →
      findIdenticalPermissionRoots os env backuppath filepath_corrections file_list ids =
        identicalDirsRef 0
          (permItems os env (backuppath ++ os.os_file_sep ++ ".hashes".toList) ids
            { curr_path := [], folder_files := [[]],
              filepath_corrections := filepath_corrections } file_list)) := by
  have he := findIdenticalPermissionRoots_eq os env backuppath filepath_corrections file_list ids
  rw [roots_eq_ref _ h] at he
  refine ⟨he, ?_, ?_, ?_⟩
  · rw [he]; exact ref_sorted _ h
  · intro pre p rest hi
    rw [he, hi]
    apply mem_identicalRootsRef_append
    simp [identicalRootsRef, subtreeIdentical]
  · intro hc
    rw [he]; exact ref_eq_dirs _ h hc

set_option maxRecDepth 100000 in
/-- C14, witness: the filelist `a/`, `x`, `..` with no metadata readable. -/
theorem findIdenticalPermissionRoots_spec_witness :
    wellNested (permItems (Posix.osEnv GenerateHexMD5)
      ⟨fun _ => none, fun _ _ => false, [], fun s => s⟩
      ("/backup".toList ++ (Posix.osEnv GenerateHexMD5).os_file_sep ++ ".hashes".toList) [1000]
      ⟨[], [[]], fun _ => none⟩
      [⟨⟨"a".toList, 0, true⟩, []⟩, ⟨⟨"x".toList, 1, false⟩, []⟩,
        ⟨⟨"..".toList, 0, true⟩, []⟩]) = true ∧
    findIdenticalPermissionRoots (Posix.osEnv GenerateHexMD5)
      ⟨fun _ => none, fun _ _ => false, [], fun s => s⟩ "/backup".toList (fun _ => none)
      [⟨⟨"a".toList, 0, true⟩, []⟩, ⟨⟨"x".toList, 1, false⟩, []⟩,
        ⟨⟨"..".toList, 0, true⟩, []⟩] [1000] = [0] :=
  ⟨by decide,
    (findIdenticalPermissionRoots_spec (Posix.osEnv GenerateHexMD5)
      ⟨fun _ => none, fun _ _ => false, [], fun s => s⟩ "/backup".toList (fun _ => none)
      [⟨⟨"a".toList, 0, true⟩, []⟩, ⟨⟨"x".toList, 1, false⟩, []⟩,
        ⟨⟨"..".toList, 0, true⟩, []⟩] [1000] (by decide)).1.trans (by decide)⟩

/-! ## `createUserView` -/

theorem viewFileIds_actions (env : MetaEnv) (venv : ViewEnv)
    (user_view_home_path permissions filename : Str) (ids : List Int) :
    ∀ st : ViewState,
      (viewFileIds env venv user_view_home_path permissions filename ids st).actions =
        st.actions ++
          (if ids.any (fun id => env.hasPermission permissions id) then
            [ViewAction.os_link_symbolic (venv.os_file_prefix (venv.backuppath ++ filename))
              (venv.os_file_prefix (user_view_home_path ++ filename))]
          else []) := by
  induction ids with
  | nil => intro st; simp [viewFileIds]
  | cons idj more ih =>
    intro st
    unfold viewFileIds
    cases h : env.hasPermission permissions idj
    · simp only [Bool.false_eq_true, if_false, ih, List.any_cons, h, Bool.false_or]
    · simp only [if_true, List.any_cons, h, Bool.true_or, ViewState.call]

/-- C15: for a File entry in a directory that is being materialized (`skip` is 0, the
function has not returned), `createUserView` makes at most one call for the entry, the
symlink of the file, and makes it exactly when `hasPermission` accepts one of the ids on
the EMPTY permission string: the local `permissions` given to `hasPermission` is never
assigned, whatever `read_metadata` stored for the file. -/
theorem createUserView_file_link_ignores_metadata (os : OsEnv) (env : MetaEnv)
    (venv : ViewEnv) (metadata_home_path user_view_home_path : Str) (ids : List Int)
    (identical_permission_roots : List Nat) (st : ViewState) (e : FileListEntry)
    (hr : st.returned_false = false) (hs : st.skip = 0) (hf : e.cf.isdir = false) :
    (viewStep os env venv metadata_home_path user_view_home_path ids
        identical_permission_roots st e).actions =
      st.actions ++
        (if ids.any (fun id => env.hasPermission [] id) then
          [ViewAction.os_link_symbolic
            (venv.os_file_prefix (venv.backuppath ++
              ((legalizeEntry os st.walk e.cf).2.curr_path ++ os.os_file_sep
                ++ (legalizeEntry os st.walk e.cf).1)))
            (venv.os_file_prefix (user_view_home_path ++
              ((legalizeEntry os st.walk e.cf).2.curr_path ++ os.os_file_sep
                ++ (legalizeEntry os st.walk e.cf).1)))]
        else []) := by
  unfold viewStep
  rw [if_neg (by rw [hr]; exact Bool.false_ne_true), if_neg (by rw [hs]; exact Nat.lt_irrefl 0),
    if_neg (by rw [hf]; exact Bool.false_ne_true)]
  have h := viewFileIds_actions env venv user_view_home_path []
    ((legalizeEntry os st.walk e.cf).2.curr_path ++ os.os_file_sep
      ++ (legalizeEntry os st.walk e.cf).1) ids { st with walk := (legalizeEntry os st.walk e.cf).2 }
  have key : ∀ r : ViewState,
      (if r.returned_false = true then r else { r with id := r.id + 1 }).actions
        = r.actions := by
    intro r; split <;> rfl
  exact (key _).trans h

set_option maxRecDepth 100000 in
/-- C15, witness: the metadata of every file grants every id, `hasPermission` accepts every
id on a permission string that is not empty and none on the empty one: the file `a.txt` of
a filelist, at the top of the view, gets no symlink, and the whole run on the filelist with
nothing but this file makes the calls for the folders and the two links of the view only. -/
theorem createUserView_file_link_ignores_metadata_witness :
    (∀ fn : Str, (fun _ : Str => some "allow".toList) fn = some "allow".toList) ∧
    (fun (permissions : Str) (_ : Int) => !permissions.isEmpty) "allow".toList 1000 = true ∧
    (viewStep (Posix.osEnv GenerateHexMD5)
        ⟨fun _ => some "allow".toList, fun permissions _ => !permissions.isEmpty,
          ".dir_metadata".toList, fun s => s⟩
        ⟨"/backups".toList, "client".toList, "/backups/client/b1".toList, "b1".toList,
          fun s => s, fun _ _ => false, fun _ _ => true⟩
        "/backups/client/b1/.hashes".toList "/backups/client/b1/user_views/u".toList [1000] []
        ⟨⟨[], [[]], fun _ => none⟩, 0, 0, [], false⟩
        ⟨⟨"a.txt".toList, 5, false⟩, []⟩).actions = [] ∧
    (createUserView (Posix.osEnv GenerateHexMD5)
        ⟨fun _ => some "allow".toList, fun permissions _ => !permissions.isEmpty,
          ".dir_metadata".toList, fun s => s⟩
        ⟨"/backups".toList, "client".toList, "/backups/client/b1".toList, "b1".toList,
          fun s => s, fun _ _ => false, fun _ _ => true⟩
        (fun _ => none) [⟨⟨"a.txt".toList, 5, false⟩, []⟩] [1000] "u".toList []).2.1 =
      [ViewAction.os_create_dir_recursive "/backups/client/b1/user_views/u".toList,
       ViewAction.os_create_dir_recursive "/backups/user_views/client/u".toList,
       ViewAction.os_link_symbolic "/backups/client/b1/user_views/u".toList
         "/backups/user_views/client/u/b1".toList,
       ViewAction.os_remove_symlink_dir "/backups/user_views/client/u/current".toList,
       ViewAction.os_link_symbolic "/backups/client/b1/user_views/u".toList
         "/backups/user_views/client/u/current".toList] :=
  ⟨fun _ => rfl, by decide,
    (createUserView_file_link_ignores_metadata (Posix.osEnv GenerateHexMD5)
        ⟨fun _ => some "allow".toList, fun permissions _ => !permissions.isEmpty,
          ".dir_metadata".toList, fun s => s⟩
        ⟨"/backups".toList, "client".toList, "/backups/client/b1".toList, "b1".toList,
          fun s => s, fun _ _ => false, fun _ _ => true⟩
        "/backups/client/b1/.hashes".toList "/backups/client/b1/user_views/u".toList [1000] []
        ⟨⟨[], [[]], fun _ => none⟩, 0, 0, [], false⟩
        ⟨⟨"a.txt".toList, 5, false⟩, []⟩ rfl rfl rfl).trans (by decide),
    by decide⟩

/-! ## `saveUsersOnClient` -/

theorem findStrFrom_eq_some (pat : Str) (s : Str) :
    ∀ i, findStrFrom pat s = some i ↔
      (pat <+: s.drop i ∧ ∀ j < i, ¬ pat <+: s.drop j) := by
  induction s with
  | nil =>
    intro i
    unfold findStrFrom
    by_cases hp : pat.isPrefixOf [] = true
    · have hpre : pat <+: [] := List.isPrefixOf_iff_prefix.1 hp
      simp only [hp, if_true, Option.some.injEq, List.drop_nil]
      constructor
      · intro h; subst h
        exact ⟨hpre, fun j hj => absurd hj (Nat.not_lt_zero j)⟩
      · rintro ⟨_, h2⟩
        cases i with
        | zero => rfl
        | succ i => exact absurd hpre (h2 0 (Nat.succ_pos i))
    · have hpre : ¬ pat <+: [] := fun h => hp (List.isPrefixOf_iff_prefix.2 h)
      simp only [hp, List.drop_nil]
      constructor
      · intro h; cases h
      · rintro ⟨h1, _⟩; exact absurd h1 hpre
  | cons c r ih =>
    intro i
    unfold findStrFrom
    by_cases hp : pat.isPrefixOf (c :: r) = true
    · have hpre : pat <+: c :: r := List.isPrefixOf_iff_prefix.1 hp
      simp only [hp, if_true, Option.some.injEq]
      constructor
      · intro h; subst h
        exact ⟨hpre, fun j hj => absurd hj (Nat.not_lt_zero j)⟩
      · rintro ⟨_, h2⟩
        cases i with
        | zero => rfl
        | succ i => exact absurd hpre (h2 0 (Nat.succ_pos i))
    · have hpre : ¬ pat <+: c :: r := fun h => hp (List.isPrefixOf_iff_prefix.2 h)
      rw [if_neg hp]
      cases i with
      | zero =>
        constructor
        · intro h
          cases hf : findStrFrom pat r with
          | none => rw [hf] at h; cases h
          | some k => rw [hf] at h; simp at h
        · rintro ⟨h1, _⟩; exact absurd h1 hpre
      | succ i =>
        constructor
        · intro h
          cases hf : findStrFrom pat r with
          | none => rw [hf] at h; cases h
          | some k =>
            rw [hf] at h
            simp only [Option.map_some', Option.some.injEq, Nat.add_right_cancel_iff] at h
            subst h
            obtain ⟨h1, h2⟩ := (ih k).1 hf
            refine ⟨h1, ?_⟩
            intro j hj
            cases j with
            | zero => exact hpre
            | succ j => exact h2 j (Nat.lt_of_succ_lt_succ hj)
        · rintro ⟨h1, h2⟩
          have := (ih i).2 ⟨h1, fun j hj => h2 (j + 1) (Nat.succ_lt_succ hj)⟩
          rw [this]
          rfl

theorem findStrFrom_lt (pat s : Str) (i : Nat) (hp : pat ≠ [])
    (h : findStrFrom pat s = some i) : i + pat.length ≤ s.length := by
  have h1 := ((findStrFrom_eq_some pat s i).1 h).1
  have hl := h1.length_le
  rw [List.length_drop] at hl
  have : 0 < pat.length := List.length_pos.2 hp
  omega

theorem tokenKeyTest_of_length_five (key : Str) (h : key.length = 5) :
    tokenKeyTest key = true := by
  unfold tokenKeyTest findStr
  cases hf : findStrFrom ".token".toList key with
  | some i =>
    have := findStrFrom_lt _ _ _ (by decide) hf
    rw [h] at this
    simp at this
  | none =>
    rw [h]
    decide

theorem tokenKeyTest_iff (key : Str) (hlen : key.length < 2 ^ 64) :
    tokenKeyTest key = true ↔
      key.length = 5 ∨
        (6 ≤ key.length ∧ ".token".toList <:+ key ∧
          ∀ j < key.length - 6, ¬ ".token".toList <+: key.drop j) := by
  constructor
  · intro h
    by_cases h5 : key.length = 5
    · exact Or.inl h5
    · right
      unfold tokenKeyTest findStr at h
      rw [beq_iff_eq] at h
      cases hf : findStrFrom ".token".toList key with
      | none =>
        rw [hf] at h
        simp only [Option.getD_none, npos] at h
        omega
      | some i =>
        rw [hf] at h
        simp only [Option.getD_some] at h
        have hle := findStrFrom_lt _ _ _ (by decide) hf
        have hl6 : (".token".toList).length = 6 := rfl
        rw [hl6] at hle
        have hi : i = key.length - 6 := by omega
        obtain ⟨h1, h2⟩ := (findStrFrom_eq_some _ _ _).1 hf
        refine ⟨by omega, ?_, ?_⟩
        · have he : key.drop i = ".token".toList := by
            apply (List.IsPrefix.eq_of_length h1 _).symm
            rw [List.length_drop, hl6]; omega
          rw [← he]
          exact List.drop_suffix _ _
        · intro j hj
          exact h2 j (by omega)
  · rintro (h5 | ⟨h6, hs, hn⟩)
    · exact tokenKeyTest_of_length_five key h5
    · unfold tokenKeyTest findStr
      have hl6 : (".token".toList).length = 6 := rfl
      have hd : key.drop (key.length - 6) = ".token".toList := by
        obtain ⟨a, ha⟩ := hs
        rw [← ha, List.length_append, hl6, Nat.add_sub_cancel, List.drop_left]
      have hf : findStrFrom ".token".toList key = some (key.length - 6) := by
        apply (findStrFrom_eq_some _ _ _).2
        exact ⟨by rw [hd], hn⟩
      rw [hf, beq_iff_eq]
      simp only [Option.getD_some]
      omega

set_option maxRecDepth 100000 in
/-- C22: the code at failing inputs. The key `token`, five chars without the suffix
`.token`, passes the test of line 1546, because `find` fails with `2^64 - 1` and `5 - 6`
wraps to `2^64 - 1`; so its value is registered as a client token. The key `a.token.token`
has the suffix and does not pass the test, because `find` returns the first occurrence. For
every key, the test holds exactly when the key has five chars, or ends with `.token` and
has no `.token` at an earlier position. -/
theorem five_char_key_is_registered :
    tokenKeyTest "token".toList = true ∧ ¬ ".token".toList <:+ "token".toList ∧
    saveUsersOnClient (fun _ _ => []) (fun s => s)
        (some ⟨fun key d => if key = "token".toList then "secret".toList else d,
          ["token".toList]⟩)
      = [DaoAction.deleteAllUsersOnClient, DaoAction.addClientToken "secret".toList] ∧
    tokenKeyTest "a.token.token".toList = false ∧
    ".token".toList <:+ "a.token.token".toList ∧
    (∀ key : Str, key.length = 5 → tokenKeyTest key = true) ∧
    (∀ key : Str, key.length < 2 ^ 64 →
      (tokenKeyTest key = true ↔
        key.length = 5 ∨
          (6 ≤ key.length ∧ ".token".toList <:+ key ∧
            ∀ j < key.length - 6, ¬ ".token".toList <+: key.drop j))) := by
  refine ⟨by decide, by decide, by decide, by decide, by decide,
    tokenKeyTest_of_length_five, tokenKeyTest_iff⟩

/-! ## The skipped subtrees of `createUserView` -/

theorem viewStep_skip_file (os : OsEnv) (env : MetaEnv) (venv : ViewEnv) (mhp uvhp : Str)
    (ids : List Int) (roots : List Nat) (st : ViewState) (e : FileListEntry) (k : Nat)
    (hr : st.returned_false = false) (hs : st.skip = k + 1) (hf : e.cf.isdir = false) :
    viewStep os env venv mhp uvhp ids roots st e = { st with id := st.id + 1 } := by
  unfold viewStep
  rw [if_neg (by rw [hr]; exact Bool.false_ne_true), if_pos (by rw [hs]; exact Nat.succ_pos k),
    if_neg (by rw [hf]; exact Bool.false_ne_true)]

theorem viewStep_skip_dir (os : OsEnv) (env : MetaEnv) (venv : ViewEnv) (mhp uvhp : Str)
    (ids : List Int) (roots : List Nat) (st : ViewState) (e : FileListEntry) (k : Nat)
    (hr : st.returned_false = false) (hs : st.skip = k + 1) (hd : e.cf.isdir = true)
    (hn : (e.cf.name == dotdot) = false) :
    viewStep os env venv mhp uvhp ids roots st e
      = { st with skip := k + 2, id := st.id + 1 } := by
  unfold viewStep
  rw [if_neg (by rw [hr]; exact Bool.false_ne_true), if_pos (by rw [hs]; exact Nat.succ_pos k),
    if_pos hd, if_neg (by rw [hn]; exact Bool.false_ne_true), hs]

theorem viewStep_skip_up (os : OsEnv) (env : MetaEnv) (venv : ViewEnv) (mhp uvhp : Str)
    (ids : List Int) (roots : List Nat) (st : ViewState) (e : FileListEntry) (k : Nat)
    (hr : st.returned_false = false) (hs : st.skip = k + 2) (hd : e.cf.isdir = true)
    (hn : (e.cf.name == dotdot) = true) :
    viewStep os env venv mhp uvhp ids roots st e
      = { st with skip := k + 1, id := st.id + 1 } := by
  unfold viewStep
  rw [if_neg (by rw [hr]; exact Bool.false_ne_true),
    if_pos (by rw [hs]; exact Nat.succ_pos (k + 1)), if_pos hd, if_pos hn,
    if_neg (by rw [hs]; exact Nat.succ_ne_zero k), hs]
  rfl

theorem viewStep_skip_close (os : OsEnv) (env : MetaEnv) (venv : ViewEnv) (mhp uvhp : Str)
    (ids : List Int) (roots : List Nat) (st : ViewState) (e : FileListEntry)
    (hr : st.returned_false = false) (hs : st.skip = 1) (hd : e.cf.isdir = true)
    (hn : (e.cf.name == dotdot) = true) :
    viewStep os env venv mhp uvhp ids roots st e
      = { st with skip := 0, walk := leaveDir os st.walk, id := st.id + 1 } := by
  unfold viewStep
  rw [if_neg (by rw [hr]; exact Bool.false_ne_true),
    if_pos (by rw [hs]; exact Nat.succ_pos 0), if_pos hd, if_pos hn,
    if_pos (by rw [hs]), hs]

theorem skip_walk (os : OsEnv) (env : MetaEnv) (venv : ViewEnv) (mhp uvhp : Str)
    (ids : List Int) (roots : List Nat) (inner : List FileListEntry) :
    ∀ (st : ViewState) (d0 d : Nat), st.returned_false = false → st.skip = d0 + 1 →
      depthAfter d0 (inner.map fun e => e.cf) = some d →
      inner.foldl (viewStep os env venv mhp uvhp ids roots) st
        = { st with skip := d + 1, id := st.id + inner.length } := by
  induction inner with
  | nil =>
    intro st d0 d _ hs hd
    simp only [List.map_nil, depthAfter, Option.some.injEq] at hd
    subst hd
    simp [← hs]
  | cons e rest ih =>
    intro st d0 d hr hs hd
    rw [List.foldl_cons]
    simp only [List.map_cons, depthAfter] at hd
    cases hdir : e.cf.isdir
    · rw [hdir] at hd
      simp only [Bool.false_eq_true, if_false] at hd
      rw [viewStep_skip_file os env venv mhp uvhp ids roots st e d0 hr hs hdir,
        ih { st with id := st.id + 1 } d0 d hr hs hd]
      simp only [List.length_cons, ViewState.mk.injEq, true_and, and_true]
      omega
    · rw [hdir] at hd
      simp only [if_true] at hd
      cases hn : (e.cf.name == dotdot)
      · rw [hn] at hd
        simp only [Bool.false_eq_true, if_false] at hd
        rw [viewStep_skip_dir os env venv mhp uvhp ids roots st e d0 hr hs hdir hn,
          ih { st with skip := d0 + 2, id := st.id + 1 } (d0 + 1) d hr rfl hd]
        simp only [List.length_cons, ViewState.mk.injEq, true_and, and_true]
        omega
      · rw [hn] at hd
        simp only [if_true] at hd
        cases d0 with
        | zero => simp at hd
        | succ d1 =>
          simp only at hd
          rw [viewStep_skip_up os env venv mhp uvhp ids roots st e d1 hr hs hdir hn,
            ih { st with skip := d1 + 1, id := st.id + 1 } d1 d hr rfl hd]
          simp only [List.length_cons, ViewState.mk.injEq, true_and, and_true]
          omega

theorem viewDirIds_spec (env : MetaEnv) (venv : ViewEnv) (uvhp perms : Str)
    (roots : List Nat) (ids : List Int) :
    ∀ (st : ViewState) (hp : Bool),
      (viewDirIds env venv uvhp perms roots ids (st, hp)).1.returned_false = false →
      (viewDirIds env venv uvhp perms roots ids (st, hp)).1.walk = st.walk ∧
      (viewDirIds env venv uvhp perms roots ids (st, hp)).1.id = st.id ∧
      (viewDirIds env venv uvhp perms roots ids (st, hp)).2
        = (hp || ids.any fun id => env.hasPermission perms id) ∧
      (viewDirIds env venv uvhp perms roots ids (st, hp)).1.skip
        = (if (ids.any fun id => env.hasPermission perms id) && roots.contains st.id then 1
            else st.skip) ∧
      (viewDirIds env venv uvhp perms roots ids (st, hp)).1.actions
        = st.actions ++ List.replicate (countPermitted env ids perms)
            (if roots.contains st.id then
              ViewAction.os_link_symbolic
                (venv.os_file_prefix (venv.backuppath ++ st.walk.curr_path))
                (venv.os_file_prefix (uvhp ++ st.walk.curr_path))
            else
              ViewAction.os_create_dir (venv.os_file_prefix (uvhp ++ st.walk.curr_path))) := by
  induction ids with
  | nil =>
    intro st hp _
    simp [viewDirIds, countPermitted]
  | cons idj more ih =>
    intro st hp hok
    unfold viewDirIds at hok ⊢
    cases hperm : env.hasPermission perms idj
    · rw [hperm] at hok
      simp only [Bool.false_eq_true, if_false] at hok ⊢
      obtain ⟨h1, h2, h3, h4, h5⟩ := ih st hp hok
      refine ⟨h1, h2, ?_, ?_, ?_⟩
      · rw [h3]; simp [hperm]
      · rw [h4]; simp [hperm]
      · rw [h5]; simp [countPermitted, hperm]
    · rw [hperm] at hok
      simp only [if_true] at hok ⊢
      cases hroot : roots.contains st.id
      · rw [hroot] at hok
        simp only [Bool.false_eq_true, if_false] at hok ⊢
        cases hcall : (st.call venv
            (ViewAction.os_create_dir (venv.os_file_prefix (uvhp ++ st.walk.curr_path)))).returned_false
        · rw [hcall] at hok
          simp only [Bool.false_eq_true, if_false] at hok ⊢
          obtain ⟨h1, h2, h3, h4, h5⟩ := ih _ true hok
          refine ⟨h1, h2, ?_, ?_, ?_⟩
          · rw [h3]; simp [hperm]
          · rw [h4]
            have : (st.call venv (ViewAction.os_create_dir
                (venv.os_file_prefix (uvhp ++ st.walk.curr_path)))).id = st.id := rfl
            rw [this, hroot]
            simp [ViewState.call]
          · rw [h5]
            have : (st.call venv (ViewAction.os_create_dir
                (venv.os_file_prefix (uvhp ++ st.walk.curr_path)))).id = st.id := rfl
            rw [this, hroot]
            simp [ViewState.call, countPermitted, hperm, List.replicate_succ]
        · rw [hcall] at hok
          simp only [if_true] at hok
          rw [hok] at hcall
          cases hcall
      · rw [hroot] at hok
        simp only [if_true] at hok ⊢
        cases hcall : (st.call venv
            (ViewAction.os_link_symbolic
              (venv.os_file_prefix (venv.backuppath ++ st.walk.curr_path))
              (venv.os_file_prefix (uvhp ++ st.walk.curr_path)))).returned_false
        · rw [hcall] at hok
          simp only [Bool.false_eq_true, if_false] at hok ⊢
          obtain ⟨h1, h2, h3, h4, h5⟩ := ih _ true hok
          have hmem : st.id ∈ roots := by simpa using hroot
          refine ⟨h1, h2, ?_, ?_, ?_⟩
          · rw [h3]; simp [hperm]
          · rw [h4]
            simp [ViewState.call, hroot, hmem, hperm]
          · rw [h5]
            simp [ViewState.call, hroot, hmem, countPermitted, hperm, List.replicate_succ]
        · rw [hcall] at hok
          simp only [if_true] at hok
          rw [hok] at hcall
          cases hcall

theorem entryPermissions_dir (os : OsEnv) (env : MetaEnv) (mhp : Str) (w : WalkState)
    (cf : SFile) (hd : cf.isdir = true) (hn : (cf.name == dotdot) = false) :
    entryPermissions os env mhp w cf =
      ((env.read_metadata
          (mhp ++ (enterDir os (legalizeEntry os w cf).2 (legalizeEntry os w cf).1).curr_path
            ++ os.os_file_sep ++ env.metadata_dir_fn)).getD [],
        enterDir os (legalizeEntry os w cf).2 (legalizeEntry os w cf).1) := by
  unfold entryPermissions
  simp only [hd, hn, if_true, Bool.false_eq_true, if_false]

theorem viewStep_enter_eq (os : OsEnv) (env : MetaEnv) (venv : ViewEnv) (mhp uvhp : Str)
    (ids : List Int) (roots : List Nat) (st : ViewState) (e : FileListEntry)
    (hr : st.returned_false = false) (hs : st.skip = 0) (hd : e.cf.isdir = true)
    (hn : (e.cf.name == dotdot) = false) :
    viewStep os env venv mhp uvhp ids roots st e =
      (if (viewDirIds env venv uvhp (entryPermissions os env mhp st.walk e.cf).1 roots ids
            ({ st with walk := (entryPermissions os env mhp st.walk e.cf).2 },
              false)).1.returned_false then
        (viewDirIds env venv uvhp (entryPermissions os env mhp st.walk e.cf).1 roots ids
          ({ st with walk := (entryPermissions os env mhp st.walk e.cf).2 }, false)).1
      else if !(viewDirIds env venv uvhp (entryPermissions os env mhp st.walk e.cf).1 roots ids
            ({ st with walk := (entryPermissions os env mhp st.walk e.cf).2 }, false)).2 then
        { (viewDirIds env venv uvhp (entryPermissions os env mhp st.walk e.cf).1 roots ids
            ({ st with walk := (entryPermissions os env mhp st.walk e.cf).2 }, false)).1 with
          skip := 1
          id := (viewDirIds env venv uvhp (entryPermissions os env mhp st.walk e.cf).1 roots ids
            ({ st with walk := (entryPermissions os env mhp st.walk e.cf).2 },
              false)).1.id + 1 }
      else
        { (viewDirIds env venv uvhp (entryPermissions os env mhp st.walk e.cf).1 roots ids
            ({ st with walk := (entryPermissions os env mhp st.walk e.cf).2 }, false)).1 with
          id := (viewDirIds env venv uvhp (entryPermissions os env mhp st.walk e.cf).1 roots ids
            ({ st with walk := (entryPermissions os env mhp st.walk e.cf).2 },
              false)).1.id + 1 }) := by
  rw [entryPermissions_dir os env mhp st.walk e.cf hd hn]
  unfold viewStep
  rw [if_neg (by rw [hr]; exact Bool.false_ne_true), if_neg (by rw [hs]; exact Nat.lt_irrefl 0),
    if_pos hd, if_neg (by rw [hn]; exact Bool.false_ne_true)]

theorem viewStep_enter (os : OsEnv) (env : MetaEnv) (venv : ViewEnv) (mhp uvhp : Str)
    (ids : List Int) (roots : List Nat) (st : ViewState) (e : FileListEntry)
    (hr : st.returned_false = false) (hs : st.skip = 0) (hd : e.cf.isdir = true)
    (hn : (e.cf.name == dotdot) = false)
    (hok : (viewStep os env venv mhp uvhp ids roots st e).returned_false = false) :
    (viewStep os env venv mhp uvhp ids roots st e).walk
      = (entryPermissions os env mhp st.walk e.cf).2 ∧
    (viewStep os env venv mhp uvhp ids roots st e).id = st.id + 1 ∧
    (viewStep os env venv mhp uvhp ids roots st e).skip
      = (if (ids.any fun id =>
            env.hasPermission (entryPermissions os env mhp st.walk e.cf).1 id)
          && !roots.contains st.id then 0 else 1) ∧
    (viewStep os env venv mhp uvhp ids roots st e).actions
      = st.actions ++
          List.replicate (countPermitted env ids (entryPermissions os env mhp st.walk e.cf).1)
            (if roots.contains st.id then
              ViewAction.os_link_symbolic
                (venv.os_file_prefix
                  (venv.backuppath ++ (entryPermissions os env mhp st.walk e.cf).2.curr_path))
                (venv.os_file_prefix
                  (uvhp ++ (entryPermissions os env mhp st.walk e.cf).2.curr_path))
            else
              ViewAction.os_create_dir
                (venv.os_file_prefix
                  (uvhp ++ (entryPermissions os env mhp st.walk e.cf).2.curr_path))) := by
  rw [viewStep_enter_eq os env venv mhp uvhp ids roots st e hr hs hd hn] at hok ⊢
  cases hrf : (viewDirIds env venv uvhp (entryPermissions os env mhp st.walk e.cf).1 roots ids
      ({ st with walk := (entryPermissions os env mhp st.walk e.cf).2 }, false)).1.returned_false
  · obtain ⟨h1, h2, h3, h4, h5⟩ := viewDirIds_spec env venv uvhp
      (entryPermissions os env mhp st.walk e.cf).1 roots ids
      { st with walk := (entryPermissions os env mhp st.walk e.cf).2 } false hrf
    simp only [Bool.false_eq_true, if_false]
    rw [h3]
    cases hany : (ids.any fun id =>
        env.hasPermission (entryPermissions os env mhp st.walk e.cf).1 id)
    · have hc : countPermitted env ids (entryPermissions os env mhp st.walk e.cf).1 = 0 := by
        unfold countPermitted
        rw [List.length_eq_zero, List.filter_eq_nil_iff]
        intro a ha
        have := List.any_eq_false.1 hany a ha
        simpa using this
      simp only [Bool.false_or, Bool.not_false, if_true, Bool.false_and, Bool.false_eq_true,
        if_false]
      refine ⟨h1, by rw [h2], trivial, ?_⟩
      rw [h5, hc]
    · simp only [Bool.or_true, Bool.not_true, Bool.false_eq_true, if_false, Bool.true_and]
      refine ⟨h1, by rw [h2], ?_, h5⟩
      rw [h4, hany, hs]
      cases roots.contains st.id <;> rfl
  · rw [hrf] at hok
    simp only [if_true] at hok
    rw [hok] at hrf
    cases hrf

theorem viewFileIds_id (env : MetaEnv) (venv : ViewEnv) (uvhp permissions filename : Str)
    (ids : List Int) :
    ∀ st : ViewState, (viewFileIds env venv uvhp permissions filename ids st).id = st.id := by
  induction ids with
  | nil => intro st; rfl
  | cons idj more ih =>
    intro st
    unfold viewFileIds
    split
    · rfl
    · exact ih st

theorem viewStep_id (os : OsEnv) (env : MetaEnv) (venv : ViewEnv) (mhp uvhp : Str)
    (ids : List Int) (roots : List Nat) (st : ViewState) (e : FileListEntry)
    (hok : (viewStep os env venv mhp uvhp ids roots st e).returned_false = false) :
    (viewStep os env venv mhp uvhp ids roots st e).id = st.id + 1 := by
  cases hr : st.returned_false
  · cases hs : st.skip with
    | succ k =>
      cases hd : e.cf.isdir
      · rw [viewStep_skip_file os env venv mhp uvhp ids roots st e k hr hs hd]
      · cases hn : (e.cf.name == dotdot)
        · rw [viewStep_skip_dir os env venv mhp uvhp ids roots st e k hr hs hd hn]
        · cases k with
          | zero => rw [viewStep_skip_close os env venv mhp uvhp ids roots st e hr hs hd hn]
          | succ j => rw [viewStep_skip_up os env venv mhp uvhp ids roots st e j hr hs hd hn]
    | zero =>
      cases hd : e.cf.isdir
      · unfold viewStep at hok ⊢
        rw [if_neg (by rw [hr]; exact Bool.false_ne_true),
          if_neg (by rw [hs]; exact Nat.lt_irrefl 0),
          if_neg (by rw [hd]; exact Bool.false_ne_true)] at hok ⊢
        simp only [] at hok ⊢
        split
        · next h =>
          rw [if_pos h] at hok
          rw [hok] at h
          cases h
        · show (viewFileIds env venv uvhp [] _ ids _).id + 1 = _
          rw [viewFileIds_id]
      · cases hn : (e.cf.name == dotdot)
        · exact (viewStep_enter os env venv mhp uvhp ids roots st e hr hs hd hn hok).2.1
        · unfold viewStep
          rw [if_neg (by rw [hr]; exact Bool.false_ne_true),
            if_neg (by rw [hs]; exact Nat.lt_irrefl 0), if_pos hd, if_pos hn]
  · unfold viewStep at hok
    rw [if_pos hr] at hok
    rw [hok] at hr
    cases hr

theorem viewStep_returned (os : OsEnv) (env : MetaEnv) (venv : ViewEnv) (mhp uvhp : Str)
    (ids : List Int) (roots : List Nat) (es : List FileListEntry) :
    ∀ st : ViewState, st.returned_false = true →
      es.foldl (viewStep os env venv mhp uvhp ids roots) st = st := by
  induction es with
  | nil => intro st _; rfl
  | cons e rest ih =>
    intro st h
    have : viewStep os env venv mhp uvhp ids roots st e = st := by
      unfold viewStep
      rw [if_pos h]
    rw [List.foldl_cons, this, ih st h]

theorem view_ids (os : OsEnv) (env : MetaEnv) (venv : ViewEnv) (mhp uvhp : Str)
    (ids : List Int) (roots : List Nat) (es : List FileListEntry) :
    ∀ st : ViewState,
      (es.foldl (viewStep os env venv mhp uvhp ids roots) st).returned_false = false →
      (es.foldl (viewStep os env venv mhp uvhp ids roots) st).id = st.id + es.length := by
  induction es with
  | nil => intro st _; rfl
  | cons e rest ih =>
    intro st h
    rw [List.foldl_cons] at h ⊢
    cases hr : (viewStep os env venv mhp uvhp ids roots st e).returned_false
    · rw [ih _ h, viewStep_id os env venv mhp uvhp ids roots st e hr, List.length_cons]
      omega
    · rw [viewStep_returned os env venv mhp uvhp ids roots rest _ hr] at h
      rw [h] at hr
      cases hr

theorem dirStatStep_id (isdir isdotdot : Bool) (has_perm : Nat)
    (st : List SDirStatItem × List Nat × Nat) :
    (dirStatStep isdir isdotdot has_perm st).2.2 = st.2.2 + 1 := by
  unfold dirStatStep
  cases isdir <;> cases isdotdot <;> simp only [if_true, Bool.false_eq_true, if_false] <;>
    (split <;> (try split) <;> rfl)

theorem roots_ids (os : OsEnv) (env : MetaEnv) (mhp : Str) (ids : List Int)
    (es : List FileListEntry) :
    ∀ st : RootsState,
      (es.foldl (rootsStep os env mhp ids) st).stat.2.2 = st.stat.2.2 + es.length := by
  induction es with
  | nil => intro st; rfl
  | cons e rest ih =>
    intro st
    rw [List.foldl_cons, ih, List.length_cons]
    show (dirStatStep _ _ _ _).2.2 + _ = _
    rw [dirStatStep_id]
    omega

/-- C21: let `D` be a directory-enter entry met while nothing is skipped, and let the
function not return at it. If no id has permission on `D`, or one has and the id of `D` is
in `identical_permission_roots`, then `D` itself makes no call in the first case and only
calls that link `D` in the second; no entry inside the subtree of `D` makes a call, `skip`
stays positive there and `id` goes up by one per entry; behind the `..` that closes `D`
the walk goes on with `skip = 0`, the folder `D` left and the stack of name sets as in
front of `D`. On every filelist the `id` of `createUserView` and the `curr_id` of
`findIdenticalPermissionRoots` are the number of entries read so far. -/
theorem createUserView_subtree_collapse (os : OsEnv) (env : MetaEnv) (venv : ViewEnv)
    (mhp uvhp : Str) (ids : List Int) (roots : List Nat) (st : ViewState)
    (D up : FileListEntry) (inner rest : List FileListEntry)
    (hr : st.returned_false = false) (hs : st.skip = 0)
    (hD : D.cf.isdir = true) (hDn : (D.cf.name == dotdot) = false)
    (hup : up.cf.isdir = true) (hupn : (up.cf.name == dotdot) = true)
    (hin : depthAfter 0 (inner.map fun e => e.cf) = some 0)
    (hok : (viewStep os env venv mhp uvhp ids roots st D).returned_false = false)
    (hcollapse :
      ((ids.any fun id => env.hasPermission (entryPermissions os env mhp st.walk D.cf).1 id)
          = true ∧ roots.contains st.id = true) ∨
        (ids.any fun id => env.hasPermission (entryPermissions os env mhp st.walk D.cf).1 id)
          = false) :
    ((ids.any fun id => env.hasPermission (entryPermissions os env mhp st.walk D.cf).1 id)
        = false →
      (viewStep os env venv mhp uvhp ids roots st D).actions = st.actions) ∧
    (roots.contains st.id = true →
      (viewStep os env venv mhp uvhp ids roots st D).actions
        = st.actions ++
          List.replicate (countPermitted env ids (entryPermissions os env mhp st.walk D.cf).1)
            (ViewAction.os_link_symbolic
              (venv.os_file_prefix
                (venv.backuppath ++ (entryPermissions os env mhp st.walk D.cf).2.curr_path))
              (venv.os_file_prefix
                (uvhp ++ (entryPermissions os env mhp st.walk D.cf).2.curr_path)))) ∧
    (∀ (pre : List FileListEntry) (d : Nat),
      depthAfter 0 (pre.map fun e => e.cf) = some d →
      pre.foldl (viewStep os env venv mhp uvhp ids roots)
          (viewStep os env venv mhp uvhp ids roots st D)
        = { walk := (entryPermissions os env mhp st.walk D.cf).2
            skip := d + 1
            id := st.id + 1 + pre.length
            actions := (viewStep os env venv mhp uvhp ids roots st D).actions
            returned_false := false }) ∧
    (D :: (inner ++ up :: rest)).foldl (viewStep os env venv mhp uvhp ids roots) st
      = rest.foldl (viewStep os env venv mhp uvhp ids roots)
          { walk :=
              { curr_path :=
                  os.ExtractFilePath
                    (st.walk.curr_path ++ os.os_file_sep ++ (legalizeEntry os st.walk D.cf).1)
                    os.os_file_sep
                folder_files := (legalizeEntry os st.walk D.cf).2.folder_files
                filepath_corrections := (legalizeEntry os st.walk D.cf).2.filepath_corrections }
            skip := 0
            id := st.id + 1 + inner.length + 1
            actions := (viewStep os env venv mhp uvhp ids roots st D).actions
            returned_false := false } ∧
    (∀ (es : List FileListEntry) (s0 : ViewState),
      (es.foldl (viewStep os env venv mhp uvhp ids roots) s0).returned_false = false →
      (es.foldl (viewStep os env venv mhp uvhp ids roots) s0).id = s0.id + es.length) ∧
    (∀ (es : List FileListEntry) (r0 : RootsState),
      (es.foldl (rootsStep os env mhp ids) r0).stat.2.2 = r0.stat.2.2 + es.length) := by
  obtain ⟨h1, h2, h3, h4⟩ := viewStep_enter os env venv mhp uvhp ids roots st D hr hs hD hDn hok
  have hskip : (viewStep os env venv mhp uvhp ids roots st D).skip = 0 + 1 := by
    rw [h3]
    rcases hcollapse with ⟨ha, hc⟩ | ha
    · rw [ha, hc]; rfl
    · rw [ha]; rfl
  have hinside : ∀ (pre : List FileListEntry) (d : Nat),
      depthAfter 0 (pre.map fun e => e.cf) = some d →
      pre.foldl (viewStep os env venv mhp uvhp ids roots)
          (viewStep os env venv mhp uvhp ids roots st D)
        = { walk := (entryPermissions os env mhp st.walk D.cf).2
            skip := d + 1
            id := st.id + 1 + pre.length
            actions := (viewStep os env venv mhp uvhp ids roots st D).actions
            returned_false := false } := by
    intro pre d hpre
    rw [skip_walk os env venv mhp uvhp ids roots pre _ 0 d hok hskip hpre, h1, h2, hok]
  refine ⟨?_, ?_, hinside, ?_, view_ids os env venv mhp uvhp ids roots,
    roots_ids os env mhp ids⟩
  · intro ha
    have hc : countPermitted env ids (entryPermissions os env mhp st.walk D.cf).1 = 0 := by
      unfold countPermitted
      rw [List.length_eq_zero, List.filter_eq_nil_iff]
      intro a hmem
      have := List.any_eq_false.1 ha a hmem
      simpa using this
    rw [h4, hc]
    simp
  · intro hc
    rw [h4, hc]
    rfl
  · rw [List.foldl_cons, List.foldl_append, hinside inner 0 hin, List.foldl_cons,
      viewStep_skip_close os env venv mhp uvhp ids roots _ up rfl rfl hup hupn,
      entryPermissions_dir os env mhp st.walk D.cf hD hDn]
    have hcp : (legalizeEntry os st.walk D.cf).2.curr_path = st.walk.curr_path := by
      unfold legalizeEntry
      split <;> rfl
    simp only [leaveDir, enterDir, List.tail_cons, hcp]

set_option maxRecDepth 100000 in
/-- C21, witness: the directory `D` with the ten files `f0` to `f9`, one id that has
permission on everything, and the id 0 of `D` in `identical_permission_roots`: behind the
ten files the only call made is the link of `D`, and the whole run makes this link and the
calls for the folders and the two links of the view, no link of a file. -/
theorem createUserView_subtree_collapse_witness :
    depthAfter 0 (("0123456789".toList.map fun c => (⟨⟨['f', c], 1, false⟩, []⟩ : FileListEntry)).map fun e => e.cf) = some 0 ∧
    (viewStep (Posix.osEnv GenerateHexMD5)
      ⟨fun _ => some "allow".toList, fun permissions _ => !permissions.isEmpty,
        ".dir_metadata".toList, fun s => s⟩
      ⟨"/backups".toList, "client".toList, "/backups/client/b1".toList, "b1".toList,
        fun s => s, fun _ _ => false, fun _ _ => true⟩
      "/backups/client/b1/.hashes".toList "/backups/client/b1/user_views/u".toList [1000] [0]
      ⟨⟨[], [[]], fun _ => none⟩, 0, 0, [], false⟩ ⟨⟨"D".toList, 0, true⟩, []⟩).returned_false = false ∧
    (("0123456789".toList.map fun c => (⟨⟨['f', c], 1, false⟩, []⟩ : FileListEntry)).foldl
      (viewStep (Posix.osEnv GenerateHexMD5)
      ⟨fun _ => some "allow".toList, fun permissions _ => !permissions.isEmpty,
        ".dir_metadata".toList, fun s => s⟩
      ⟨"/backups".toList, "client".toList, "/backups/client/b1".toList, "b1".toList,
        fun s => s, fun _ _ => false, fun _ _ => true⟩
      "/backups/client/b1/.hashes".toList "/backups/client/b1/user_views/u".toList [1000] [0])
      (viewStep (Posix.osEnv GenerateHexMD5)
      ⟨fun _ => some "allow".toList, fun permissions _ => !permissions.isEmpty,
        ".dir_metadata".toList, fun s => s⟩
      ⟨"/backups".toList, "client".toList, "/backups/client/b1".toList, "b1".toList,
        fun s => s, fun _ _ => false, fun _ _ => true⟩
      "/backups/client/b1/.hashes".toList "/backups/client/b1/user_views/u".toList [1000] [0]
        ⟨⟨[], [[]], fun _ => none⟩, 0, 0, [], false⟩ ⟨⟨"D".toList, 0, true⟩, []⟩)).actions
      = [ViewAction.os_link_symbolic "/backups/client/b1/D".toList
          "/backups/client/b1/user_views/u/D".toList] ∧
    (createUserView (Posix.osEnv GenerateHexMD5)
        ⟨fun _ => some "allow".toList, fun permissions _ => !permissions.isEmpty,
        ".dir_metadata".toList, fun s => s⟩
        ⟨"/backups".toList, "client".toList, "/backups/client/b1".toList, "b1".toList,
        fun s => s, fun _ _ => false, fun _ _ => true⟩
        (fun _ => none)
        (⟨⟨"D".toList, 0, true⟩, []⟩ :: (("0123456789".toList.map fun c => (⟨⟨['f', c], 1, false⟩, []⟩ : FileListEntry)) ++ [⟨⟨"..".toList, 0, true⟩, []⟩])) [1000] "u".toList [0]).1 = true ∧
    (createUserView (Posix.osEnv GenerateHexMD5)
        ⟨fun _ => some "allow".toList, fun permissions _ => !permissions.isEmpty,
        ".dir_metadata".toList, fun s => s⟩
        ⟨"/backups".toList, "client".toList, "/backups/client/b1".toList, "b1".toList,
        fun s => s, fun _ _ => false, fun _ _ => true⟩
        (fun _ => none)
        (⟨⟨"D".toList, 0, true⟩, []⟩ :: (("0123456789".toList.map fun c => (⟨⟨['f', c], 1, false⟩, []⟩ : FileListEntry)) ++ [⟨⟨"..".toList, 0, true⟩, []⟩])) [1000] "u".toList [0]).2.1
      = [ViewAction.os_create_dir_recursive "/backups/client/b1/user_views/u".toList,
         ViewAction.os_link_symbolic "/backups/client/b1/D".toList
           "/backups/client/b1/user_views/u/D".toList,
         ViewAction.os_create_dir_recursive "/backups/user_views/client/u".toList,
         ViewAction.os_link_symbolic "/backups/client/b1/user_views/u".toList
           "/backups/user_views/client/u/b1".toList,
         ViewAction.os_remove_symlink_dir "/backups/user_views/client/u/current".toList,
         ViewAction.os_link_symbolic "/backups/client/b1/user_views/u".toList
           "/backups/user_views/client/u/current".toList] :=
  ⟨by decide, by decide,
    (congrArg ViewState.actions
      ((createUserView_subtree_collapse (Posix.osEnv GenerateHexMD5)
      ⟨fun _ => some "allow".toList, fun permissions _ => !permissions.isEmpty,
        ".dir_metadata".toList, fun s => s⟩
      ⟨"/backups".toList, "client".toList, "/backups/client/b1".toList, "b1".toList,
        fun s => s, fun _ _ => false, fun _ _ => true⟩
      "/backups/client/b1/.hashes".toList "/backups/client/b1/user_views/u".toList [1000] [0]
        ⟨⟨[], [[]], fun _ => none⟩, 0, 0, [], false⟩ ⟨⟨"D".toList, 0, true⟩, []⟩ ⟨⟨"..".toList, 0, true⟩, []⟩
        ("0123456789".toList.map fun c => (⟨⟨['f', c], 1, false⟩, []⟩ : FileListEntry)) [] rfl rfl rfl (by decide) rfl (by decide) (by decide) (by decide)
        (Or.inl ⟨by decide, by decide⟩)).2.2.1
        ("0123456789".toList.map fun c => (⟨⟨['f', c], 1, false⟩, []⟩ : FileListEntry)) 0 (by decide))).trans (by decide),
    by decide, by decide⟩

/-! ## `getIncrementalSize` -/

theorem wrapInt64_add (a b : Int) : wrapInt64 (wrapInt64 a + b) = wrapInt64 (a + b) := by
  unfold wrapInt64
  omega

theorem wrapInt64_idem (a : Int) : wrapInt64 (wrapInt64 a) = wrapInt64 a := by
  unfold wrapInt64
  omega

theorem wrapInt64_of_range (x : Int) (h1 : 0 ≤ x) (h2 : x < 2 ^ 63) : wrapInt64 x = x := by
  unfold wrapInt64
  omega

theorem incrStep_file (diffs : List Nat) (all : Bool) (st : IncrState) (cf : SFile)
    (hf : cf.isdir = false) :
    incrStep diffs all st cf =
      { st with
        rsize :=
          (if (st.indirchange || hasChange st.line diffs) && decide (cf.size > 0)
            then wrapInt64 (st.rsize + cf.size) else st.rsize)
        line := st.line + 1 } := by
  unfold incrStep
  rw [if_neg (by rw [hf]; exact Bool.false_ne_true)]
  by_cases h1 : (st.indirchange || hasChange st.line diffs) = true
  · by_cases h2 : cf.size > 0
    · simp [h1, h2]
    · simp [h1, h2]
  · simp [h1]

theorem incrStep_file_rsize (diffs : List Nat) (all : Bool) (st : IncrState) (cf : SFile)
    (hf : cf.isdir = false) :
    wrapInt64 (incrStep diffs all st cf).rsize =
      wrapInt64 (st.rsize +
        (if (st.indirchange || hasChange st.line diffs) && decide (cf.size > 0)
          then cf.size else 0)) := by
  rw [incrStep_file diffs all st cf hf]
  show wrapInt64 (if _ then _ else _) = _
  split
  · exact wrapInt64_idem _
  · rw [Int.add_zero]

theorem incrStep_dir_fields (diffs : List Nat) (all : Bool) (st : IncrState) (cf : SFile)
    (hd : cf.isdir = true) :
    (incrStep diffs all st cf).rsize = st.rsize ∧
    (incrStep diffs all st cf).line = st.line + 1 ∧
    (incrStep diffs all st cf).depth = (if cf.name == dotdot then st.depth - 1 else st.depth + 1) ∧
    (incrStep diffs all st cf).changelevel =
      (if st.indirchange == false && hasChange st.line diffs then st.depth
        else st.changelevel) ∧
    (incrStep diffs all st cf).indirchange =
      ((st.indirchange || hasChange st.line diffs) &&
        !((cf.name == dotdot) && !all &&
          decide (st.depth - 1 =
            if st.indirchange == false && hasChange st.line diffs then st.depth
            else st.changelevel))) := by
  unfold incrStep
  rw [if_pos hd]
  cases hi : st.indirchange <;> cases hc : hasChange st.line diffs <;>
    cases hn : (cf.name == dotdot) <;> cases all <;>
    simp [hi, hc, hn, bne] <;>
    (try (split <;> (try split) <;> simp_all))

theorem allSizeRef_nonneg (entries : List SFile) : 0 ≤ allSizeRef entries := by
  induction entries with
  | nil => exact le_refl _
  | cons cf rest ih =>
    rw [allSizeRef]
    split
    · next h =>
      simp only [Bool.and_eq_true, decide_eq_true_eq] at h
      omega
    · omega

theorem incrementalSizeRef_bounds (diffs : List Nat) (entries : List SFile) :
    ∀ (index : Nat) (opened : List Nat),
      0 ≤ incrementalSizeRef diffs index opened entries ∧
      incrementalSizeRef diffs index opened entries ≤ allSizeRef entries := by
  induction entries with
  | nil => intro index opened; simp [incrementalSizeRef, allSizeRef]
  | cons cf rest ih =>
    intro index opened
    rw [incrementalSizeRef, allSizeRef]
    cases hd : cf.isdir
    · have h := ih (index + 1) opened
      simp only [Bool.false_eq_true, if_false, Bool.not_false, Bool.true_and]
      by_cases hs : cf.size > 0
      · simp only [hs, decide_True, Bool.and_true, if_true]
        split <;> omega
      · simp only [hs, decide_False, Bool.and_false, Bool.false_eq_true, if_false]
        omega
    · simp only [if_true, Bool.not_true, Bool.false_and, Bool.false_eq_true, if_false]
      split
      · have h := ih (index + 1) opened.tail
        omega
      · have h := ih (index + 1) (index :: opened)
        omega

theorem incr_fix (diffs : List Nat) (all : Bool) (entries : List SFile) :
    ∀ st : IncrState, wrapInt64 st.rsize = st.rsize →
      wrapInt64 (entries.foldl (incrStep diffs all) st).rsize
        = (entries.foldl (incrStep diffs all) st).rsize := by
  induction entries with
  | nil => intro st h; exact h
  | cons cf rest ih =>
    intro st h
    rw [List.foldl_cons]
    apply ih
    cases hd : cf.isdir
    · rw [incrStep_file diffs all st cf hd]
      show wrapInt64 (if _ then _ else _) = (if _ then _ else _)
      split
      · exact wrapInt64_idem _
      · exact h
    · rw [(incrStep_dir_fields diffs all st cf hd).1]
      exact h

theorem incr_all (diffs : List Nat) (entries : List SFile) :
    ∀ st : IncrState, st.indirchange = true →
      wrapInt64 (entries.foldl (incrStep diffs true) st).rsize
        = wrapInt64 (st.rsize + allSizeRef entries) := by
  induction entries with
  | nil => intro st _; simp [allSizeRef]
  | cons cf rest ih =>
    intro st hi
    rw [List.foldl_cons, allSizeRef]
    cases hd : cf.isdir
    · rw [ih (incrStep diffs true st cf)
        (by rw [incrStep_file diffs true st cf hd]; exact hi),
        ← wrapInt64_add, incrStep_file_rsize diffs true st cf hd, wrapInt64_add]
      simp only [hi, Bool.true_or, Bool.true_and, Bool.not_false, Int.add_assoc]
    · obtain ⟨h1, _, _, _, h5⟩ := incrStep_dir_fields diffs true st cf hd
      rw [ih _ (by rw [h5, hi]; simp), h1]
      simp

theorem incr_sub (diffs : List Nat) (all : Bool) (entries : List SFile) :
    ∀ st : IncrState, ∃ S : Int, 0 ≤ S ∧ S ≤ allSizeRef entries ∧
      wrapInt64 (entries.foldl (incrStep diffs all) st).rsize = wrapInt64 (st.rsize + S) := by
  induction entries with
  | nil => intro st; exact ⟨0, le_refl _, le_refl _, by simp⟩
  | cons cf rest ih =>
    intro st
    rw [List.foldl_cons, allSizeRef]
    obtain ⟨S, h0, h1, h2⟩ := ih (incrStep diffs all st cf)
    cases hd : cf.isdir
    · refine ⟨(if (st.indirchange || hasChange st.line diffs) && decide (cf.size > 0)
          then cf.size else 0) + S, ?_, ?_, ?_⟩
      · split
        · next h =>
          simp only [Bool.and_eq_true, decide_eq_true_eq] at h
          omega
        · omega
      · simp only [Bool.not_false, Bool.true_and]
        by_cases hs : cf.size > 0
        · simp only [hs, decide_True, Bool.and_true, if_true]
          split <;> omega
        · simp only [hs, decide_False, Bool.and_false, Bool.false_eq_true, if_false]
          omega
      · rw [h2, ← wrapInt64_add, incrStep_file_rsize diffs all st cf hd, wrapInt64_add,
          Int.add_assoc]
    · refine ⟨S, h0, ?_, ?_⟩
      · simp only [Bool.not_true, Bool.false_and, Bool.false_eq_true, if_false]
        omega
      · rw [h2, (incrStep_dir_fields diffs all st cf hd).1]

theorem incr_no_diffs (entries : List SFile) :
    ∀ st : IncrState, st.indirchange = false →
      (entries.foldl (incrStep [] false) st).rsize = st.rsize := by
  induction entries with
  | nil => intro st _; rfl
  | cons cf rest ih =>
    intro st hi
    rw [List.foldl_cons]
    cases hd : cf.isdir
    · rw [ih (incrStep [] false st cf)
        (by rw [incrStep_file [] false st cf hd]; exact hi),
        incrStep_file [] false st cf hd]
      simp [hi, hasChange]
    · obtain ⟨h1, _, _, _, h5⟩ := incrStep_dir_fields [] false st cf hd
      rw [ih _ (by rw [h5, hi]; simp [hasChange]), h1]

theorem contains_iff_mem (l : List Nat) (a : Nat) : l.contains a = true ↔ a ∈ l := by
  simp

theorem any_contains_false (diffs opened : List Nat) (h : ∀ j ∈ opened, j ∉ diffs) :
    (opened.any fun j => diffs.contains j) = false := by
  rw [Bool.eq_false_iff]
  intro ha
  obtain ⟨j, hj, hc⟩ := List.any_eq_true.1 ha
  exact h j hj ((contains_iff_mem _ _).1 hc)

theorem any_contains_true (diffs upper lower : List Nat) (j0 : Nat) (h : j0 ∈ diffs) :
    ((upper ++ j0 :: lower).any fun j => diffs.contains j) = true :=
  List.any_eq_true.2 ⟨j0, by simp, (contains_iff_mem _ _).2 h⟩

theorem hasChange_false (line : Nat) (diffs : List Nat) (h : line ∉ diffs) :
    hasChange line diffs = false := by
  unfold hasChange
  rw [Bool.eq_false_iff]
  exact fun hc => h ((contains_iff_mem _ _).1 hc)

theorem hasChange_true (line : Nat) (diffs : List Nat) (h : line ∈ diffs) :
    hasChange line diffs = true :=
  (contains_iff_mem _ _).2 h

theorem incr_main (diffs : List Nat) (entries : List SFile) :
    (∀ (st : IncrState) (index : Nat) (opened : List Nat),
      st.line = index → st.depth = opened.length → st.indirchange = false →
      (∀ j ∈ opened, j ∉ diffs) → (depthAfter opened.length entries).isSome = true →
      (∀ j ∈ dotdotIndices index entries, j ∉ diffs) →
      wrapInt64 (entries.foldl (incrStep diffs false) st).rsize
        = wrapInt64 (st.rsize + incrementalSizeRef diffs index opened entries)) ∧
    (∀ (st : IncrState) (index : Nat) (upper : List Nat) (j0 : Nat) (lower : List Nat),
      st.line = index → st.depth = (upper ++ j0 :: lower).length → st.indirchange = true →
      st.changelevel = lower.length → j0 ∈ diffs → (∀ j ∈ lower, j ∉ diffs) →
      (depthAfter (upper ++ j0 :: lower).length entries).isSome = true →
      (∀ j ∈ dotdotIndices index entries, j ∉ diffs) →
      wrapInt64 (entries.foldl (incrStep diffs false) st).rsize
        = wrapInt64
            (st.rsize + incrementalSizeRef diffs index (upper ++ j0 :: lower) entries)) := by
  induction entries with
  | nil =>
    constructor
    · intros; simp [incrementalSizeRef]
    · intros; simp [incrementalSizeRef]
  | cons cf rest ih =>
    obtain ⟨ihA, ihB⟩ := ih
    constructor
    · intro st index opened hline hdepth hi hno hwn hdd
      rw [List.foldl_cons]
      cases hd : cf.isdir
      · -- a file outside every changed directory
        have hwn2 : (depthAfter opened.length rest).isSome = true := by
          simpa [depthAfter, hd] using hwn
        have hdd2 : ∀ j ∈ dotdotIndices (index + 1) rest, j ∉ diffs := by
          intro j hj; apply hdd; simp [dotdotIndices, hd, hj]
        have hnext := ihA (incrStep diffs false st cf) (index + 1) opened
          (by rw [incrStep_file diffs false st cf hd]; simp [hline])
          (by rw [incrStep_file diffs false st cf hd]; exact hdepth)
          (by rw [incrStep_file diffs false st cf hd]; exact hi) hno hwn2 hdd2
        rw [hnext, ← wrapInt64_add, incrStep_file_rsize diffs false st cf hd, wrapInt64_add,
          incrementalSizeRef]
        simp only [hd, Bool.false_eq_true, if_false, hi, Bool.false_or,
          any_contains_false diffs opened hno, Bool.or_false, hasChange, hline]
        rw [Int.add_assoc]
      · obtain ⟨h1, h2, h3, h4, h5⟩ := incrStep_dir_fields diffs false st cf hd
        cases hn : (cf.name == dotdot)
        · -- a directory is entered
          have hwn2 : (depthAfter (opened.length + 1) rest).isSome = true := by
            simpa [depthAfter, hd, hn] using hwn
          have hdd2 : ∀ j ∈ dotdotIndices (index + 1) rest, j ∉ diffs := by
            intro j hj; apply hdd; simp [dotdotIndices, hd, hn, hj]
          rw [incrementalSizeRef]
          simp only [hd, hn, if_true, Bool.false_eq_true, if_false]
          by_cases hc : index ∈ diffs
          · have hch : hasChange st.line diffs = true := by
              rw [hline]; exact hasChange_true _ _ hc
            have hnext := ihB (incrStep diffs false st cf) (index + 1) [] index opened
              (by rw [h2, hline])
              (by rw [h3, hn, hdepth]; simp)
              (by rw [h5, hi, hch, hn]; rfl)
              (by rw [h4, hi, hch]; simpa using hdepth)
              hc hno (by simpa using hwn2) hdd2
            rw [hnext, h1]
            rfl
          · have hch : hasChange st.line diffs = false := by
              rw [hline]; exact hasChange_false _ _ hc
            have hnext := ihA (incrStep diffs false st cf) (index + 1) (index :: opened)
              (by rw [h2, hline])
              (by rw [h3, hn, hdepth]; simp)
              (by rw [h5, hi, hch]; rfl)
              (by
                intro j hj
                rcases List.mem_cons.1 hj with hj | hj
                · rw [hj]; exact hc
                · exact hno j hj)
              (by simpa using hwn2) hdd2
            rw [hnext, h1]
        · -- a directory is left
          have hc : index ∉ diffs := by
            apply hdd; simp [dotdotIndices, hd, hn]
          have hch : hasChange st.line diffs = false := by
            rw [hline]; exact hasChange_false _ _ hc
          have hdd2 : ∀ j ∈ dotdotIndices (index + 1) rest, j ∉ diffs := by
            intro j hj; apply hdd; simp [dotdotIndices, hd, hn, hj]
          cases opened with
          | nil => simp [depthAfter, hd, hn] at hwn
          | cons o os =>
            have hwn2 : (depthAfter os.length rest).isSome = true := by
              simpa [depthAfter, hd, hn] using hwn
            rw [incrementalSizeRef]
            simp only [hd, hn, if_true, List.tail_cons]
            have hnext := ihA (incrStep diffs false st cf) (index + 1) os
              (by rw [h2, hline])
              (by rw [h3, hn, hdepth]; simp)
              (by rw [h5, hi, hch]; rfl)
              (fun j hj => hno j (List.mem_cons_of_mem _ hj)) hwn2 hdd2
            rw [hnext, h1]
    · intro st index upper j0 lower hline hdepth hi hcl hj0 hno hwn hdd
      rw [List.foldl_cons]
      cases hd : cf.isdir
      · -- a file inside a changed directory
        have hwn2 : (depthAfter (upper ++ j0 :: lower).length rest).isSome = true := by
          simpa [depthAfter, hd] using hwn
        have hdd2 : ∀ j ∈ dotdotIndices (index + 1) rest, j ∉ diffs := by
          intro j hj; apply hdd; simp [dotdotIndices, hd, hj]
        have hnext := ihB (incrStep diffs false st cf) (index + 1) upper j0 lower
          (by rw [incrStep_file diffs false st cf hd]; simp [hline])
          (by rw [incrStep_file diffs false st cf hd]; exact hdepth)
          (by rw [incrStep_file diffs false st cf hd]; exact hi)
          (by rw [incrStep_file diffs false st cf hd]; exact hcl) hj0 hno hwn2 hdd2
        rw [hnext, ← wrapInt64_add, incrStep_file_rsize diffs false st cf hd, wrapInt64_add,
          incrementalSizeRef]
        simp only [hd, Bool.false_eq_true, if_false, hi, Bool.true_or,
          any_contains_true diffs upper lower j0 hj0, Bool.or_true]
        rw [Int.add_assoc]
      · obtain ⟨h1, h2, h3, h4, h5⟩ := incrStep_dir_fields diffs false st cf hd
        cases hn : (cf.name == dotdot)
        · -- a directory inside a changed directory is entered
          have hwn2 : (depthAfter ((upper ++ j0 :: lower).length + 1) rest).isSome = true := by
            simpa [depthAfter, hd, hn] using hwn
          have hdd2 : ∀ j ∈ dotdotIndices (index + 1) rest, j ∉ diffs := by
            intro j hj; apply hdd; simp [dotdotIndices, hd, hn, hj]
          rw [incrementalSizeRef]
          simp only [hd, hn, if_true, Bool.false_eq_true, if_false]
          have hnext := ihB (incrStep diffs false st cf) (index + 1) (index :: upper) j0 lower
            (by rw [h2, hline])
            (by rw [h3, hn, hdepth]; simp)
            (by rw [h5, hi, hn]; rfl)
            (by rw [h4, hi]; simpa using hcl)
            hj0 hno (by simpa using hwn2) hdd2
          rw [hnext, h1]
          rfl
        · -- a directory inside a changed directory, or the changed directory, is left
          have hdd2 : ∀ j ∈ dotdotIndices (index + 1) rest, j ∉ diffs := by
            intro j hj; apply hdd; simp [dotdotIndices, hd, hn, hj]
          rw [incrementalSizeRef]
          simp only [hd, hn, if_true]
          cases upper with
          | nil =>
            have hwn2 : (depthAfter lower.length rest).isSome = true := by
              simpa [depthAfter, hd, hn] using hwn
            have hnext := ihA (incrStep diffs false st cf) (index + 1) lower
              (by rw [h2, hline])
              (by rw [h3, hn, hdepth]; simp)
              (by rw [h5, hi, hn, hdepth, hcl]; simp)
              hno hwn2 hdd2
            rw [hnext, h1]
            rfl
          | cons u us =>
            have hwn2 : (depthAfter (us ++ j0 :: lower).length rest).isSome = true := by
              simpa [depthAfter, hd, hn] using hwn
            have hnext := ihB (incrStep diffs false st cf) (index + 1) us j0 lower
              (by rw [h2, hline])
              (by rw [h3, hn, hdepth]; simp)
              (by
                rw [h5, hi, hn, hdepth, hcl]
                simp only [List.cons_append, List.length_cons, List.length_append]
                simp
                omega)
              (by rw [h4, hi]; simpa using hcl)
              hj0 hno hwn2 hdd2
            rw [hnext, h1]
            rfl


theorem getIncrementalSize_fix (entries : List SFile) (diffs : List Nat) (all : Bool) :
    wrapInt64 (getIncrementalSize entries diffs all) = getIncrementalSize entries diffs all :=
  incr_fix diffs all entries _ rfl

theorem getIncrementalSize_all (entries : List SFile) (diffs : List Nat) :
    getIncrementalSize entries diffs true = wrapInt64 (allSizeRef entries) := by
  rw [← getIncrementalSize_fix]
  unfold getIncrementalSize
  rw [incr_all diffs entries _ rfl, Int.zero_add]

theorem getIncrementalSize_diffs (entries : List SFile) (diffs : List Nat)
    (hwn : (depthAfter 0 entries).isSome = true)
    (hdd : ∀ j ∈ dotdotIndices 0 entries, j ∉ diffs) :
    getIncrementalSize entries diffs false
      = wrapInt64 (incrementalSizeRef diffs 0 [] entries) := by
  rw [← getIncrementalSize_fix]
  unfold getIncrementalSize
  rw [(incr_main diffs entries).1 _ 0 [] rfl rfl rfl (fun j hj => by cases hj) hwn hdd,
    Int.zero_add]

theorem getIncrementalSize_sub (entries : List SFile) (diffs : List Nat) (all : Bool) :
    ∃ S : Int, 0 ≤ S ∧ S ≤ allSizeRef entries ∧
      getIncrementalSize entries diffs all = wrapInt64 S := by
  obtain ⟨S, h0, h1, h2⟩ := incr_sub diffs all entries
    { rsize := 0, indirchange := all, line := 0, indir_currdepth := 0, depth := 0,
      changelevel := 0 }
  refine ⟨S, h0, h1, ?_⟩
  rw [← getIncrementalSize_fix]
  unfold getIncrementalSize
  rw [h2, Int.zero_add]

/-- C23, as stated, fails: with two files of `2^63 - 1` bytes each the accumulator `rsize`
wraps, and the result with `all = true` is -2: negative, and not the sum `2^64 - 2` of the
sizes. -/
theorem incremental_size_wraps :
    (depthAfter 0
      [⟨"a".toList, 9223372036854775807, false⟩,
        ⟨"b".toList, 9223372036854775807, false⟩]).isSome = true ∧
    getIncrementalSize
      [⟨"a".toList, 9223372036854775807, false⟩,
        ⟨"b".toList, 9223372036854775807, false⟩] [] true = -2 ∧
    allSizeRef
      [⟨"a".toList, 9223372036854775807, false⟩,
        ⟨"b".toList, 9223372036854775807, false⟩] = 18446744073709551614 := by
  decide

/-- C23, amended: if the positive sizes of the File entries sum to less than `2^63`, then
with `all = true` the result is that sum; with `all = false`, on a well-nested filelist and
with no index of a `..` entry in `diffs`, it is the sum of the positive sizes of the File
entries whose index is in `diffs` or that lie inside a directory whose directory-enter
index is in `diffs`; without `diffs` it is 0; and for every `diffs` it is not negative and
not larger than the result with `all = true`. Without the bound on the sum the two results
are these sums taken modulo `2^64`. -/
theorem getIncrementalSize_spec (entries : List SFile) (diffs : List Nat)
    (hfit : allSizeRef entries < 2 ^ 63) :
    getIncrementalSize entries diffs true = allSizeRef entries ∧
    ((depthAfter 0 entries).isSome = true →
      (∀ j ∈ dotdotIndices 0 entries, j ∉ diffs) →
      getIncrementalSize entries diffs false = incrementalSizeRef diffs 0 [] entries) ∧
    getIncrementalSize entries [] false = 0 ∧
    (∀ all : Bool, 0 ≤ getIncrementalSize entries diffs all ∧
      getIncrementalSize entries diffs all ≤ getIncrementalSize entries diffs true) ∧
    (∀ (es : List SFile) (ds : List Nat),
      getIncrementalSize es ds true = wrapInt64 (allSizeRef es) ∧
      ((depthAfter 0 es).isSome = true → (∀ j ∈ dotdotIndices 0 es, j ∉ ds) →
        getIncrementalSize es ds false = wrapInt64 (incrementalSizeRef ds 0 [] es))) := by
  have hall : getIncrementalSize entries diffs true = allSizeRef entries := by
    rw [getIncrementalSize_all, wrapInt64_of_range _ (allSizeRef_nonneg entries) hfit]
  refine ⟨hall, ?_, ?_, ?_, ?_⟩
  · intro hwn hdd
    obtain ⟨h0, h1⟩ := incrementalSizeRef_bounds diffs entries 0 []
    rw [getIncrementalSize_diffs entries diffs hwn hdd,
      wrapInt64_of_range _ h0 (lt_of_le_of_lt h1 hfit)]
  · unfold getIncrementalSize
    rw [incr_no_diffs entries _ rfl]
  · intro all
    obtain ⟨S, h0, h1, h2⟩ := getIncrementalSize_sub entries diffs all
    rw [h2, wrapInt64_of_range _ h0 (lt_of_le_of_lt h1 hfit), hall]
    exact ⟨h0, h1⟩
  · intro es ds
    exact ⟨getIncrementalSize_all es ds, getIncrementalSize_diffs es ds⟩

/-- C23, amended, witness: the directory `a` with the file `x` of 10 bytes, behind it the
files `y` of 5 bytes and `z` of 0 bytes; with the index 0 of `a` in `diffs` the size
is 10. -/
theorem getIncrementalSize_spec_witness :
    allSizeRef
      [⟨"a".toList, 0, true⟩, ⟨"x".toList, 10, false⟩, ⟨"..".toList, 0, true⟩,
        ⟨"y".toList, 5, false⟩, ⟨"z".toList, 0, false⟩] < 2 ^ 63 ∧
    (depthAfter 0
      [⟨"a".toList, 0, true⟩, ⟨"x".toList, 10, false⟩, ⟨"..".toList, 0, true⟩,
        ⟨"y".toList, 5, false⟩, ⟨"z".toList, 0, false⟩]).isSome = true ∧
    (∀ j ∈ dotdotIndices 0
      [⟨"a".toList, 0, true⟩, ⟨"x".toList, 10, false⟩, ⟨"..".toList, 0, true⟩,
        ⟨"y".toList, 5, false⟩, ⟨"z".toList, 0, false⟩], j ∉ [0]) ∧
    getIncrementalSize
      [⟨"a".toList, 0, true⟩, ⟨"x".toList, 10, false⟩, ⟨"..".toList, 0, true⟩,
        ⟨"y".toList, 5, false⟩, ⟨"z".toList, 0, false⟩] [0] false = 10 :=
  ⟨by decide, by decide, by decide,
    ((getIncrementalSize_spec
      [⟨"a".toList, 0, true⟩, ⟨"x".toList, 10, false⟩, ⟨"..".toList, 0, true⟩,
        ⟨"y".toList, 5, false⟩, ⟨"z".toList, 0, false⟩] [0] (by decide)).2.1 (by decide)
      (by decide)).trans (by decide)⟩

/-! ## `createSymlink` -/

theorem dotdotSteps_eq (os : OsEnv) (depth : Nat) :
    dotdotSteps os depth = (List.replicate depth (dotdot ++ os.os_file_sep)).flatten := by
  induction depth with
  | zero => rfl
  | succ n ih =>
    rw [dotdotSteps, ih, List.replicate_succ', List.flatten_append]
    simp

theorem Posix.ret_indep (hexMD5 : Str → Str) (t t2 : PathCorrections) (fn : Str) :
    (Posix.fixFilenameForOS hexMD5 t fn [] []).ret
      = (Posix.fixFilenameForOS hexMD5 t2 fn [] []).ret := by
  rw [Posix.ret_eq, Posix.ret_eq]

theorem createSymlinkLoop_eq (hexMD5 : Str → Str) (toks : List Str) :
    ∀ (target : Str) (fc : PathCorrections),
      (createSymlinkLoop (Posix.osEnv hexMD5) toks (target, fc)).1 =
        target ++
          ((symlinkPieces
              (fun tok => (Posix.fixFilenameForOS hexMD5 (fun _ => none) tok [] []).ret)
              toks).map fun p => p.1 ++ if p.2 then ['/'] else []).flatten := by
  induction toks with
  | nil => intro target fc; simp [createSymlinkLoop, symlinkPieces]
  | cons tok left ih =>
    intro target fc
    have hr := Posix.ret_indep hexMD5 fc (fun _ => none) tok
    have hos : (Posix.osEnv hexMD5).fixFilenameForOS = Posix.fixFilenameForOS hexMD5 := rfl
    have hsep : (Posix.osEnv hexMD5).os_file_sep = ['/'] := rfl
    unfold createSymlinkLoop symlinkPieces
    simp only [hos, hsep]
    rw [hr]
    by_cases hdot : (Posix.fixFilenameForOS hexMD5 (fun _ => none) tok [] []).ret = dotdot ∨
        (Posix.fixFilenameForOS hexMD5 (fun _ => none) tok [] []).ret = ['.']
    · have hb : ((Posix.fixFilenameForOS hexMD5 (fun _ => none) tok [] []).ret == dotdot ||
          (Posix.fixFilenameForOS hexMD5 (fun _ => none) tok [] []).ret == ['.']) = true := by
        rcases hdot with h | h
        · rw [h]; rfl
        · rw [h]; rfl
      rw [if_pos hb, if_pos hdot, ih]
      rfl
    · have hb : ¬ ((Posix.fixFilenameForOS hexMD5 (fun _ => none) tok [] []).ret == dotdot ||
          (Posix.fixFilenameForOS hexMD5 (fun _ => none) tok [] []).ret == ['.']) = true := by
        intro h
        rw [Bool.or_eq_true, beq_iff_eq, beq_iff_eq] at h
        exact hdot h
      rw [if_neg hb, if_neg hdot, ih]
      simp [List.append_assoc]

theorem symlinkPieces_mem (legalize : Str → Str) (toks : List Str) :
    ∀ p ∈ symlinkPieces legalize toks,
      (∃ tok ∈ toks, p.1 = legalize tok) ∧ p.1 ≠ ['.'] ∧ p.1 ≠ dotdot := by
  induction toks with
  | nil => intro p hp; simp [symlinkPieces] at hp
  | cons tok left ih =>
    intro p hp
    unfold symlinkPieces at hp
    rcases List.mem_append.1 hp with hp | hp
    · split at hp
      · simp at hp
      · next hn =>
        simp only [List.mem_singleton] at hp
        subst hp
        refine ⟨⟨tok, List.mem_cons_self _ _, rfl⟩, ?_, ?_⟩
        · exact fun h => hn (Or.inr h)
        · exact fun h => hn (Or.inl h)
    · obtain ⟨⟨t, ht, he⟩, h2, h3⟩ := ih p hp
      exact ⟨⟨t, List.mem_cons_of_mem _ ht, he⟩, h2, h3⟩

theorem Posix.ret_eq_short (hexMD5 : Str → Str) (t : PathCorrections) (fn s : Str)
    (hs : s.length < NAME_MAX - 11) (hd : '-' ∉ s) (hsl : '/' ∉ s) :
    (Posix.fixFilenameForOS hexMD5 t fn [] []).ret = s ↔ fn = s := by
  rw [Posix.ret_eq]
  constructor
  · intro h
    split at h
    · exact h
    · exfalso
      apply hd
      rw [← h]
      simp
  · intro h
    rw [h, if_pos ⟨hs, hsl⟩]

theorem symlinkPieces_components (hexMD5 : Str → Str) (toks : List Str) :
    (symlinkPieces (fun tok => (Posix.fixFilenameForOS hexMD5 (fun _ => none) tok [] []).ret)
        toks).map (fun p => p.1)
      = (toks.filter fun tok => decide (tok ≠ dotdot ∧ tok ≠ ['.'])).map
          fun tok => (Posix.fixFilenameForOS hexMD5 (fun _ => none) tok [] []).ret := by
  induction toks with
  | nil => rfl
  | cons tok left ih =>
    have h1 := Posix.ret_eq_short hexMD5 (fun _ => none) tok dotdot (by decide) (by decide)
      (by decide)
    have h2 := Posix.ret_eq_short hexMD5 (fun _ => none) tok ['.'] (by decide) (by decide)
      (by decide)
    unfold symlinkPieces
    rw [List.map_append, ih, List.filter_cons]
    by_cases hdot : tok = dotdot ∨ tok = ['.']
    · have : (Posix.fixFilenameForOS hexMD5 (fun _ => none) tok [] []).ret = dotdot ∨
          (Posix.fixFilenameForOS hexMD5 (fun _ => none) tok [] []).ret = ['.'] := by
        rcases hdot with h | h
        · exact Or.inl (h1.2 h)
        · exact Or.inr (h2.2 h)
      rw [if_pos this, if_neg]
      · rfl
      · rw [decide_eq_true_eq]
        rintro ⟨a, b⟩
        rcases hdot with h | h
        · exact a h
        · exact b h
    · have : ¬ ((Posix.fixFilenameForOS hexMD5 (fun _ => none) tok [] []).ret = dotdot ∨
          (Posix.fixFilenameForOS hexMD5 (fun _ => none) tok [] []).ret = ['.']) := by
        rintro (h | h)
        · exact hdot (Or.inl (h1.1 h))
        · exact hdot (Or.inr (h2.1 h))
      rw [if_neg this, if_pos]
      · rfl
      · rw [decide_eq_true_eq]
        exact ⟨fun h => hdot (Or.inl h), fun h => hdot (Or.inr h)⟩

theorem pathSegments_sep (a : Str) (h : '/' ∉ a) (b : Str) :
    pathSegments (a ++ '/' :: b) = a :: pathSegments b := by
  induction a with
  | nil => simp [pathSegments]
  | cons c r ih =>
    have hc : c ≠ '/' := fun e => h (by rw [e]; exact List.mem_cons_self _ _)
    have hr : '/' ∉ r := fun m => h (List.mem_cons_of_mem _ m)
    rw [List.cons_append, pathSegments, if_neg hc, ih hr]

theorem pathSegments_single (a : Str) (h : '/' ∉ a) : pathSegments a = [a] := by
  induction a with
  | nil => rfl
  | cons c r ih =>
    have hc : c ≠ '/' := fun e => h (by rw [e]; exact List.mem_cons_self _ _)
    have hr : '/' ∉ r := fun m => h (List.mem_cons_of_mem _ m)
    rw [pathSegments, if_neg hc, ih hr]

theorem climbOk_of_no_dotdot (segs : List Str) (h : ∀ s ∈ segs, s ≠ dotdot) :
    ∀ room, climbOk room segs = true := by
  induction segs with
  | nil => intro room; rfl
  | cons seg more ih =>
    intro room
    have h1 : seg ≠ dotdot := h seg (List.mem_cons_self _ _)
    have h2 := ih (fun s hs => h s (List.mem_cons_of_mem _ hs))
    unfold climbOk
    rw [if_neg h1]
    split
    · exact h2 room
    · exact h2 (room + 1)

theorem climbOk_dotdots (segs : List Str) (depth : Nat) :
    ∀ room, climbOk (depth + room) (List.replicate depth dotdot ++ segs)
      = climbOk room segs := by
  induction depth with
  | zero => intro room; simp
  | succ n ih =>
    intro room
    rw [List.replicate_succ, List.cons_append,
      show n + 1 + room = (n + room) + 1 by omega]
    simp only [climbOk, if_true]
    exact ih room

theorem pathSegments_dotdots (body : Str) (depth : Nat) :
    pathSegments ((List.replicate depth (dotdot ++ ['/'])).flatten ++ body)
      = List.replicate depth dotdot ++ pathSegments body := by
  induction depth with
  | zero => simp
  | succ n ih =>
    rw [List.replicate_succ, List.flatten_cons, List.append_assoc, List.append_assoc,
      List.singleton_append, pathSegments_sep dotdot (by decide), ih]
    rfl

theorem Posix.body_segments (hexMD5 : Str → Str)
    (hhex : ∀ (s : Str), ∀ c ∈ hexMD5 s, isHexChar c = true) (toks : List Str) :
    ∀ s ∈ pathSegments
        ((symlinkPieces
            (fun tok => (Posix.fixFilenameForOS hexMD5 (fun _ => none) tok [] []).ret)
            toks).map fun p => p.1 ++ if p.2 then ['/'] else []).flatten,
      s ≠ dotdot := by
  induction toks with
  | nil => intro s hs; simp [symlinkPieces, pathSegments] at hs; rw [hs]; decide
  | cons tok left ih =>
    intro s hs
    unfold symlinkPieces at hs
    split at hs
    · exact ih s (by simpa using hs)
    · next hn =>
      have hsl : '/' ∉ (Posix.fixFilenameForOS hexMD5 (fun _ => none) tok [] []).ret :=
        Posix.ret_no_slash hexMD5 _ tok [] [] (hhex tok)
      cases left with
      | nil =>
        simp only [symlinkPieces, List.isEmpty_nil, Bool.not_true, List.append_nil,
          List.map_cons, List.map_nil, Bool.false_eq_true, if_false, List.flatten_cons,
          List.flatten_nil] at hs
        rw [pathSegments_single _ hsl, List.mem_singleton] at hs
        rw [hs]
        exact fun h => hn (Or.inl h)
      | cons t2 l2 =>
        simp only [List.isEmpty_cons, Bool.not_false, List.singleton_append, List.map_cons,
          if_true, List.flatten_cons, List.append_assoc] at hs
        rw [pathSegments_sep _ hsl] at hs
        rcases List.mem_cons.1 hs with h | h
        · rw [h]
          exact fun h2 => hn (Or.inl h2)
        · exact ih s h

theorem Posix.pieces_head (hexMD5 : Str → Str) (toks : List Str) :
    (symlinkPieces (fun tok => (Posix.fixFilenameForOS hexMD5 (fun _ => none) tok [] []).ret)
        toks).head? = some ([], true) ↔ leadingEmptyToken toks = true := by
  induction toks with
  | nil => simp [symlinkPieces, leadingEmptyToken]
  | cons tok left ih =>
    have h1 := Posix.ret_eq_short hexMD5 (fun _ => none) tok dotdot (by decide) (by decide)
      (by decide)
    have h2 := Posix.ret_eq_short hexMD5 (fun _ => none) tok ['.'] (by decide) (by decide)
      (by decide)
    have h3 := Posix.ret_eq_short hexMD5 (fun _ => none) tok [] (by decide) (by decide)
      (by decide)
    unfold symlinkPieces leadingEmptyToken
    by_cases hdot : tok = dotdot ∨ tok = ['.']
    · have : (Posix.fixFilenameForOS hexMD5 (fun _ => none) tok [] []).ret = dotdot ∨
          (Posix.fixFilenameForOS hexMD5 (fun _ => none) tok [] []).ret = ['.'] := by
        rcases hdot with h | h
        · exact Or.inl (h1.2 h)
        · exact Or.inr (h2.2 h)
      rw [if_pos this, if_pos hdot, List.nil_append]
      exact ih
    · have : ¬ ((Posix.fixFilenameForOS hexMD5 (fun _ => none) tok [] []).ret = dotdot ∨
          (Posix.fixFilenameForOS hexMD5 (fun _ => none) tok [] []).ret = ['.']) := by
        rintro (h | h)
        · exact hdot (Or.inl (h1.1 h))
        · exact hdot (Or.inr (h2.1 h))
      rw [if_neg this, if_neg hdot]
      simp only [List.singleton_append, List.head?_cons, Option.some.injEq, Prod.mk.injEq,
        Bool.and_eq_true, decide_eq_true_eq]
      rw [h3]

theorem body_head (pieces : List (Str × Bool)) (hsl : ∀ p ∈ pieces, '/' ∉ p.1)
    (hlast : ∀ p rest, pieces = p :: rest → p.2 = false → rest = []) :
    ((pieces.map fun p => p.1 ++ if p.2 then ['/'] else []).flatten).head? = some '/' ↔
      pieces.head? = some ([], true) := by
  cases pieces with
  | nil => simp
  | cons p rest =>
    obtain ⟨n, b⟩ := p
    have hn : '/' ∉ n := hsl (n, b) (List.mem_cons_self _ _)
    cases n with
    | cons c r =>
      have hc : c ≠ '/' := fun e => hn (by rw [e]; exact List.mem_cons_self _ _)
      simp [hc]
    | nil =>
      cases b with
      | true => simp
      | false =>
        have := hlast ([], false) rest rfl rfl
        subst this
        simp

theorem symlinkPieces_last (legalize : Str → Str) (toks : List Str) :
    ∀ p rest, symlinkPieces legalize toks = p :: rest → p.2 = false → rest = [] := by
  induction toks with
  | nil => intro p rest h; simp [symlinkPieces] at h
  | cons tok left ih =>
    intro p rest h hp
    unfold symlinkPieces at h
    split at h
    · exact ih p rest (by simpa using h) hp
    · simp only [List.singleton_append, List.cons.injEq] at h
      obtain ⟨h1, h2⟩ := h
      rw [← h1] at hp
      simp only [Bool.not_eq_false_eq_eq_true, List.isEmpty_iff] at hp
      rw [← h2, hp]
      rfl

theorem Posix.target_staysWithin (hexMD5 : Str → Str)
    (hhex : ∀ (s : Str), ∀ c ∈ hexMD5 s, isHexChar c = true) (toks : List Str)
    (depth : Nat) :
    staysWithin depth
        (symlinkTargetRef ['/'] depth
          (symlinkPieces
            (fun tok => (Posix.fixFilenameForOS hexMD5 (fun _ => none) tok [] []).ret) toks))
        = true ↔
      ¬ (depth = 0 ∧ leadingEmptyToken toks = true) := by
  have hclimb : climbOk depth (pathSegments
      (symlinkTargetRef ['/'] depth
        (symlinkPieces
          (fun tok => (Posix.fixFilenameForOS hexMD5 (fun _ => none) tok [] []).ret) toks)))
      = true := by
    unfold symlinkTargetRef
    rw [pathSegments_dotdots]
    have := climbOk_dotdots (pathSegments
      ((symlinkPieces
          (fun tok => (Posix.fixFilenameForOS hexMD5 (fun _ => none) tok [] []).ret)
          toks).map fun p => p.1 ++ if p.2 then ['/'] else []).flatten) depth 0
    rw [Nat.add_zero] at this
    rw [this]
    exact climbOk_of_no_dotdot _ (Posix.body_segments hexMD5 hhex toks) 0
  unfold staysWithin
  rw [hclimb, Bool.and_true]
  cases depth with
  | succ n =>
    simp [symlinkTargetRef, List.replicate_succ, dotdot]
  | zero =>
    have hb := body_head
      (symlinkPieces
        (fun tok => (Posix.fixFilenameForOS hexMD5 (fun _ => none) tok [] []).ret) toks)
      (fun p hp => by
        obtain ⟨⟨tok, _, he⟩, _, _⟩ := symlinkPieces_mem _ _ p hp
        rw [he]
        exact Posix.ret_no_slash hexMD5 _ tok [] [] (hhex tok))
      (symlinkPieces_last _ toks)
    rw [Posix.pieces_head] at hb
    simp only [symlinkTargetRef, List.replicate_zero, List.flatten_nil, List.nil_append,
      true_and]
    rw [← hb]
    simp

set_option maxRecDepth 100000 in
/-- C24, as stated, fails: with the tokens `""`, `etc`, `passwd` (a target that begins with
the separator, cut by a tokenizer that keeps the empty token in front of it) and depth 0
the target built is `/etc/passwd`, an absolute path: it leaves the directory of the link
altogether. -/
theorem createSymlink_builds_absolute_target :
    (createSymlink (Posix.osEnv GenerateHexMD5)
        (fun _ _ => ["".toList, "etc".toList, "passwd".toList])
        (fun _ => none) "link".toList 0 "/etc/passwd".toList "/".toList).1
      = ("/etc/passwd".toList, "link".toList) ∧
    staysWithin 0 "/etc/passwd".toList = false := by
  decide

/-- C24, amended: on the POSIX-like target the target given to `os_link_symbolic` is `depth`
copies of `../` followed by path components, each with or without a `/` behind it; the
components are, in order, the legalized forms of the tokens of `symlink_target` other than
`.` and `..`; none of them is `.` or `..`, and none contains `/`. The target does not climb
higher than `depth` levels, except when `depth` is 0 and the first token other than `.` and
`..` is empty and has a token behind it: then the target begins with `/`. -/
theorem createSymlink_target (hexMD5 : Str → Str) (TokenizeMail : Str → Str → List Str)
    (filepath_corrections : PathCorrections) (name : Str) (depth : Nat)
    (symlink_target dir_sep : Str)
    (hhex : ∀ (s : Str), ∀ c ∈ hexMD5 s, isHexChar c = true) :
    (createSymlink (Posix.osEnv hexMD5) TokenizeMail filepath_corrections name depth
        symlink_target dir_sep).1
      = (symlinkTargetRef ['/'] depth
          (symlinkPieces
            (fun tok => (Posix.fixFilenameForOS hexMD5 (fun _ => none) tok [] []).ret)
            (TokenizeMail symlink_target dir_sep)), name) ∧
    (symlinkPieces (fun tok => (Posix.fixFilenameForOS hexMD5 (fun _ => none) tok [] []).ret)
        (TokenizeMail symlink_target dir_sep)).map (fun p => p.1)
      = ((TokenizeMail symlink_target dir_sep).filter
          fun tok => decide (tok ≠ dotdot ∧ tok ≠ ['.'])).map
          (fun tok => (Posix.fixFilenameForOS hexMD5 (fun _ => none) tok [] []).ret) ∧
    (∀ p ∈ symlinkPieces
        (fun tok => (Posix.fixFilenameForOS hexMD5 (fun _ => none) tok [] []).ret)
        (TokenizeMail symlink_target dir_sep),
      p.1 ≠ ['.'] ∧ p.1 ≠ dotdot ∧ '/' ∉ p.1) ∧
    (staysWithin depth
        (createSymlink (Posix.osEnv hexMD5) TokenizeMail filepath_corrections name depth
          symlink_target dir_sep).1.1 = true ↔
      ¬ (depth = 0 ∧ leadingEmptyToken (TokenizeMail symlink_target dir_sep) = true)) := by
  have htarget : (createSymlink (Posix.osEnv hexMD5) TokenizeMail filepath_corrections name
        depth symlink_target dir_sep).1
      = (symlinkTargetRef ['/'] depth
          (symlinkPieces
            (fun tok => (Posix.fixFilenameForOS hexMD5 (fun _ => none) tok [] []).ret)
            (TokenizeMail symlink_target dir_sep)), name) := by
    unfold createSymlink symlinkTargetRef
    simp only []
    rw [createSymlinkLoop_eq, dotdotSteps_eq]
    rfl
  refine ⟨htarget, symlinkPieces_components hexMD5 _, ?_, ?_⟩
  · intro p hp
    obtain ⟨⟨tok, _, he⟩, h2, h3⟩ := symlinkPieces_mem _ _ p hp
    refine ⟨h2, h3, ?_⟩
    rw [he]
    exact Posix.ret_no_slash hexMD5 _ tok [] [] (hhex tok)
  · rw [htarget]
    exact Posix.target_staysWithin hexMD5 hhex _ depth

set_option maxRecDepth 100000 in
/-- C24, amended, witness: with RFC 1321 MD5, the tokens `""`, `..`, `etc`, `.`, `passwd`
and depth 2 the target is `../..//etc/passwd`, which stays within the two levels. -/
theorem createSymlink_target_witness :
    (∀ (s : Str), ∀ c ∈ GenerateHexMD5 s, isHexChar c = true) ∧
    (createSymlink (Posix.osEnv GenerateHexMD5)
        (fun _ _ => ["".toList, "..".toList, "etc".toList, ".".toList, "passwd".toList])
        (fun _ => none) "link".toList 2 "/../etc/./passwd".toList "/".toList).1
      = ("../..//etc/passwd".toList, "link".toList) ∧
    staysWithin 2 "../..//etc/passwd".toList = true :=
  ⟨GenerateHexMD5_isHex,
    (createSymlink_target GenerateHexMD5
      (fun _ _ => ["".toList, "..".toList, "etc".toList, ".".toList, "passwd".toList])
      (fun _ => none) "link".toList 2 "/../etc/./passwd".toList "/".toList
      GenerateHexMD5_isHex).1.trans (by decide),
    by decide⟩

end FileBackup
